import Mathlib

/-!
Verification of the MTGADraft server core against its specification.

The JavaScript sources are shallowly embedded: card and user identifiers
become `Nat`, JS arrays become `List`, JS objects used as dictionaries
become association lists in insertion order, JS `Set`s become duplicate-free
lists in insertion order, and `Math.random()` is modelled by an explicit
stream of rational rolls consumed left to right.  Socket emissions are
collected into explicit event lists.
-/

/-- Card identifiers (MTGA arena ids). -/
abbrev CardID := Nat

/-- Opaque user identifiers. -/
abbrev UserID := Nat

/-- Session identifiers. -/
abbrev SessionID := Nat

/-- JS `array.splice(array.findIndex(c => c === x), 1)` : when `x` occurs, the
first occurrence is removed; when it does not, `findIndex` returns `-1` and
`splice(-1, 1)` removes the LAST element of a non-empty array (and nothing
from an empty one). -/
def jsSpliceFindIdx (x : CardID) (l : List CardID) : List CardID :=
  match l.findIdx? (· = x) with
  | some i => l.eraseIdx i
  | none => l.dropLast

/-- Replace the value bound to `k` in an association list (JS object field
assignment); appends when `k` is absent, mirroring JS property creation. -/
def setA {β : Type} (l : List (UserID × β)) (k : UserID) (v : β) : List (UserID × β) :=
  match l with
  | [] => [(k, v)]
  | (k', v') :: t => if k' = k then (k, v) :: t else (k', v') :: setA t k v

/-- Draft-local fields of `Connections[userID]` used by `Session.pickCard`. -/
structure PickConn where
  boosterIndex : Option Int
  pickedThisRound : Bool
  pickedCards : List CardID
deriving DecidableEq, Repr

/-- One entry of `draftLog.users[userID].picks`. -/
structure PickLogEntry where
  pick : CardID
  burn : Option (List CardID)
  booster : List CardID
deriving DecidableEq, Repr

/-- The slice of session and participant state read and written by
`Session.pickCard` (Session.js).  `logPicks` collects the appended draft-log
entries, keyed by user. -/
structure PickSession where
  drafting : Bool
  users : List UserID
  disconnectedCount : Nat
  boosters : List (List CardID)
  burnedCardsPerRound : Nat
  conns : List (UserID × PickConn)
  logPicks : List (UserID × PickLogEntry)
  pickedCardsThisRound : Nat
deriving DecidableEq, Repr

/-- Lookup of `Connections[userID]` (a session user always has a connection
in the live system; the default is never reached under the theorems'
hypotheses). -/
def getConn (s : PickSession) (u : UserID) : PickConn :=
  (s.conns.lookup u).getD ⟨none, false, []⟩

/-- Session.getHumanPlayerCount: `users.size` plus the number of
disconnected users. -/
def humanPlayerCount (s : PickSession) : Nat :=
  s.users.length + s.disconnectedCount

/-- The acknowledgement value passed to the `pickCard` callback: `ok` stands
for `{code: 0}` and `err` for `{code: 1, error}`. -/
inductive PickAck
  | ok
  | err
deriving DecidableEq, Repr

/-- Events emitted by `Session.pickCard`: the `updateUser` fan-out telling
`target` that `who` has `pickedThisRound: true`. -/
inductive PickEv
  | updateUserPicked (target : UserID) (who : UserID)
deriving DecidableEq, Repr

/-- Result of `Session.pickCard`: the new state, the emitted events, whether
`pickedCardsThisRound` reached `getHumanPlayerCount()` (at which point the
source calls `this.nextBooster()`, modelled separately), and the
acknowledgement (`none` when the source returns `undefined`). -/
structure PickResult where
  state : PickSession
  events : List PickEv
  roundComplete : Bool
  ack : Option PickAck
deriving DecidableEq, Repr

/-- The burned-cards validation of `Session.pickCard` (Session.js): with
`burnedCards` absent (`undefined`) the whole check is skipped (`burnedCards
&& ...`); an empty array is truthy in JS and is checked. -/
def burnedInvalid (bcpr : Nat) (booster : List CardID) (burned : Option (List CardID)) : Bool :=
  match burned with
  | none => false
  | some bs =>
      decide (bs.length > bcpr) ||
      (decide (bs.length ≠ bcpr) && decide (booster.length ≠ 1 + bs.length)) ||
      bs.any (fun c => decide (c ∉ booster))

/-- State update performed by the success path of `Session.pickCard`: draft
log entry appended (with the pre-removal booster snapshot), the card pushed
to `pickedCards`, `pickedThisRound` set, the first occurrence of the picked
card spliced out, then each burned id spliced out in order. -/
def pickSuccessState (s : PickSession) (userID : UserID) (cardID : CardID)
    (burnedCards : Option (List CardID)) (bi : Int) : PickSession :=
  { s with
    boosters := s.boosters.set bi.toNat
      ((burnedCards.getD []).foldl (fun b c => jsSpliceFindIdx c b)
        (jsSpliceFindIdx cardID (s.boosters.getD bi.toNat [])))
    conns := setA s.conns userID
      ⟨(getConn s userID).boosterIndex, true, (getConn s userID).pickedCards ++ [cardID]⟩
    logPicks := s.logPicks ++ [(userID, ⟨cardID, burnedCards, s.boosters.getD bi.toNat []⟩)]
    pickedCardsThisRound := s.pickedCardsThisRound + 1 }

/-- Shallow embedding of `Session.pickCard(userID, cardID, burnedCards)`
(Session.js); the JS `const` bindings are inlined.  The final
`this.nextBooster()` call on round completion is not inlined;
`roundComplete` reports whether it would fire. -/
def sessionPickCard (s : PickSession) (userID : UserID) (cardID : CardID)
    (burnedCards : Option (List CardID)) : PickResult :=
  if ¬ (s.drafting = true ∧ userID ∈ s.users) then ⟨s, [], false, none⟩
  else
    match (getConn s userID).boosterIndex with
    | none => ⟨s, [], false, some .err⟩
    | some bi =>
      if bi < 0 ∨ (s.boosters.length : Int) ≤ bi then ⟨s, [], false, some .err⟩
      else if ¬ cardID ∈ s.boosters.getD bi.toNat [] then ⟨s, [], false, some .err⟩
      else if (getConn s userID).pickedThisRound then ⟨s, [], false, some .err⟩
      else if burnedInvalid s.burnedCardsPerRound (s.boosters.getD bi.toNat []) burnedCards
        then ⟨s, [], false, some .err⟩
      else
        ⟨pickSuccessState s userID cardID burnedCards bi,
         s.users.map (fun u => PickEv.updateUserPicked u userID),
         s.pickedCardsThisRound + 1 = humanPlayerCount s, some .ok⟩

/-- The validation conjunction exactly as claim C1 words it: user in session,
drafting, boosterIndex in range, card in the booster, not already picked,
and the burned cards are at most `burnedCardsPerRound` many, exactly
`burnedCardsPerRound` many unless the booster has fewer than
`1 + burnedCardsPerRound` cards left, and all taken from the booster. -/
def pickValidClaimC1Rest (s : PickSession) (cardID : CardID)
    (burnedCards : Option (List CardID)) : Option Int → Prop
  | none => False
  | some bi =>
      0 ≤ bi ∧ bi < (s.boosters.length : Int) ∧
      cardID ∈ s.boosters.getD bi.toNat [] ∧
      (let bs := burnedCards.getD []
       bs.length ≤ s.burnedCardsPerRound ∧
       (bs.length = s.burnedCardsPerRound ∨
         (s.boosters.getD bi.toNat []).length < 1 + s.burnedCardsPerRound) ∧
       ∀ x ∈ bs, x ∈ s.boosters.getD bi.toNat [])

instance (s : PickSession) (c : CardID) (b : Option (List CardID)) :
    (o : Option Int) → Decidable (pickValidClaimC1Rest s c b o)
  | none => .isFalse (fun h => h)
  | some _ => inferInstanceAs (Decidable (_ ∧ _))

def pickValidClaimC1 (s : PickSession) (userID : UserID) (cardID : CardID)
    (burnedCards : Option (List CardID)) : Prop :=
  s.drafting = true ∧ userID ∈ s.users ∧
  (getConn s userID).pickedThisRound = false ∧
  pickValidClaimC1Rest s cardID burnedCards (getConn s userID).boosterIndex

instance (s : PickSession) (u : UserID) (c : CardID) (b : Option (List CardID)) :
    Decidable (pickValidClaimC1 s u c b) :=
  inferInstanceAs (Decidable (_ ∧ _))

/-- The burned-cards condition as the code actually enforces it (amended
claim): when `burnedCards` is supplied, its length is at most
`burnedCardsPerRound` and either equals it or the booster holds exactly
`1 + |burnedCards|` cards, and every burned id is in the booster; an absent
`burnedCards` is never rejected. -/
def burnedOkAmended (bcpr : Nat) (booster : List CardID)
    (burned : Option (List CardID)) : Prop :=
  ∀ bs, burned = some bs →
    bs.length ≤ bcpr ∧ (bs.length = bcpr ∨ booster.length = 1 + bs.length) ∧
    ∀ x ∈ bs, x ∈ booster

theorem burnedOkAmended_some (bcpr : Nat) (booster bs : List CardID) :
    burnedOkAmended bcpr booster (some bs) ↔
      bs.length ≤ bcpr ∧ (bs.length = bcpr ∨ booster.length = 1 + bs.length) ∧
      ∀ x ∈ bs, x ∈ booster := by
  constructor
  · intro h; exact h bs rfl
  · intro h l hl; injection hl with hl; subst hl; exact h

instance (bcpr : Nat) (booster : List CardID) :
    (b : Option (List CardID)) → Decidable (burnedOkAmended bcpr booster b)
  | none => .isTrue (by intro bs h; cases h)
  | some bs => decidable_of_iff _ (burnedOkAmended_some bcpr booster bs).symm

def pickValidAmendedRest (s : PickSession) (cardID : CardID)
    (burnedCards : Option (List CardID)) : Option Int → Prop
  | none => False
  | some bi =>
      0 ≤ bi ∧ bi < (s.boosters.length : Int) ∧
      cardID ∈ s.boosters.getD bi.toNat [] ∧
      burnedOkAmended s.burnedCardsPerRound (s.boosters.getD bi.toNat []) burnedCards

instance (s : PickSession) (c : CardID) (b : Option (List CardID)) :
    (o : Option Int) → Decidable (pickValidAmendedRest s c b o)
  | none => .isFalse (fun h => h)
  | some _ => inferInstanceAs (Decidable (_ ∧ _))

/-- The full validation of `Session.pickCard` as amended: like the claim but
with the code's burned-cards rule, stated over the embedding. -/
def pickValidAmendedC1 (s : PickSession) (userID : UserID) (cardID : CardID)
    (burnedCards : Option (List CardID)) : Prop :=
  s.drafting = true ∧ userID ∈ s.users ∧
  (getConn s userID).pickedThisRound = false ∧
  pickValidAmendedRest s cardID burnedCards (getConn s userID).boosterIndex

instance (s : PickSession) (u : UserID) (c : CardID) (b : Option (List CardID)) :
    Decidable (pickValidAmendedC1 s u c b) :=
  inferInstanceAs (Decidable (_ ∧ _))

theorem burnedInvalid_iff (bcpr : Nat) (booster : List CardID)
    (burned : Option (List CardID)) :
    burnedInvalid bcpr booster burned = false ↔ burnedOkAmended bcpr booster burned := by
  cases burned with
  | none =>
    constructor
    · intro _ bs h; cases h
    · intro _; rfl
  | some bs =>
    rw [burnedOkAmended_some]
    simp only [burnedInvalid, Bool.or_eq_false_iff, decide_eq_false_iff_not, not_lt,
      List.any_eq_false, not_not, Bool.and_eq_false_iff, ne_eq, decide_eq_true_eq,
      and_assoc]

theorem sessionPickCard_no_ack (s : PickSession) (u : UserID) (c : CardID)
    (b : Option (List CardID)) (hg : ¬ (s.drafting = true ∧ u ∈ s.users)) :
    sessionPickCard s u c b = ⟨s, [], false, none⟩ := by
  unfold sessionPickCard
  rw [if_pos hg]

theorem sessionPickCard_not_valid (s : PickSession) (u : UserID) (c : CardID)
    (b : Option (List CardID)) (hg : s.drafting = true ∧ u ∈ s.users)
    (hv : ¬ pickValidAmendedC1 s u c b) :
    sessionPickCard s u c b = ⟨s, [], false, some PickAck.err⟩ := by
  unfold sessionPickCard
  rw [if_neg (not_not_intro hg)]
  cases hbi : (getConn s u).boosterIndex with
  | none => rfl
  | some bi =>
    dsimp only
    by_cases h1 : bi < 0 ∨ (s.boosters.length : Int) ≤ bi
    · rw [if_pos h1]
    · rw [if_neg h1]
      by_cases h2 : c ∈ s.boosters.getD bi.toNat []
      · rw [if_neg (not_not_intro h2)]
        by_cases h3 : (getConn s u).pickedThisRound = true
        · rw [if_pos h3]
        · rw [if_neg h3]
          by_cases h4 :
              burnedInvalid s.burnedCardsPerRound (s.boosters.getD bi.toNat []) b = true
          · rw [if_pos h4]
          · exfalso
            apply hv
            push_neg at h1
            have h3' : (getConn s u).pickedThisRound = false := by
              revert h3; cases (getConn s u).pickedThisRound <;> simp
            have h4' : burnedInvalid s.burnedCardsPerRound (s.boosters.getD bi.toNat []) b
                = false := by
              revert h4
              cases burnedInvalid s.burnedCardsPerRound (s.boosters.getD bi.toNat []) b <;>
                simp
            refine ⟨hg.1, hg.2, h3', ?_⟩
            rw [hbi]
            exact ⟨h1.1, h1.2, h2, (burnedInvalid_iff _ _ _).mp h4'⟩
      · rw [if_pos h2]

theorem sessionPickCard_valid_ack (s : PickSession) (u : UserID) (c : CardID)
    (b : Option (List CardID)) (hv : pickValidAmendedC1 s u c b) :
    (sessionPickCard s u c b).ack = some PickAck.ok := by
  obtain ⟨hd, hu, hp, hrest⟩ := hv
  unfold sessionPickCard
  rw [if_neg (not_not_intro ⟨hd, hu⟩)]
  cases hbi : (getConn s u).boosterIndex with
  | none => rw [hbi] at hrest; exact absurd hrest (fun h => h)
  | some bi =>
    rw [hbi] at hrest
    obtain ⟨h0, hlt, hc, hbok⟩ := hrest
    dsimp only
    rw [if_neg (by omega : ¬ (bi < 0 ∨ (s.boosters.length : Int) ≤ bi))]
    rw [if_neg (not_not_intro hc)]
    rw [if_neg (by rw [hp]; exact Bool.false_ne_true)]
    rw [if_neg (by rw [(burnedInvalid_iff _ _ _).mpr hbok]; exact Bool.false_ne_true)]

/-- Claim C1 (amended): `Session.pickCard` replies with the success
acknowledgement `{code:0}` exactly when all its validations hold, where the
burned-cards rule is the one the code enforces (when `burnedCards` is
supplied: its length is at most `burnedCardsPerRound` and either equals it
or the booster holds exactly `1 + |burnedCards|` cards, and every burned id
is in the booster; an absent `burnedCards` is never rejected); a failure of
the drafting-or-membership guard returns `undefined` (no acknowledgement at
all) while every other validation failure returns `{code:1, error}`; every
non-success leaves all session and participant state unchanged and emits no
event. -/
theorem c1_pickCard_ack_amended (s : PickSession) (u : UserID) (c : CardID)
    (b : Option (List CardID)) :
    ((sessionPickCard s u c b).ack = some PickAck.ok ↔ pickValidAmendedC1 s u c b) ∧
    ((sessionPickCard s u c b).ack ≠ some PickAck.ok →
      sessionPickCard s u c b = ⟨s, [], false, (sessionPickCard s u c b).ack⟩) ∧
    (¬ (s.drafting = true ∧ u ∈ s.users) → (sessionPickCard s u c b).ack = none) ∧
    (s.drafting = true ∧ u ∈ s.users → ¬ pickValidAmendedC1 s u c b →
      (sessionPickCard s u c b).ack = some PickAck.err) := by
  by_cases hg : s.drafting = true ∧ u ∈ s.users
  · by_cases hv : pickValidAmendedC1 s u c b
    · have hok := sessionPickCard_valid_ack s u c b hv
      exact ⟨⟨fun _ => hv, fun _ => hok⟩, fun hne => absurd hok hne,
        fun h => absurd hg h, fun _ hv' => absurd hv hv'⟩
    · have heq := sessionPickCard_not_valid s u c b hg hv
      rw [heq]
      exact ⟨⟨fun h => PickAck.noConfusion (Option.some.inj h), fun h => absurd h hv⟩,
        fun _ => rfl, fun h => absurd hg h, fun _ _ => rfl⟩
  · have heq := sessionPickCard_no_ack s u c b hg
    rw [heq]
    exact ⟨⟨fun h => Option.noConfusion h, fun h => absurd ⟨h.1, h.2.1⟩ hg⟩, fun _ => rfl,
      fun _ => rfl, fun h => absurd h hg⟩

/-- Concrete session used to separate claim C1 from the code: two cards left
in the booster, `burnedCardsPerRound = 2`, and an empty burned list. -/
def c1CexState : PickSession :=
  { drafting := true
    users := [1]
    disconnectedCount := 0
    boosters := [[5, 6]]
    burnedCardsPerRound := 2
    conns := [(1, ⟨some 0, false, []⟩)]
    logPicks := []
    pickedCardsThisRound := 0 }

/-- Claim C1 as stated is false: with two cards left, `burnedCardsPerRound =
2` and an empty burned list, each validation in the claim holds (zero burned
cards are at most 2, and the booster has fewer than `1 + 2` cards left), yet
the code replies `{code:1, error}` because the booster does not hold exactly
`1 + 0` cards. -/
theorem c1_pickCard_claim_counterexample :
    pickValidClaimC1 c1CexState 1 5 (some []) ∧
    (sessionPickCard c1CexState 1 5 (some [])).ack = some PickAck.err := by
  exact ⟨by decide, by decide⟩

/-- Witness: the amended C1 theorem applied to a concrete successful pick. -/
theorem c1_pickCard_ack_amended_witness :
    (sessionPickCard c1CexState 1 5 none).ack = some PickAck.ok ∧
    pickValidAmendedC1 c1CexState 1 5 none := by
  have h := (c1_pickCard_ack_amended c1CexState 1 5 none).1
  exact ⟨h.mpr (by decide), by decide⟩

/-- Concrete session showing the burned-card removal slip: booster `[5, 6]`,
pick card 5 and burn card 5 (a validated call, since id 5 is in the
booster). -/
def c10State : PickSession :=
  { drafting := true
    users := [1]
    disconnectedCount := 0
    boosters := [[5, 6]]
    burnedCardsPerRound := 2
    conns := [(1, ⟨some 0, false, []⟩)]
    logPicks := []
    pickedCardsThisRound := 0 }

/-- Claim C10 fails on the code: after the pick of card 5 removes the only
occurrence of 5, the burn of id 5 runs `splice(findIndex(...), 1)` with
`findIndex` returning `-1`, which deletes the LAST remaining card (6) even
though 6 is neither the picked card nor a listed burned card; the call is
fully validated and acknowledged with `{code:0}`. -/
theorem c10_pickCard_burn_removes_unlisted_card :
    (sessionPickCard c10State 1 5 (some [5])).ack = some PickAck.ok ∧
    (sessionPickCard c10State 1 5 (some [5])).state.boosters = [[]] ∧
    (6 : CardID) ∈ c10State.boosters.getD 0 [] ∧
    (6 : CardID) ∉ (5 : CardID) :: [(5 : CardID)] := by
  exact ⟨by decide, by decide, by decide, by decide⟩

/-- `Math.random()` returns a double in `[0, 1)`, which is exactly a dyadic
rational `r / 2^53`; rolls are modelled by their numerator `r`.  (Constants
such as `15.0 / 63.0` are idealised as exact rationals.) -/
def rollDen : Nat := 2 ^ 53

/-- Index drawn by `Math.floor(Math.random() * n)` when the roll is
`r / 2^53`: for any roll in `[0, 1)` this is exactly the JS value; the final
`% n` only totalises the function outside that range. -/
def jsRandIdx (r : Nat) (n : Nat) : Nat :=
  (r * n / rollDen) % n

/-- The comparison `roll <= num / den` on the dyadic roll `r / 2^53`. -/
def rollLe (r num den : Nat) : Bool :=
  decide (r * den ≤ num * rollDen)

/-- The comparison `roll * k < 1` on the dyadic roll `r / 2^53`. -/
def rollMulLtOne (r k : Nat) : Bool :=
  decide (r * k < rollDen)

/-- Swap two positions of a list, identity when either is out of range. -/
def listSwap {α : Type} (l : List α) (i j : Nat) : List α :=
  match l.get? i, l.get? j with
  | some x, some y => (l.set i y).set j x
  | _, _ => l

/-- The Fisher-Yates loop body of `shuffleArray` (Session.js): iterate `i`
from `length - 1` down to `1`, drawing `j = floor(roll * (i + 1))` and
swapping positions `i` and `j`.  The first argument is the current loop
index; an exhausted roll stream leaves the rest of the list in place. -/
def shuffleArrayGo {α : Type} : List α → Nat → List Nat → List α × List Nat
  | l, 0, rng => (l, rng)
  | l, _ + 1, [] => (l, [])
  | l, i + 1, q :: rng => shuffleArrayGo (listSwap l (i + 1) (jsRandIdx q (i + 2))) i rng

/-- `shuffleArray(array)` (Session.js), consuming `length - 1` rolls. -/
def shuffleArray {α : Type} (l : List α) (rng : List Nat) : List α × List Nat :=
  shuffleArrayGo l (l.length - 1) rng

/-- The `WinstonDraftState` fields (Session.js).  `cardPool` is kept in JS
array order: `pop()` takes the LAST element. -/
structure WinstonState where
  players : List UserID
  round : Int
  cardPool : List CardID
  piles : List (List CardID)
  currentPile : Nat
deriving DecidableEq, Repr

/-- The slice of a session driving a Winston draft: the `drafting` flag, the
`winstonDraftState` (null once the draft ends), the session users and each
user's `pickedCards`. -/
structure WinstonSession where
  drafting : Bool
  state : Option WinstonState
  users : List UserID
  picked : List (UserID × List CardID)
deriving DecidableEq, Repr

/-- Events emitted during a Winston draft. -/
inductive WinstonEv
  | message (target : UserID)
  | startAnnounce (target : UserID)
  | sync (target : UserID)
  | nextRoundAnnounce (target : UserID) (currentPlayer : UserID)
  | randomCard (target : UserID) (card : Option CardID)
  | endAnnounce (target : UserID)
deriving DecidableEq, Repr

/-- `WinstonDraftState.currentPlayer()`: `players[round % 2]` (JS `%` is the
truncated remainder; `round` is non-negative whenever this is called). -/
def wsCurrentPlayer (w : WinstonState) : UserID :=
  w.players.getD (w.round.tmod 2).toNat 0

/-- The `while (currentPile < 3 && !piles[currentPile].length)` scan of
`Session.winstonNextRound`. -/
def firstNonEmptyPile (piles : List (List CardID)) : Nat :=
  if (piles.getD 0 []).length ≠ 0 then 0
  else if (piles.getD 1 []).length ≠ 0 then 1
  else if (piles.getD 2 []).length ≠ 0 then 2
  else 3

/-- `Session.winstonNextRound` (Session.js), with `Session.endWinstonDraft`
inlined in the all-piles-empty branch.  A null `winstonDraftState` is
unreachable at its call sites. -/
def winstonNextRound (sess : WinstonSession) : WinstonSession × List WinstonEv :=
  match sess.state with
  | none => (sess, [])
  | some w =>
    let w1 : WinstonState :=
      { w with round := w.round + 1, currentPile := firstNonEmptyPile w.piles }
    if 3 ≤ w1.currentPile then
      ({ sess with state := none, drafting := false }, sess.users.map WinstonEv.endAnnounce)
    else
      ({ sess with state := some w1 },
       (sess.users.map
         (fun u => [WinstonEv.sync u, WinstonEv.nextRoundAnnounce u (wsCurrentPlayer w1)])).flatten)

/-- `Session.winstonSkipPile` (Session.js) after the drafting guard.  The
source recursion (auto-skipping empty piles) increments `currentPile`, so a
fuel of 3 covers every reachable state; fuel 0 is never hit from the
wrapper below on states with `currentPile ≤ 2`. -/
def winstonSkipPileAux : Nat → WinstonSession → WinstonState →
    WinstonSession × List WinstonEv × Bool
  | 0, sess, w => ({ sess with state := some w }, [], false)
  | fuel + 1, sess, w =>
    if w.cardPool.length = 0 ∧
       ((w.currentPile = 0 ∧ (w.piles.getD 1 []).length = 0 ∧
          (w.piles.getD 2 []).length = 0) ∨
        (w.currentPile = 1 ∧ (w.piles.getD 2 []).length = 0) ∨
        w.currentPile = 2)
    then ({ sess with state := some w }, [], false)
    else
      let w1 : WinstonState :=
        if 1 < w.cardPool.length ∨ (w.currentPile < 2 ∧ 0 < w.cardPool.length) then
          { w with
            piles := w.piles.set w.currentPile
              (w.piles.getD w.currentPile [] ++ [w.cardPool.getLastD 0])
            cardPool := w.cardPool.dropLast }
        else w
      if w.currentPile = 2 then
        let ev := WinstonEv.randomCard (wsCurrentPlayer w1) w1.cardPool.getLast?
        let r :=
          winstonNextRound { sess with state := some { w1 with cardPool := w1.cardPool.dropLast } }
        (r.1, ev :: r.2, true)
      else
        let w2 : WinstonState := { w1 with currentPile := w.currentPile + 1 }
        if (w2.piles.getD w2.currentPile []).length = 0 then
          let r := winstonSkipPileAux fuel { sess with state := some w2 } w2
          (r.1, r.2.1, true)
        else
          ({ sess with state := some w2 }, sess.users.map WinstonEv.sync, true)

/-- `Session.winstonSkipPile` including the `!drafting || !state` guard. -/
def winstonSkipPile (sess : WinstonSession) : WinstonSession × List WinstonEv × Bool :=
  match sess.state, sess.drafting with
  | some w, true => winstonSkipPileAux 3 sess w
  | _, _ => (sess, [], false)

/-- `Session.winstonTakePile` (Session.js): the current player's
`pickedCards` get the current pile appended; the pile is replenished with
one card popped from the pool, or emptied when the pool is exhausted. -/
def winstonTakePile (sess : WinstonSession) : WinstonSession × List WinstonEv × Bool :=
  match sess.state, sess.drafting with
  | some w, true =>
    let p := wsCurrentPlayer w
    let sess1 : WinstonSession :=
      { sess with
        picked := setA sess.picked p
          (((sess.picked.lookup p).getD []) ++ w.piles.getD w.currentPile []) }
    let w1 : WinstonState :=
      if 0 < w.cardPool.length then
        { w with piles := w.piles.set w.currentPile [w.cardPool.getLastD 0]
                 cardPool := w.cardPool.dropLast }
      else { w with piles := w.piles.set w.currentPile [] }
    let r := winstonNextRound { sess1 with state := some w1 }
    (r.1, r.2, true)
  | _, _ => (sess, [], false)

/-- The `WinstonDraftState` constructor (Session.js): the pool is the
shuffled concatenation of all generated boosters; when it holds at least 3
cards, three one-card piles are popped off its end (otherwise the source
leaves `piles` undefined, modelled as `[]`). -/
def winstonInit (players : List UserID) (boosters : List (List CardID))
    (rng : List Nat) : WinstonState :=
  let pool := (shuffleArray boosters.flatten rng).1
  if 3 ≤ pool.length then
    { players := players, round := -1
      cardPool := pool.dropLast.dropLast.dropLast
      piles := [[pool.getLastD 0], [pool.dropLast.getLastD 0],
                [pool.dropLast.dropLast.getLastD 0]]
      currentPile := 0 }
  else
    { players := players, round := -1, cardPool := pool, piles := [], currentPile := 0 }

/-- `Session.startWinstonDraft(boosterCount)` (Session.js) with the already
generated boosters passed in (`generateBoosters` is modelled separately):
requires exactly 2 users, resets every user's `pickedCards`, builds the
`WinstonDraftState` and runs the first `winstonNextRound`. -/
def sessionStartWinstonDraft (users : List UserID) (boosters : List (List CardID))
    (rng : List Nat) : WinstonSession × List WinstonEv × Bool :=
  if users.length ≠ 2 then
    (⟨false, none, users, users.map (fun u => (u, []))⟩, [], false)
  else
    let sess0 : WinstonSession :=
      { drafting := true
        state := some (winstonInit users boosters rng)
        users := users
        picked := users.map (fun u => (u, [])) }
    let evs0 := users.map WinstonEv.message ++ users.map WinstonEv.startAnnounce
    let r := winstonNextRound sess0
    (r.1, evs0 ++ r.2, true)

/-- One client action in a Winston draft. -/
inductive WMove
  | take
  | skip
deriving DecidableEq, Repr

/-- Run a sequence of take/skip actions, collecting all events. -/
def winstonRun : WinstonSession → List WMove → WinstonSession × List WinstonEv
  | sess, [] => (sess, [])
  | sess, m :: ms =>
    let r := match m with
      | WMove.take => winstonTakePile sess
      | WMove.skip => winstonSkipPile sess
    let rest := winstonRun r.1 ms
    (rest.1, r.2.1 ++ rest.2)

/-- Total number of cards in all users' `pickedCards`. -/
def pickedTotal (sess : WinstonSession) : Nat :=
  (sess.picked.map (fun p => p.2.length)).sum

/-- Number of `winstonDraftRandomCard` emissions in an event list. -/
def randomCardCount (evs : List WinstonEv) : Nat :=
  evs.countP (fun e => match e with | WinstonEv.randomCard _ _ => true | _ => false)

/-- Cards still sitting in the draft state (pool plus the three piles). -/
def winstonRemaining (w : WinstonState) : Nat :=
  w.cardPool.length + ((w.piles.map List.length).sum)

theorem listSwap_length {α : Type} (l : List α) (i j : Nat) :
    (listSwap l i j).length = l.length := by
  unfold listSwap
  cases l.get? i <;> cases l.get? j <;> simp

theorem shuffleArrayGo_length {α : Type} :
    ∀ (n : Nat) (l : List α) (rng : List Nat), ((shuffleArrayGo l n rng).1).length = l.length
  | 0, l, rng => rfl
  | _ + 1, l, [] => rfl
  | n + 1, l, q :: rng => by
    rw [shuffleArrayGo, shuffleArrayGo_length n]
    exact listSwap_length l (n + 1) (jsRandIdx q (n + 2))

theorem shuffleArray_length {α : Type} (l : List α) (rng : List Nat) :
    ((shuffleArray l rng).1).length = l.length :=
  shuffleArrayGo_length (l.length - 1) l rng

theorem lookup_setA {β : Type} (l : List (UserID × β)) (k u : UserID) (v : β) :
    (setA l k v).lookup u = if u = k then some v else l.lookup u := by
  induction l with
  | nil =>
    by_cases h : u = k
    · simp [setA, List.lookup, h]
    · simp [setA, List.lookup, beq_eq_false_iff_ne.mpr h, h]
  | cons hd t ih =>
    obtain ⟨k', v'⟩ := hd
    by_cases hk : k' = k
    · subst hk
      by_cases h : u = k'
      · simp [setA, List.lookup, h]
      · simp [setA, List.lookup, beq_eq_false_iff_ne.mpr h, h]
    · by_cases h : u = k'
      · have huk : ¬ u = k := fun hh => hk (h.symm.trans hh)
        simp [setA, if_neg hk, List.lookup, beq_iff_eq.mpr h, huk]
      · simp [setA, if_neg hk, List.lookup, beq_eq_false_iff_ne.mpr h, ih]

theorem pickedTotal_setA (l : List (UserID × List CardID)) (k : UserID)
    (old d : List CardID) (h : l.lookup k = some old) :
    ((setA l k (old ++ d)).map (fun p => p.2.length)).sum
      = (l.map (fun p => p.2.length)).sum + d.length := by
  induction l with
  | nil => simp [List.lookup] at h
  | cons hd t ih =>
    obtain ⟨k', v'⟩ := hd
    by_cases hk : k = k'
    · simp only [List.lookup, beq_iff_eq.mpr hk] at h
      injection h with h
      subst h
      simp only [setA, if_pos hk.symm, List.map_cons, List.sum_cons, List.length_append]
      omega
    · simp only [List.lookup, beq_eq_false_iff_ne.mpr hk] at h
      simp only [setA, if_neg (fun hh : k' = k => hk hh.symm), List.map_cons,
        List.sum_cons, ih h]
      omega

theorem sum_map_set (l : List (List CardID)) (i : Nat) (x : List CardID)
    (h : i < l.length) :
    ((l.set i x).map List.length).sum + (l.getD i []).length
      = (l.map List.length).sum + x.length := by
  induction l generalizing i with
  | nil => simp at h
  | cons hd t ih =>
    cases i with
    | zero =>
      simp only [List.set, List.map_cons, List.sum_cons, List.getD_cons_zero]
      omega
    | succ i =>
      simp only [List.set, List.map_cons, List.sum_cons, List.getD_cons_succ]
      have := ih i (by simpa using h)
      omega

theorem randomCardCount_append (l1 l2 : List WinstonEv) :
    randomCardCount (l1 ++ l2) = randomCardCount l1 + randomCardCount l2 := by
  simp [randomCardCount, List.countP_append]

theorem lookup_users_map {β : Type} (users : List UserID) (f : UserID → β)
    (u : UserID) (hu : u ∈ users) :
    (((users.map (fun v => (v, f v))).lookup u)).isSome = true := by
  induction users with
  | nil => simp at hu
  | cons a t ih =>
    by_cases h : u = a
    · simp [List.lookup, beq_iff_eq.mpr h]
    · simp only [List.map_cons, List.lookup, beq_eq_false_iff_ne.mpr h]
      exact ih ((List.mem_cons.mp hu).resolve_left h)

theorem firstNonEmptyPile_le (piles : List (List CardID)) :
    firstNonEmptyPile piles ≤ 3 := by
  unfold firstNonEmptyPile
  split_ifs <;> omega

theorem firstNonEmptyPile_ge3 (piles : List (List CardID))
    (h : 3 ≤ firstNonEmptyPile piles) :
    (piles.getD 0 []).length = 0 ∧ (piles.getD 1 []).length = 0 ∧
    (piles.getD 2 []).length = 0 := by
  unfold firstNonEmptyPile at h
  by_cases h0 : (piles.getD 0 []).length ≠ 0
  · rw [if_pos h0] at h; omega
  · rw [if_neg h0] at h
    by_cases h1 : (piles.getD 1 []).length ≠ 0
    · rw [if_pos h1] at h; omega
    · rw [if_neg h1] at h
      by_cases h2 : (piles.getD 2 []).length ≠ 0
      · rw [if_pos h2] at h; omega
      · exact ⟨by omega, by omega, by omega⟩

/-- Invariant of a running Winston draft: the session is drafting, the state
has exactly three piles and two players, `currentPile` and `round` are in
range, every player has a `pickedCards` entry, piles can only be empty once
the pool is exhausted, and the cards picked so far plus the cards handed out
by last-pile skips (`e`) plus the cards still in play account for all `T`
generated cards. -/
def winstonInvLive (T e : Nat) (sess : WinstonSession) (w : WinstonState) : Prop :=
  sess.drafting = true ∧
  w.piles.length = 3 ∧
  w.currentPile ≤ 2 ∧
  0 ≤ w.round ∧
  w.players.length = 2 ∧
  (∀ u ∈ w.players, ((sess.picked.lookup u)).isSome = true) ∧
  (w.cardPool ≠ [] → ∀ p ∈ w.piles, p ≠ []) ∧
  pickedTotal sess + e + winstonRemaining w = T

/-- A Winston session is either over (with every card accounted for) or
running with the live invariant. -/
def winstonInvState (T e : Nat) (sess : WinstonSession) : Prop :=
  (sess.state = none ∧ sess.drafting = false ∧ pickedTotal sess + e = T) ∨
  (∃ w, sess.state = some w ∧ winstonInvLive T e sess w)

theorem wsCurrentPlayer_mem (w : WinstonState) (h2 : w.players.length = 2)
    (hr : 0 ≤ w.round) : wsCurrentPlayer w ∈ w.players := by
  unfold wsCurrentPlayer
  have hm : 0 ≤ w.round.tmod 2 ∧ w.round.tmod 2 < 2 := by
    rw [Int.tmod_eq_emod hr (by omega)]
    omega
  have hlt : (w.round.tmod 2).toNat < w.players.length := by omega
  rw [List.getD_eq_getElem w.players 0 hlt]
  exact List.getElem_mem hlt

theorem winstonNextRound_spec (T e : Nat) (sess : WinstonSession) (w : WinstonState)
    (hst : sess.state = some w) (hd : sess.drafting = true)
    (hp3 : w.piles.length = 3) (hpl : w.players.length = 2)
    (hlk : ∀ u ∈ w.players, ((sess.picked.lookup u)).isSome = true)
    (hpe : w.cardPool ≠ [] → ∀ p ∈ w.piles, p ≠ [])
    (hsum : pickedTotal sess + e + winstonRemaining w = T)
    (hr : -1 ≤ w.round) :
    winstonInvState T e (winstonNextRound sess).1 ∧
    randomCardCount (winstonNextRound sess).2 = 0 := by
  unfold winstonNextRound
  rw [hst]
  dsimp only
  by_cases hend : 3 ≤ firstNonEmptyPile w.piles
  · rw [if_pos hend]
    dsimp only
    obtain ⟨h0, h1, h2⟩ := firstNonEmptyPile_ge3 w.piles hend
    obtain ⟨p0, p1, p2, hpiles⟩ := List.length_eq_three.mp hp3
    rw [hpiles] at h0 h1 h2
    simp only [List.getD_cons_zero, List.getD_cons_succ] at h0 h1 h2
    have hrem : winstonRemaining w = 0 := by
      have hpool : w.cardPool = [] := by
        by_contra hne
        have := hpe hne p0 (by rw [hpiles]; exact List.mem_cons_self _ _)
        exact this (List.length_eq_zero.mp h0)
      unfold winstonRemaining
      rw [hpool, hpiles]
      simp [h0, h1, h2]
    constructor
    · left
      refine ⟨rfl, rfl, ?_⟩
      have : pickedTotal { sess with state := none, drafting := false } = pickedTotal sess :=
        rfl
      omega
    · refine List.countP_eq_zero.mpr ?_
      intro a ha
      obtain ⟨u, -, rfl⟩ := List.mem_map.mp ha
      simp
  · rw [if_neg hend]
    dsimp only
    constructor
    · right
      refine ⟨_, rfl, hd, hp3, ?_, ?_, hpl, hlk, hpe, ?_⟩
      · show firstNonEmptyPile w.piles ≤ 2
        have := firstNonEmptyPile_le w.piles
        omega
      · show (0 : Int) ≤ w.round + 1
        omega
      · exact hsum
    · refine List.countP_eq_zero.mpr ?_
      intro a ha
      simp only [List.mem_flatten, List.mem_map] at ha
      obtain ⟨l, ⟨u, -, rfl⟩, hl⟩ := ha
      simp only [List.mem_cons, List.not_mem_nil, or_false] at hl
      rcases hl with rfl | rfl <;> simp

theorem winstonTakePile_inv (T e : Nat) (sess : WinstonSession)
    (hi : winstonInvState T e sess) :
    winstonInvState T (e + randomCardCount (winstonTakePile sess).2.1)
      (winstonTakePile sess).1 := by
  rcases hi with ⟨hn, hd, hs⟩ | ⟨w, hst, inv⟩
  case inl =>
    unfold winstonTakePile
    rw [hn]
    cases hdr : sess.drafting <;>
      exact Or.inl ⟨hn, hd, by
        simp only [randomCardCount, List.countP_nil, Nat.add_zero]
        exact hs⟩
  case inr =>
    obtain ⟨hd, hp3, hcp, hr, hpl, hlk, hpe, hsum⟩ := inv
    have hmem : wsCurrentPlayer w ∈ w.players := wsCurrentPlayer_mem w hpl hr
    obtain ⟨old, hold⟩ := Option.isSome_iff_exists.mp (hlk _ hmem)
    unfold winstonTakePile
    rw [hst, hd]
    dsimp only
    rw [hold]
    simp only [Option.getD_some]
    by_cases hpool : 0 < w.cardPool.length
    · rw [if_pos hpool]
      have hpt :
          ((setA sess.picked (wsCurrentPlayer w)
              (old ++ w.piles.getD w.currentPile [])).map (fun q => q.2.length)).sum
          = (sess.picked.map (fun q => q.2.length)).sum
            + (w.piles.getD w.currentPile []).length :=
        pickedTotal_setA sess.picked (wsCurrentPlayer w) old _ hold
      have h1 := sum_map_set w.piles w.currentPile [w.cardPool.getLastD 0] (by omega)
      have h2 : w.cardPool.dropLast.length = w.cardPool.length - 1 :=
        List.length_dropLast w.cardPool
      have hspec := winstonNextRound_spec T e
        { drafting := true
          state := some { w with
            piles := w.piles.set w.currentPile [w.cardPool.getLastD 0]
            cardPool := w.cardPool.dropLast }
          users := sess.users
          picked := setA sess.picked (wsCurrentPlayer w)
            (old ++ w.piles.getD w.currentPile []) }
        { w with
          piles := w.piles.set w.currentPile [w.cardPool.getLastD 0]
          cardPool := w.cardPool.dropLast }
        rfl rfl (by simpa using hp3) hpl
        (by
          intro u hu
          rw [lookup_setA]
          by_cases h : u = wsCurrentPlayer w
          · simp [h]
          · rw [if_neg h]; exact hlk u hu)
        (by
          intro hne pl hplm
          have hwne : w.cardPool ≠ [] := by
            intro hh
            rw [hh] at hne
            exact hne rfl
          rcases List.mem_or_eq_of_mem_set hplm with h | h
          · exact hpe hwne pl h
          · rw [h]; simp)
        (by
          unfold winstonRemaining pickedTotal at hsum ⊢
          dsimp only
          rw [hpt]
          simp only [List.length_singleton] at h1
          omega)
        (by show (-1 : Int) ≤ w.round; omega)
      rcases hspec with ⟨hA, hB⟩
      rw [hB]
      simpa using hA
    · rw [if_neg hpool]
      have hpln : w.cardPool = [] := List.length_eq_zero.mp (by omega)
      have hpt :
          ((setA sess.picked (wsCurrentPlayer w)
              (old ++ w.piles.getD w.currentPile [])).map (fun q => q.2.length)).sum
          = (sess.picked.map (fun q => q.2.length)).sum
            + (w.piles.getD w.currentPile []).length :=
        pickedTotal_setA sess.picked (wsCurrentPlayer w) old _ hold
      have h1 := sum_map_set w.piles w.currentPile [] (by omega)
      have hspec := winstonNextRound_spec T e
        { drafting := true
          state := some { w with piles := w.piles.set w.currentPile [] }
          users := sess.users
          picked := setA sess.picked (wsCurrentPlayer w)
            (old ++ w.piles.getD w.currentPile []) }
        { w with piles := w.piles.set w.currentPile [] }
        rfl rfl (by simpa using hp3) hpl
        (by
          intro u hu
          rw [lookup_setA]
          by_cases h : u = wsCurrentPlayer w
          · simp [h]
          · rw [if_neg h]; exact hlk u hu)
        (by
          intro hne pl hplm
          exact absurd hpln hne)
        (by
          unfold winstonRemaining pickedTotal at hsum ⊢
          dsimp only
          rw [hpt]
          simp only [List.length_nil] at h1
          omega)
        (by show (-1 : Int) ≤ w.round; omega)
      rcases hspec with ⟨hA, hB⟩
      rw [hB]
      simpa using hA

theorem winstonSkipPileAux_inv (T e : Nat) :
    ∀ (fuel : Nat) (sess : WinstonSession) (w : WinstonState),
      winstonInvLive T e sess w →
      winstonInvState T (e + randomCardCount (winstonSkipPileAux fuel sess w).2.1)
        (winstonSkipPileAux fuel sess w).1
  | 0, sess, w => fun inv => by
    exact Or.inr ⟨w, rfl, inv⟩
  | fuel + 1, sess, w => fun inv => by
    obtain ⟨hd, hp3, hcp, hr, hpl, hlk, hpe, hsum⟩ := inv
    simp only [winstonSkipPileAux]
    by_cases hg : w.cardPool.length = 0 ∧
        ((w.currentPile = 0 ∧ (w.piles.getD 1 []).length = 0 ∧
           (w.piles.getD 2 []).length = 0) ∨
         (w.currentPile = 1 ∧ (w.piles.getD 2 []).length = 0) ∨
         w.currentPile = 2)
    · rw [if_pos hg]
      exact Or.inr ⟨w, rfl, hd, hp3, hcp, hr, hpl, hlk, hpe, hsum⟩
    · rw [if_neg hg]
      by_cases hpush : 1 < w.cardPool.length ∨ (w.currentPile < 2 ∧ 0 < w.cardPool.length)
      · rw [if_pos hpush]
        have hpoolne : w.cardPool ≠ [] := by
          intro hh
          rcases hpush with h | h
          · rw [hh] at h; simp at h
          · rw [hh] at h; simp at h
        have hplne : ∀ p ∈ w.piles, p ≠ [] := hpe hpoolne
        have h1 := sum_map_set w.piles w.currentPile
          (w.piles.getD w.currentPile [] ++ [w.cardPool.getLastD 0]) (by omega)
        by_cases hcp2 : w.currentPile = 2
        · rw [if_pos hcp2]
          have hlen2 : 1 < w.cardPool.length := by
            rcases hpush with h | h
            · exact h
            · omega
          have hspec := winstonNextRound_spec T (e + 1)
            { drafting := true
              state := some { w with
                piles := w.piles.set w.currentPile
                  (w.piles.getD w.currentPile [] ++ [w.cardPool.getLastD 0])
                cardPool := w.cardPool.dropLast.dropLast }
              users := sess.users
              picked := sess.picked }
            { w with
              piles := w.piles.set w.currentPile
                (w.piles.getD w.currentPile [] ++ [w.cardPool.getLastD 0])
              cardPool := w.cardPool.dropLast.dropLast }
            rfl rfl (by simpa using hp3) hpl hlk
            (by
              intro hne pl hplm
              rcases List.mem_or_eq_of_mem_set hplm with h | h
              · exact hplne pl h
              · rw [h]; simp)
            (by
              unfold winstonRemaining pickedTotal at hsum ⊢
              dsimp only
              simp only [List.length_append, List.length_singleton] at h1
              have hd1 : w.cardPool.dropLast.length = w.cardPool.length - 1 :=
                List.length_dropLast w.cardPool
              have hd2 : w.cardPool.dropLast.dropLast.length
                  = w.cardPool.dropLast.length - 1 :=
                List.length_dropLast w.cardPool.dropLast
              omega)
            (by show (-1 : Int) ≤ w.round; omega)
          rcases hspec with ⟨hA, hB⟩
          have hcount : e + randomCardCount (WinstonEv.randomCard (wsCurrentPlayer
              { w with
                piles := w.piles.set w.currentPile
                  (w.piles.getD w.currentPile [] ++ [w.cardPool.getLastD 0])
                cardPool := w.cardPool.dropLast })
              (w.cardPool.dropLast.getLast?) ::
              (winstonNextRound
                { drafting := true
                  state := some { w with
                    piles := w.piles.set w.currentPile
                      (w.piles.getD w.currentPile [] ++ [w.cardPool.getLastD 0])
                    cardPool := w.cardPool.dropLast.dropLast }
                  users := sess.users
                  picked := sess.picked }).2) = e + 1 := by
            unfold randomCardCount at hB ⊢
            rw [List.countP_cons]
            rw [hB]
            simp
          rw [hd]
          rw [hcount]
          exact hA
        · rw [if_neg hcp2]
          dsimp only
          have hinv2 : winstonInvLive T e
              { sess with state := some { w with
                  piles := w.piles.set w.currentPile
                    (w.piles.getD w.currentPile [] ++ [w.cardPool.getLastD 0])
                  cardPool := w.cardPool.dropLast
                  currentPile := w.currentPile + 1 } }
              { w with
                piles := w.piles.set w.currentPile
                  (w.piles.getD w.currentPile [] ++ [w.cardPool.getLastD 0])
                cardPool := w.cardPool.dropLast
                currentPile := w.currentPile + 1 } := by
            refine ⟨hd, by simpa using hp3, by show w.currentPile + 1 ≤ 2; omega,
              hr, hpl, hlk, ?_, ?_⟩
            · intro hne pl hplm
              rcases List.mem_or_eq_of_mem_set hplm with h | h
              · exact hplne pl h
              · rw [h]; simp
            · unfold winstonRemaining pickedTotal at hsum ⊢
              dsimp only
              simp only [List.length_append, List.length_singleton] at h1
              have hd1 : w.cardPool.dropLast.length = w.cardPool.length - 1 :=
                List.length_dropLast w.cardPool
              omega
          by_cases hp0 : (((w.piles.set w.currentPile
              (w.piles.getD w.currentPile [] ++ [w.cardPool.getLastD 0])).getD
                (w.currentPile + 1) []).length) = 0
          · rw [if_pos hp0]
            exact winstonSkipPileAux_inv T e fuel _ _ hinv2
          · rw [if_neg hp0]
            have hcount : e + randomCardCount (sess.users.map WinstonEv.sync) = e := by
              have hz : randomCardCount (sess.users.map WinstonEv.sync) = 0 := by
                unfold randomCardCount
                refine List.countP_eq_zero.mpr ?_
                intro a ha
                obtain ⟨u, -, rfl⟩ := List.mem_map.mp ha
                simp
              omega
            rw [hcount]
            exact Or.inr ⟨_, rfl, hinv2⟩
      · rw [if_neg hpush]
        by_cases hcp2 : w.currentPile = 2
        · rw [if_pos hcp2]
          have hpool1 : w.cardPool.length = 1 := by
            by_cases hz : w.cardPool.length = 0
            · exact absurd ⟨hz, Or.inr (Or.inr hcp2)⟩ hg
            · omega
          have hspec := winstonNextRound_spec T (e + 1)
            { drafting := true
              state := some { w with cardPool := w.cardPool.dropLast }
              users := sess.users
              picked := sess.picked }
            { w with cardPool := w.cardPool.dropLast }
            rfl rfl hp3 hpl hlk
            (by
              intro hne pl hplm
              have : w.cardPool.dropLast.length = w.cardPool.length - 1 :=
                List.length_dropLast w.cardPool
              have : w.cardPool.dropLast = [] := by
                apply List.length_eq_zero.mp
                omega
              exact absurd this hne)
            (by
              unfold winstonRemaining pickedTotal at hsum ⊢
              dsimp only
              have hd1 : w.cardPool.dropLast.length = w.cardPool.length - 1 :=
                List.length_dropLast w.cardPool
              omega)
            (by show (-1 : Int) ≤ w.round; omega)
          rcases hspec with ⟨hA, hB⟩
          have hcount : e + randomCardCount (WinstonEv.randomCard (wsCurrentPlayer w)
              (w.cardPool.getLast?) ::
              (winstonNextRound
                { drafting := true
                  state := some { w with cardPool := w.cardPool.dropLast }
                  users := sess.users
                  picked := sess.picked }).2) = e + 1 := by
            unfold randomCardCount at hB ⊢
            rw [List.countP_cons]
            rw [hB]
            simp
          rw [hd]
          rw [hcount]
          exact hA
        · rw [if_neg hcp2]
          have hpoolz : w.cardPool.length = 0 := by
            by_cases hz : w.cardPool.length = 0
            · exact hz
            · exact absurd (Or.inr ⟨by omega, by omega⟩) hpush
          have hinv2 : winstonInvLive T e
              { sess with state := some { w with currentPile := w.currentPile + 1 } }
              { w with currentPile := w.currentPile + 1 } := by
            refine ⟨hd, hp3, by show w.currentPile + 1 ≤ 2; omega, hr, hpl, hlk,
              ?_, hsum⟩
            intro hne pl hplm
            exact hpe hne pl hplm
          by_cases hp0 : ((w.piles.getD (w.currentPile + 1) []).length) = 0
          · rw [if_pos hp0]
            exact winstonSkipPileAux_inv T e fuel _ _ hinv2
          · rw [if_neg hp0]
            have hcount : e + randomCardCount (sess.users.map WinstonEv.sync) = e := by
              have hz : randomCardCount (sess.users.map WinstonEv.sync) = 0 := by
                unfold randomCardCount
                refine List.countP_eq_zero.mpr ?_
                intro a ha
                obtain ⟨u, -, rfl⟩ := List.mem_map.mp ha
                simp
              omega
            rw [hcount]
            exact Or.inr ⟨_, rfl, hinv2⟩

theorem winstonSkipPile_inv (T e : Nat) (sess : WinstonSession)
    (hi : winstonInvState T e sess) :
    winstonInvState T (e + randomCardCount (winstonSkipPile sess).2.1)
      (winstonSkipPile sess).1 := by
  rcases hi with ⟨hn, hd, hs⟩ | ⟨w, hst, inv⟩
  case inl =>
    unfold winstonSkipPile
    rw [hn]
    cases hdr : sess.drafting <;>
      exact Or.inl ⟨hn, hd, by
        simp only [randomCardCount, List.countP_nil, Nat.add_zero]
        exact hs⟩
  case inr =>
    unfold winstonSkipPile
    rw [hst, inv.1]
    exact winstonSkipPileAux_inv T e 3 sess w inv

theorem winstonRun_inv (T : Nat) :
    ∀ (moves : List WMove) (sess : WinstonSession) (e : Nat),
      winstonInvState T e sess →
      winstonInvState T (e + randomCardCount (winstonRun sess moves).2)
        (winstonRun sess moves).1
  | [], sess, e, hi => by
    unfold winstonRun
    simpa using hi
  | m :: ms, sess, e, hi => by
    cases m with
    | take =>
      have h1 := winstonTakePile_inv T e sess hi
      have h2 := winstonRun_inv T ms (winstonTakePile sess).1 _ h1
      unfold winstonRun
      dsimp only
      rw [randomCardCount_append]
      have harr : e + (randomCardCount (winstonTakePile sess).2.1 +
          randomCardCount (winstonRun (winstonTakePile sess).1 ms).2)
          = e + randomCardCount (winstonTakePile sess).2.1 +
            randomCardCount (winstonRun (winstonTakePile sess).1 ms).2 := by omega
      rw [harr]
      exact h2
    | skip =>
      have h1 := winstonSkipPile_inv T e sess hi
      have h2 := winstonRun_inv T ms (winstonSkipPile sess).1 _ h1
      unfold winstonRun
      dsimp only
      rw [randomCardCount_append]
      have harr : e + (randomCardCount (winstonSkipPile sess).2.1 +
          randomCardCount (winstonRun (winstonSkipPile sess).1 ms).2)
          = e + randomCardCount (winstonSkipPile sess).2.1 +
            randomCardCount (winstonRun (winstonSkipPile sess).1 ms).2 := by omega
      rw [harr]
      exact h2

theorem startWinston_inv (users : List UserID) (boosters : List (List CardID))
    (rng : List Nat) (h2 : users.length = 2) (h3 : 3 ≤ boosters.flatten.length) :
    winstonInvState boosters.flatten.length 0
      (sessionStartWinstonDraft users boosters rng).1 := by
  unfold sessionStartWinstonDraft
  rw [if_neg (not_not_intro h2)]
  dsimp only
  have hlen : (shuffleArray boosters.flatten rng).1.length = boosters.flatten.length :=
    shuffleArray_length boosters.flatten rng
  unfold winstonInit
  rw [if_pos (by omega)]
  have hd1 : (shuffleArray boosters.flatten rng).1.dropLast.length
      = (shuffleArray boosters.flatten rng).1.length - 1 := List.length_dropLast _
  have hd2 : (shuffleArray boosters.flatten rng).1.dropLast.dropLast.length
      = (shuffleArray boosters.flatten rng).1.dropLast.length - 1 := List.length_dropLast _
  have hd3 : (shuffleArray boosters.flatten rng).1.dropLast.dropLast.dropLast.length
      = (shuffleArray boosters.flatten rng).1.dropLast.dropLast.length - 1 :=
    List.length_dropLast _
  have hspec := winstonNextRound_spec boosters.flatten.length 0
    { drafting := true
      state := some
        { players := users, round := -1
          cardPool := (shuffleArray boosters.flatten rng).1.dropLast.dropLast.dropLast
          piles := [[(shuffleArray boosters.flatten rng).1.getLastD 0],
                    [(shuffleArray boosters.flatten rng).1.dropLast.getLastD 0],
                    [(shuffleArray boosters.flatten rng).1.dropLast.dropLast.getLastD 0]]
          currentPile := 0 }
      users := users
      picked := users.map (fun u => (u, [])) }
    { players := users, round := -1
      cardPool := (shuffleArray boosters.flatten rng).1.dropLast.dropLast.dropLast
      piles := [[(shuffleArray boosters.flatten rng).1.getLastD 0],
                [(shuffleArray boosters.flatten rng).1.dropLast.getLastD 0],
                [(shuffleArray boosters.flatten rng).1.dropLast.dropLast.getLastD 0]]
      currentPile := 0 }
    rfl rfl rfl (by simpa using h2)
    (by
      intro u hu
      exact lookup_users_map users (fun _ => []) u hu)
    (by
      intro hne pl hplm
      simp only [List.mem_cons, List.not_mem_nil, or_false] at hplm
      rcases hplm with rfl | rfl | rfl <;> simp)
    (by
      have hpz : pickedTotal
          { drafting := true
            state := some
              { players := users, round := -1
                cardPool := (shuffleArray boosters.flatten rng).1.dropLast.dropLast.dropLast
                piles := [[(shuffleArray boosters.flatten rng).1.getLastD 0],
                          [(shuffleArray boosters.flatten rng).1.dropLast.getLastD 0],
                          [(shuffleArray boosters.flatten rng).1.dropLast.dropLast.getLastD 0]]
                currentPile := 0 }
            users := users
            picked := users.map (fun u => (u, [])) } = 0 := by
        unfold pickedTotal
        dsimp only
        rw [List.map_map]
        refine List.sum_eq_zero ?_
        intro x hx
        obtain ⟨u, -, rfl⟩ := List.mem_map.mp hx
        rfl
      rw [hpz]
      unfold winstonRemaining
      dsimp only
      simp only [List.map_cons, List.map_nil, List.sum_cons, List.sum_nil,
        List.length_singleton]
      omega)
    (by exact le_refl (-1))
  exact hspec.1

/-- Claim C7 (amended): in a completed two-player Winston draft, every
generated card either ends up in one of the players' `pickedCards` or was
handed directly to a player by a `winstonDraftRandomCard` emission on a
last-pile skip (the server does not append those cards to `pickedCards`);
hence the sum of `pickedCards` sizes plus the number of
`winstonDraftRandomCard` emissions equals the number of generated cards. -/
theorem c7_winston_conservation_amended (users : List UserID)
    (boosters : List (List CardID)) (rng : List Nat) (moves : List WMove)
    (h2 : users.length = 2) (h3 : 3 ≤ boosters.flatten.length)
    (hend : (winstonRun (sessionStartWinstonDraft users boosters rng).1 moves).1.state
      = none) :
    pickedTotal (winstonRun (sessionStartWinstonDraft users boosters rng).1 moves).1 +
      randomCardCount (winstonRun (sessionStartWinstonDraft users boosters rng).1 moves).2
      = boosters.flatten.length := by
  have h0 := startWinston_inv users boosters rng h2 h3
  have h1 := winstonRun_inv boosters.flatten.length moves _ 0 h0
  rcases h1 with ⟨-, -, hs⟩ | ⟨w, hw, -⟩
  · simpa using hs
  · rw [hend] at hw
    cases hw

/-- Claim C7 as stated is false on the code: this completed 6-card Winston
draft ends with the two `pickedCards` lists holding 5 cards in total, not 6;
the missing card was emitted via `winstonDraftRandomCard` on a last-pile
skip and never appended to any `pickedCards`. -/
theorem c7_winston_claim_counterexample :
    ((winstonRun (sessionStartWinstonDraft [1, 2] [[10, 11, 12], [13, 14, 15]]
        (List.replicate 5 0)).1
        [WMove.skip, WMove.skip, WMove.skip, WMove.take, WMove.take, WMove.take]).1.state
      = none) ∧
    ((winstonRun (sessionStartWinstonDraft [1, 2] [[10, 11, 12], [13, 14, 15]]
        (List.replicate 5 0)).1
        [WMove.skip, WMove.skip, WMove.skip, WMove.take, WMove.take, WMove.take]).1.drafting
      = false) ∧
    pickedTotal ((winstonRun (sessionStartWinstonDraft [1, 2] [[10, 11, 12], [13, 14, 15]]
        (List.replicate 5 0)).1
        [WMove.skip, WMove.skip, WMove.skip, WMove.take, WMove.take, WMove.take]).1) = 5 ∧
    ([[10, 11, 12], [13, 14, 15]] : List (List CardID)).flatten.length = 6 := by
  exact ⟨by decide, by decide, by decide, by decide⟩

/-- Witness: the amended C7 theorem applied to the same concrete complete
draft; together with the 5-card picked total this exhibits exactly one
`winstonDraftRandomCard` hand-out. -/
theorem c7_winston_conservation_amended_witness :
    pickedTotal ((winstonRun (sessionStartWinstonDraft [1, 2] [[10, 11, 12], [13, 14, 15]]
        (List.replicate 5 0)).1
        [WMove.skip, WMove.skip, WMove.skip, WMove.take, WMove.take, WMove.take]).1) +
      randomCardCount ((winstonRun (sessionStartWinstonDraft [1, 2] [[10, 11, 12], [13, 14, 15]]
        (List.replicate 5 0)).1
        [WMove.skip, WMove.skip, WMove.skip, WMove.take, WMove.take, WMove.take]).2)
      = 6 :=
  c7_winston_conservation_amended [1, 2] [[10, 11, 12], [13, 14, 15]]
    (List.replicate 5 0)
    [WMove.skip, WMove.skip, WMove.skip, WMove.take, WMove.take, WMove.take]
    (by decide) (by decide) (by decide)

/-- Remove a key from an association list (JS `delete obj[k]`). -/
def eraseA {β : Type} (l : List (UserID × β)) (k : UserID) : List (UserID × β) :=
  l.filter (fun p => p.1 != k)

/-- Connection fields used by the gateway (server.js) and by
`Session.reconnectUser`. -/
structure RConn where
  sessionID : Option SessionID
  pickedThisRound : Bool
  pickedCards : List CardID
  boosterIndex : Option Int
deriving DecidableEq, Repr

/-- The snapshot the gateway's `removeUserFromSession` stores in
`disconnectedUsers` (server.js): only `pickedThisRound` and `pickedCards`. -/
structure RSnapshot where
  pickedThisRound : Bool
  pickedCards : List CardID
deriving DecidableEq, Repr

/-- The session fields read and written by the membership code paths. -/
structure RSession where
  owner : UserID
  users : List UserID
  userOrder : List UserID
  drafting : Bool
  winstonActive : Bool
  isPublic : Bool
  maxPlayers : Nat
  disconnectedUsers : List (UserID × RSnapshot)
deriving DecidableEq, Repr

/-- Process-wide registry: `Sessions` and `Connections` (server.js). -/
structure Registry where
  sessions : List (SessionID × RSession)
  conns : List (UserID × RConn)
deriving DecidableEq, Repr

/-- Events emitted by the membership code paths; payloads irrelevant to the
claims are dropped. -/
inductive RegEv
  | msg (target : UserID)
  | setSession (target : UserID) (sid : SessionID)
  | publicSessionsAll (sids : List SessionID)
  | sessionOwner (target : UserID) (owner : UserID)
  | sessionUsers (target : UserID)
  | sessionOptions (target : UserID)
  | rejoinDraft (target : UserID)
  | rejoinWinston (target : UserID)
  | userDisconnected (target : UserID)
  | resumeNotice (target : UserID)
deriving DecidableEq, Repr

def getRConn (reg : Registry) (u : UserID) : RConn :=
  (reg.conns.lookup u).getD ⟨none, false, [], none⟩

/-- `getPublicSessions()` (server.js). -/
def publicSessionIDs (reg : Registry) : List SessionID :=
  (reg.sessions.filter (fun p => p.2.isPublic)).map (fun p => p.1)

/-- `Session.notifyUserChange` emissions: `sessionOwner` and `sessionUsers`
to every session user. -/
def notifyUserChangeEvs (sess : RSession) : List RegEv :=
  (sess.users.map (fun u => [RegEv.sessionOwner u sess.owner, RegEv.sessionUsers u])).flatten

/-- `Session.addUser` (Session.js): set the connection's `sessionID`, add to
`users`, push onto `userOrder` when absent, then `notifyUserChange` and
`syncSessionOptions`. -/
def sessionAddUser (reg : Registry) (sid : SessionID) (userID : UserID) :
    Registry × List RegEv :=
  match reg.sessions.lookup sid with
  | none => (reg, [])
  | some sess =>
    let conns' := setA reg.conns userID { getRConn reg userID with sessionID := some sid }
    let users' := if userID ∈ sess.users then sess.users else sess.users ++ [userID]
    let userOrder' :=
      if userID ∈ sess.userOrder then sess.userOrder else sess.userOrder ++ [userID]
    let sess' := { sess with users := users', userOrder := userOrder' }
    (⟨setA reg.sessions sid sess', conns'⟩,
     notifyUserChangeEvs sess' ++ [RegEv.sessionOptions userID])

/-- `Session.reconnectUser` (Session.js): restore the connection's draft
fields from the snapshot, `addUser`, emit the rejoin payload, delete the
snapshot, then resume (all reconnected) or re-broadcast the disconnected
list.  The gateway's snapshot has no `boosterIndex`, so the non-Winston
branch restores `undefined` (`none`). -/
def sessionReconnectUser (reg : Registry) (sid : SessionID) (userID : UserID) :
    Registry × List RegEv :=
  match reg.sessions.lookup sid with
  | none => (reg, [])
  | some sess =>
    match sess.disconnectedUsers.lookup userID with
    | none => (reg, [])
    | some snap =>
      let conn := getRConn reg userID
      let conn' :=
        if sess.winstonActive then { conn with pickedCards := snap.pickedCards }
        else { conn with
          pickedThisRound := snap.pickedThisRound
          pickedCards := snap.pickedCards
          boosterIndex := none }
      let reg1 : Registry := { reg with conns := setA reg.conns userID conn' }
      let r2 := sessionAddUser reg1 sid userID
      let rejoinEv :=
        if sess.winstonActive then RegEv.rejoinWinston userID else RegEv.rejoinDraft userID
      let reg3 : Registry :=
        match r2.1.sessions.lookup sid with
        | none => r2.1
        | some sess2 =>
          { r2.1 with sessions := (setA r2.1.sessions sid
              { sess2 with disconnectedUsers := eraseA sess2.disconnectedUsers userID }) }
      let tailEvs :=
        match reg3.sessions.lookup sid with
        | none => []
        | some sess3 =>
          if sess3.disconnectedUsers.length = 0 then
            sess3.users.map RegEv.resumeNotice
          else sess3.users.map RegEv.userDisconnected
      (reg3, r2.2 ++ [rejoinEv] ++ tailEvs)

/-- A fresh `Session(id, owner)` (Session.js constructor) as far as the
membership fields go. -/
def newRSession (owner : UserID) : RSession :=
  { owner := owner, users := [], userOrder := [], drafting := false
    winstonActive := false, isPublic := false, maxPlayers := 8
    disconnectedUsers := [] }

/-- `removeUserFromSession(userID)` (server.js): while drafting, snapshot
the participant into `disconnectedUsers`; delete from `users`; clear the
connection's `sessionID`; destroy the session when `users` empties
(re-broadcasting the public list if it was public), otherwise transfer
ownership to the first remaining member when the owner left and notify. -/
def removeUserFromSession (reg : Registry) (userID : UserID) :
    Registry × List RegEv :=
  match (getRConn reg userID).sessionID with
  | none => (reg, [])
  | some sid =>
    match reg.sessions.lookup sid with
    | none => (reg, [])
    | some sess =>
      if userID ∈ sess.users then
        let sess1 :=
          if sess.drafting then
            { sess with disconnectedUsers := (setA sess.disconnectedUsers userID
                ⟨(getRConn reg userID).pickedThisRound, (getRConn reg userID).pickedCards⟩) }
          else sess
        let sess2 := { sess1 with users := sess1.users.filter (fun u => u != userID) }
        let reg1 : Registry :=
          { reg with conns := (setA reg.conns userID
              { getRConn reg userID with sessionID := none }) }
        if sess2.users.length = 0 then
          let reg2 : Registry := { reg1 with sessions := eraseA reg1.sessions sid }
          (reg2,
           if sess.isPublic then [RegEv.publicSessionsAll (publicSessionIDs reg2)] else [])
        else
          let sess3 :=
            if sess2.owner = userID then { sess2 with owner := sess2.users.headD 0 }
            else sess2
          (⟨setA reg1.sessions sid sess3, reg1.conns⟩, notifyUserChangeEvs sess3)
      else (reg, [])

/-- `addUserToSession(userID, sessionID)` (server.js): leave any previous
session, create the session if unknown (creator becomes owner), then
`Session.addUser`. -/
def addUserToSession (reg : Registry) (userID : UserID) (sid : SessionID) :
    Registry × List RegEv :=
  let r1 :=
    if (getRConn reg userID).sessionID ≠ none then removeUserFromSession reg userID
    else (reg, [])
  let reg2 : Registry :=
    if (r1.1.sessions.lookup sid).isSome then r1.1
    else { r1.1 with sessions := setA r1.1.sessions sid (newRSession userID) }
  let r3 := sessionAddUser reg2 sid userID
  (r3.1, r1.2 ++ r3.2)

/-- `joinSession(sessionID, userID)` (server.js).  `fresh` stands for the
`shortguid()` drawn when the user has no previous session to fall back
to. -/
def joinSession (reg : Registry) (fresh : SessionID) (sid : SessionID)
    (userID : UserID) : Registry × List RegEv :=
  match reg.sessions.lookup sid with
  | some sess =>
    if sess.drafting then
      if (sess.disconnectedUsers.lookup userID).isSome then
        sessionReconnectUser reg sid userID
      else
        let target :=
          match (getRConn reg userID).sessionID with
          | none => fresh
          | some prev => prev
        (reg, [RegEv.msg userID, RegEv.setSession userID target])
    else if sess.users.length + sess.disconnectedUsers.length ≥ sess.maxPlayers then
      let target :=
        match (getRConn reg userID).sessionID with
        | none => fresh
        | some prev => prev
      (reg, [RegEv.msg userID, RegEv.setSession userID target])
    else addUserToSession reg userID sid
  | none => addUserToSession reg userID sid

theorem lookup_eraseA {β : Type} (l : List (UserID × β)) (k : UserID) :
    (eraseA l k).lookup k = none := by
  induction l with
  | nil => rfl
  | cons hd t ih =>
    obtain ⟨k', v'⟩ := hd
    by_cases h : k' = k
    · simp only [eraseA, List.filter_cons]
      rw [if_neg (by simp [h])]
      exact ih
    · simp only [eraseA, List.filter_cons]
      rw [if_pos (by simp [h])]
      simp only [List.lookup, beq_eq_false_iff_ne.mpr (Ne.symm h)]
      exact ih

theorem headD_mem (l : List UserID) (d : UserID) (h : l ≠ []) : l.headD d ∈ l := by
  cases l with
  | nil => exact absurd rfl h
  | cons a t => exact List.mem_cons_self a t

/-- Claim C9: removing a user from their session has exactly one of two
outcomes: when `users` empties, the session is destroyed (its id no longer
resolves) and, if it was public, the fresh public-session list is broadcast;
otherwise the session survives with the remaining users and its owner is
still one of them (ownership passing to the first remaining member when the
owner was the leaver). -/
theorem c9_remove_user_outcomes (reg : Registry) (u : UserID) (sid : SessionID)
    (sess : RSession)
    (hconn : (getRConn reg u).sessionID = some sid)
    (hsess : reg.sessions.lookup sid = some sess)
    (hu : u ∈ sess.users)
    (howner : sess.owner ∈ sess.users) :
    (sess.users.filter (fun x => x != u) = [] →
      (removeUserFromSession reg u).1.sessions.lookup sid = none ∧
      (sess.isPublic = true →
        RegEv.publicSessionsAll (publicSessionIDs (removeUserFromSession reg u).1)
          ∈ (removeUserFromSession reg u).2)) ∧
    (sess.users.filter (fun x => x != u) ≠ [] →
      ∃ sess', (removeUserFromSession reg u).1.sessions.lookup sid = some sess' ∧
        sess'.users = sess.users.filter (fun x => x != u) ∧
        sess'.owner ∈ sess'.users) := by
  unfold removeUserFromSession
  rw [hconn]
  dsimp only
  rw [hsess]
  dsimp only
  rw [if_pos hu]
  cases hdr : sess.drafting with
  | false =>
    rw [if_neg Bool.false_ne_true]
    by_cases hfil : sess.users.filter (fun x => x != u) = []
    · rw [if_pos (by rw [hfil]; rfl)]
      constructor
      · intro _
        constructor
        · exact lookup_eraseA _ _
        · intro hpub
          rw [if_pos hpub]
          exact List.mem_singleton.mpr rfl
      · intro hne
        exact absurd hfil hne
    · rw [if_neg (fun hlen => hfil (List.length_eq_zero.mp hlen))]
      constructor
      · intro hq
        exact absurd hq hfil
      · intro _
        by_cases how : sess.owner = u
        · rw [if_pos how]
          rw [lookup_setA]
          rw [if_pos rfl]
          refine ⟨_, rfl, rfl, ?_⟩
          exact headD_mem _ 0 hfil
        · rw [if_neg how]
          rw [lookup_setA]
          rw [if_pos rfl]
          refine ⟨_, rfl, rfl, ?_⟩
          exact List.mem_filter.mpr ⟨howner, bne_iff_ne.mpr how⟩
  | true =>
    rw [if_pos rfl]
    by_cases hfil : sess.users.filter (fun x => x != u) = []
    · rw [if_pos (by rw [hfil]; rfl)]
      constructor
      · intro _
        constructor
        · exact lookup_eraseA _ _
        · intro hpub
          rw [if_pos hpub]
          exact List.mem_singleton.mpr rfl
      · intro hne
        exact absurd hfil hne
    · rw [if_neg (fun hlen => hfil (List.length_eq_zero.mp hlen))]
      constructor
      · intro hq
        exact absurd hq hfil
      · intro _
        by_cases how : sess.owner = u
        · rw [if_pos how]
          rw [lookup_setA]
          rw [if_pos rfl]
          refine ⟨_, rfl, rfl, ?_⟩
          exact headD_mem _ 0 hfil
        · rw [if_neg how]
          rw [lookup_setA]
          rw [if_pos rfl]
          refine ⟨_, rfl, rfl, ?_⟩
          exact List.mem_filter.mpr ⟨howner, bne_iff_ne.mpr how⟩

/-- Claim C8: while a session is drafting, membership is stable: a removal
records a snapshot of the participant in `disconnectedUsers` and leaves the
seating (`userOrder`) unchanged; a join attempt by a user who is not in
`disconnectedUsers` redirects them via `setSession` to a different session
and leaves the registry (in particular `users`) unchanged; and a join by a
disconnected user reconnects them, deleting the `disconnectedUsers` entry
and re-adding them to `users`, again with the seating unchanged. -/
theorem c8_drafting_membership_stable :
    (∀ (reg : Registry) (u : UserID) (sid : SessionID) (sess : RSession),
      (getRConn reg u).sessionID = some sid →
      reg.sessions.lookup sid = some sess →
      sess.drafting = true → u ∈ sess.users →
      sess.users.filter (fun x => x != u) ≠ [] →
      ∃ sess', (removeUserFromSession reg u).1.sessions.lookup sid = some sess' ∧
        ((sess'.disconnectedUsers.lookup u)).isSome = true ∧
        sess'.userOrder = sess.userOrder ∧
        sess'.users = sess.users.filter (fun x => x != u)) ∧
    (∀ (reg : Registry) (fresh : SessionID) (sid : SessionID) (u : UserID)
        (sess : RSession),
      reg.sessions.lookup sid = some sess →
      sess.drafting = true →
      sess.disconnectedUsers.lookup u = none →
      fresh ≠ sid →
      (∀ p, (getRConn reg u).sessionID = some p → p ≠ sid) →
      (joinSession reg fresh sid u).1 = reg ∧
      ∃ t, t ≠ sid ∧
        (joinSession reg fresh sid u).2 = [RegEv.msg u, RegEv.setSession u t]) ∧
    (∀ (reg : Registry) (fresh : SessionID) (sid : SessionID) (u : UserID)
        (sess : RSession) (snap : RSnapshot),
      reg.sessions.lookup sid = some sess →
      sess.drafting = true →
      sess.disconnectedUsers.lookup u = some snap →
      u ∈ sess.userOrder →
      ∃ sess', (joinSession reg fresh sid u).1.sessions.lookup sid = some sess' ∧
        sess'.disconnectedUsers.lookup u = none ∧
        u ∈ sess'.users ∧
        sess'.userOrder = sess.userOrder) := by
  refine ⟨?_, ?_, ?_⟩
  · intro reg u sid sess hconn hsess hdr hu hkeep
    unfold removeUserFromSession
    rw [hconn]
    dsimp only
    rw [hsess]
    dsimp only
    rw [if_pos hu, if_pos hdr]
    rw [if_neg (fun hlen => hkeep (List.length_eq_zero.mp hlen))]
    by_cases how : sess.owner = u
    · rw [if_pos how]
      rw [lookup_setA]
      rw [if_pos rfl]
      refine ⟨_, rfl, ?_, rfl, rfl⟩
      rw [lookup_setA, if_pos rfl]
      rfl
    · rw [if_neg how]
      rw [lookup_setA]
      rw [if_pos rfl]
      refine ⟨_, rfl, ?_, rfl, rfl⟩
      rw [lookup_setA, if_pos rfl]
      rfl
  · intro reg fresh sid u sess hsess hdr hnd hfresh hprev
    unfold joinSession
    rw [hsess]
    dsimp only
    rw [if_pos hdr]
    rw [hnd]
    rw [if_neg (by intro hh; cases hh)]
    cases hcs : (getRConn reg u).sessionID with
    | none => exact ⟨rfl, fresh, hfresh, rfl⟩
    | some p => exact ⟨rfl, p, hprev p hcs, rfl⟩
  · intro reg fresh sid u sess snap hsess hdr hdisc huo
    unfold joinSession
    rw [hsess]
    dsimp only
    rw [if_pos hdr]
    rw [hdisc]
    rw [if_pos (show (some snap).isSome = true from rfl)]
    unfold sessionReconnectUser
    rw [hsess]
    dsimp only
    rw [hdisc]
    dsimp only
    cases hwa : sess.winstonActive
    · rw [if_neg Bool.false_ne_true]
      unfold sessionAddUser
      dsimp only
      rw [hsess]
      dsimp only
      rw [if_pos huo]
      rw [lookup_setA, if_pos rfl]
      dsimp only
      rw [lookup_setA, if_pos rfl]
      refine ⟨_, rfl, lookup_eraseA _ _, ?_, rfl⟩
      by_cases humem : u ∈ sess.users
      · rw [if_pos humem]; exact humem
      · rw [if_neg humem]
        exact List.mem_append.mpr (Or.inr (List.mem_singleton.mpr rfl))
    · rw [if_pos rfl]
      unfold sessionAddUser
      dsimp only
      rw [hsess]
      dsimp only
      rw [if_pos huo]
      rw [lookup_setA, if_pos rfl]
      dsimp only
      rw [lookup_setA, if_pos rfl]
      refine ⟨_, rfl, lookup_eraseA _ _, ?_, rfl⟩
      by_cases humem : u ∈ sess.users
      · rw [if_pos humem]; exact humem
      · rw [if_neg humem]
        exact List.mem_append.mpr (Or.inr (List.mem_singleton.mpr rfl))

/-- A concrete drafting session used to instantiate the C8 theorem. -/
def sessWitC8 : RSession :=
  { owner := 7, users := [7, 8], userOrder := [7, 9, 8], drafting := true
    winstonActive := false, isPublic := false, maxPlayers := 8
    disconnectedUsers := [(9, ⟨false, [3]⟩)] }

/-- A concrete registry used to instantiate the C8 theorem. -/
def regWitC8 : Registry :=
  { sessions := [(100, sessWitC8)]
    conns := [(7, ⟨some 100, false, [], some 0⟩), (8, ⟨some 100, false, [], some 1⟩),
              (9, ⟨none, false, [], none⟩), (10, ⟨none, false, [], none⟩)] }

/-- Witness: the C8 theorem applied to a concrete drafting session, covering
the redirect of an outsider, the reconnection of a disconnected user, and
the snapshotting of a leaver. -/
theorem c8_drafting_membership_stable_witness :
    (joinSession regWitC8 200 100 10).1 = regWitC8 ∧
    (∃ sess', (joinSession regWitC8 200 100 9).1.sessions.lookup 100 = some sess' ∧
       sess'.disconnectedUsers.lookup 9 = none ∧ 9 ∈ sess'.users ∧
       sess'.userOrder = sessWitC8.userOrder) ∧
    (∃ sess', (removeUserFromSession regWitC8 8).1.sessions.lookup 100 = some sess' ∧
       (sess'.disconnectedUsers.lookup 8).isSome = true ∧
       sess'.userOrder = sessWitC8.userOrder ∧
       sess'.users = sessWitC8.users.filter (fun x => x != 8)) := by
  obtain ⟨ha, hb, hc⟩ := c8_drafting_membership_stable
  refine ⟨?_, ?_, ?_⟩
  · exact (hb regWitC8 200 100 10 sessWitC8 (by decide) (by decide) (by decide)
      (by decide)
      (fun p hp => by
        rw [show (getRConn regWitC8 10).sessionID = none from by decide] at hp
        cases hp)).1
  · exact hc regWitC8 200 100 9 sessWitC8 ⟨false, [3]⟩ (by decide) (by decide)
      (by decide) (by decide)
  · exact ha regWitC8 8 100 sessWitC8 (by decide) (by decide) (by decide) (by decide)
      (by decide)

/-- A concrete session used to instantiate the C9 theorem. -/
def sessWitC9 : RSession :=
  { owner := 7, users := [7, 8], userOrder := [7, 8], drafting := false
    winstonActive := false, isPublic := true, maxPlayers := 8
    disconnectedUsers := [] }

/-- A concrete registry used to instantiate the C9 theorem. -/
def regWitC9 : Registry :=
  { sessions := [(100, sessWitC9)]
    conns := [(7, ⟨some 100, false, [], none⟩), (8, ⟨some 100, false, [], none⟩)] }

/-- Witness: the C9 theorem applied concretely: the owner leaves a surviving
session and ownership passes to a remaining member. -/
theorem c9_remove_user_outcomes_witness :
    ∃ sess', (removeUserFromSession regWitC9 7).1.sessions.lookup 100 = some sess' ∧
      sess'.users = sessWitC9.users.filter (fun x => x != 7) ∧
      sess'.owner ∈ sess'.users :=
  (c9_remove_user_outcomes regWitC9 7 100 sessWitC9 (by decide) (by decide) (by decide)
    (by decide)).2 (by decide)

/-- The option fields of a session touched by the gateway setters
(server.js), plus membership for the broadcast loops. -/
structure OptSession where
  owner : UserID
  users : List UserID
  setRestriction : List Nat
  ignoreCollections : Bool
  colorBalance : Bool
  bots : Int
  boostersPerPlayer : Int
deriving DecidableEq, Repr

/-- Events emitted by the gateway option setters. -/
inductive OptEv
  | evSetRestriction (target : UserID) (v : List Nat)
  | evIgnoreCollections (target : UserID) (v : Bool)
  | evColorBalance (target : UserID) (v : Bool)
  | evBots (target : UserID) (v : Int)
  | evBoostersPerPlayer (target : UserID) (v : Int)
deriving DecidableEq, Repr

def optEvTarget : OptEv → UserID
  | .evSetRestriction t _ => t
  | .evIgnoreCollections t _ => t
  | .evColorBalance t _ => t
  | .evBots t _ => t
  | .evBoostersPerPlayer t _ => t

/-- `socket.on('bots')` (server.js): owner-gated; `parseInt` failure
(modelled as `none`) is dropped; an equal value is a no-op; otherwise the
update is sent to every session user except the caller. -/
def handleBots (sess : OptSession) (caller : UserID) (v : Option Int) :
    OptSession × List OptEv :=
  if sess.owner ≠ caller then (sess, [])
  else
    match v with
    | none => (sess, [])
    | some n =>
      if n = sess.bots then (sess, [])
      else ({ sess with bots := n },
        (sess.users.filter (fun u => u != caller)).map (fun u => OptEv.evBots u n))

/-- `socket.on('boostersPerPlayer')` (server.js). -/
def handleBoostersPerPlayer (sess : OptSession) (caller : UserID) (v : Option Int) :
    OptSession × List OptEv :=
  if sess.owner ≠ caller then (sess, [])
  else
    match v with
    | none => (sess, [])
    | some n =>
      if n = sess.boostersPerPlayer then (sess, [])
      else ({ sess with boostersPerPlayer := n },
        (sess.users.filter (fun u => u != caller)).map
          (fun u => OptEv.evBoostersPerPlayer u n))

/-- `socket.on('setColorBalance')` (server.js). -/
def handleSetColorBalance (sess : OptSession) (caller : UserID) (v : Bool) :
    OptSession × List OptEv :=
  if sess.owner ≠ caller then (sess, [])
  else if v = sess.colorBalance then (sess, [])
  else ({ sess with colorBalance := v },
    (sess.users.filter (fun u => u != caller)).map (fun u => OptEv.evColorBalance u v))

/-- `socket.on('ignoreCollections')` (server.js): owner-gated but with NO
equality check: it always assigns and always broadcasts. -/
def handleIgnoreCollections (sess : OptSession) (caller : UserID) (v : Bool) :
    OptSession × List OptEv :=
  if sess.owner ≠ caller then (sess, [])
  else ({ sess with ignoreCollections := v },
    (sess.users.filter (fun u => u != caller)).map
      (fun u => OptEv.evIgnoreCollections u v))

/-- `socket.on('setRestriction')` (server.js): owner-gated; the payload must
be an array of known set codes; the no-op test `setRestriction ===
Sessions[..].setRestriction` is JS REFERENCE equality, modelled by the
`sameRef` flag (always false for a payload fresh off the wire); otherwise
assign and broadcast. -/
def handleSetRestriction (mtgSets : List Nat) (sess : OptSession) (caller : UserID)
    (v : List Nat) (sameRef : Bool) : OptSession × List OptEv :=
  if sess.owner ≠ caller then (sess, [])
  else if 0 < v.length ∧ v.any (fun s => decide (s ∉ mtgSets)) then (sess, [])
  else if sameRef then (sess, [])
  else ({ sess with setRestriction := v },
    (sess.users.filter (fun u => u != caller)).map
      (fun u => OptEv.evSetRestriction u v))

theorem broadcast_targets (f : UserID → OptEv) (users : List UserID) (caller : UserID)
    (hf : ∀ u, optEvTarget (f u) = u) :
    (∀ ev ∈ (users.filter (fun u => u != caller)).map f, optEvTarget ev ≠ caller) ∧
    (∀ u ∈ users, u ≠ caller → f u ∈ (users.filter (fun u => u != caller)).map f) := by
  constructor
  · intro ev hev
    obtain ⟨u, hu, rfl⟩ := List.mem_map.mp hev
    rw [hf]
    exact bne_iff_ne.mp (List.mem_filter.mp hu).2
  · intro u hu hne
    exact List.mem_map.mpr ⟨u, List.mem_filter.mpr ⟨hu, bne_iff_ne.mpr hne⟩, rfl⟩

/-- Claim C5 (amended): every setter is owner-gated; a value equal to the
current one is a no-op (no state change, no event) for `bots`,
`boostersPerPlayer` and `setColorBalance`; `setRestriction`'s no-op check is
reference equality, so only a reference-equal payload is a no-op and a
value-equal payload fresh from a client still updates and broadcasts;
`ignoreCollections` has no equality check at all and always updates and
broadcasts; every broadcast reaches exactly the session users other than the
owner who initiated the change. -/
theorem c5_option_setters_amended (mtgSets : List Nat) (sess : OptSession) :
    (∀ caller, sess.owner ≠ caller →
      (∀ n, handleBots sess caller n = (sess, [])) ∧
      (∀ n, handleBoostersPerPlayer sess caller n = (sess, [])) ∧
      (∀ b, handleSetColorBalance sess caller b = (sess, [])) ∧
      (∀ b, handleIgnoreCollections sess caller b = (sess, [])) ∧
      (∀ v r, handleSetRestriction mtgSets sess caller v r = (sess, []))) ∧
    (handleBots sess sess.owner (some sess.bots) = (sess, []) ∧
     handleBoostersPerPlayer sess sess.owner (some sess.boostersPerPlayer) = (sess, []) ∧
     handleSetColorBalance sess sess.owner sess.colorBalance = (sess, []) ∧
     ∀ v, handleSetRestriction mtgSets sess sess.owner v true = (sess, [])) ∧
    (∀ n, n ≠ sess.bots →
      (handleBots sess sess.owner (some n)).1 = { sess with bots := n } ∧
      (∀ ev ∈ (handleBots sess sess.owner (some n)).2, optEvTarget ev ≠ sess.owner) ∧
      (∀ u ∈ sess.users, u ≠ sess.owner →
        OptEv.evBots u n ∈ (handleBots sess sess.owner (some n)).2)) ∧
    (∀ b, (handleIgnoreCollections sess sess.owner b).1
        = { sess with ignoreCollections := b } ∧
      (∀ ev ∈ (handleIgnoreCollections sess sess.owner b).2,
        optEvTarget ev ≠ sess.owner) ∧
      (∀ u ∈ sess.users, u ≠ sess.owner →
        OptEv.evIgnoreCollections u b ∈ (handleIgnoreCollections sess sess.owner b).2)) ∧
    (∀ v, (∀ s ∈ v, s ∈ mtgSets) →
      (handleSetRestriction mtgSets sess sess.owner v false).1
        = { sess with setRestriction := v } ∧
      (∀ ev ∈ (handleSetRestriction mtgSets sess sess.owner v false).2,
        optEvTarget ev ≠ sess.owner) ∧
      (∀ u ∈ sess.users, u ≠ sess.owner →
        OptEv.evSetRestriction u v
          ∈ (handleSetRestriction mtgSets sess sess.owner v false).2)) ∧
    (∀ n, n ≠ sess.boostersPerPlayer →
      (handleBoostersPerPlayer sess sess.owner (some n)).1
        = { sess with boostersPerPlayer := n } ∧
      (∀ ev ∈ (handleBoostersPerPlayer sess sess.owner (some n)).2,
        optEvTarget ev ≠ sess.owner) ∧
      (∀ u ∈ sess.users, u ≠ sess.owner →
        OptEv.evBoostersPerPlayer u n
          ∈ (handleBoostersPerPlayer sess sess.owner (some n)).2)) ∧
    (∀ b, b ≠ sess.colorBalance →
      (handleSetColorBalance sess sess.owner b).1
        = { sess with colorBalance := b } ∧
      (∀ ev ∈ (handleSetColorBalance sess sess.owner b).2,
        optEvTarget ev ≠ sess.owner) ∧
      (∀ u ∈ sess.users, u ≠ sess.owner →
        OptEv.evColorBalance u b ∈ (handleSetColorBalance sess sess.owner b).2)) := by
  refine ⟨?_, ?_, ?_, ?_, ?_, ?_, ?_⟩
  · intro caller hc
    refine ⟨?_, ?_, ?_, ?_, ?_⟩
    · intro n; unfold handleBots; rw [if_pos hc]
    · intro n; unfold handleBoostersPerPlayer; rw [if_pos hc]
    · intro b; unfold handleSetColorBalance; rw [if_pos hc]
    · intro b; unfold handleIgnoreCollections; rw [if_pos hc]
    · intro v r; unfold handleSetRestriction; rw [if_pos hc]
  · refine ⟨?_, ?_, ?_, ?_⟩
    · unfold handleBots
      rw [if_neg (not_not_intro rfl)]
      dsimp only
      rw [if_pos rfl]
    · unfold handleBoostersPerPlayer
      rw [if_neg (not_not_intro rfl)]
      dsimp only
      rw [if_pos rfl]
    · unfold handleSetColorBalance
      rw [if_neg (not_not_intro rfl)]
      rw [if_pos rfl]
    · intro v
      unfold handleSetRestriction
      rw [if_neg (not_not_intro rfl)]
      by_cases hv : 0 < v.length ∧ v.any (fun s => decide (s ∉ mtgSets))
      · rw [if_pos hv]
      · rw [if_neg hv]
        rw [if_pos rfl]
  · intro n hn
    unfold handleBots
    rw [if_neg (not_not_intro rfl)]
    dsimp only
    rw [if_neg hn]
    have h := broadcast_targets (fun u => OptEv.evBots u n) sess.users sess.owner
      (fun u => rfl)
    exact ⟨rfl, h.1, h.2⟩
  · intro b
    unfold handleIgnoreCollections
    rw [if_neg (not_not_intro rfl)]
    have h := broadcast_targets (fun u => OptEv.evIgnoreCollections u b) sess.users
      sess.owner (fun u => rfl)
    exact ⟨rfl, h.1, h.2⟩
  · intro v hv
    unfold handleSetRestriction
    rw [if_neg (not_not_intro rfl)]
    rw [if_neg (by
      rintro ⟨-, hany⟩
      obtain ⟨s, hs, hdec⟩ := List.any_eq_true.mp hany
      exact (decide_eq_true_eq.mp hdec) (hv s hs))]
    rw [if_neg Bool.false_ne_true]
    have h := broadcast_targets (fun u => OptEv.evSetRestriction u v) sess.users
      sess.owner (fun u => rfl)
    exact ⟨rfl, h.1, h.2⟩
  · intro n hn
    unfold handleBoostersPerPlayer
    rw [if_neg (not_not_intro rfl)]
    dsimp only
    rw [if_neg hn]
    have h := broadcast_targets (fun u => OptEv.evBoostersPerPlayer u n) sess.users
      sess.owner (fun u => rfl)
    exact ⟨rfl, h.1, h.2⟩
  · intro b hb
    unfold handleSetColorBalance
    rw [if_neg (not_not_intro rfl)]
    rw [if_neg hb]
    have h := broadcast_targets (fun u => OptEv.evColorBalance u b) sess.users
      sess.owner (fun u => rfl)
    exact ⟨rfl, h.1, h.2⟩

/-- Concrete session separating claim C5 from the code. -/
def optC5Sess : OptSession :=
  { owner := 7, users := [7, 8], setRestriction := [1], ignoreCollections := true
    colorBalance := true, bots := 0, boostersPerPlayer := 3 }

/-- Claim C5 as stated is false: the owner re-sends `ignoreCollections =
true` while the option is already `true`, yet the handler (which has no
equality check) still emits the update to the other session user. -/
theorem c5_option_setters_claim_counterexample :
    optC5Sess.ignoreCollections = true ∧
    (handleIgnoreCollections optC5Sess 7 true).2
      = [OptEv.evIgnoreCollections 8 true] := by
  exact ⟨rfl, by decide⟩

/-- Witness: the amended C5 theorem applied concretely: an equal `bots`
value is a no-op; the always-broadcasting `ignoreCollections` and a changed
`boostersPerPlayer` and `colorBalance` reach user 8 but not the initiating
owner 7. -/
theorem c5_option_setters_amended_witness :
    handleBots optC5Sess 7 (some 0) = (optC5Sess, []) ∧
    OptEv.evIgnoreCollections 8 true ∈ (handleIgnoreCollections optC5Sess 7 true).2 ∧
    OptEv.evBoostersPerPlayer 8 4
      ∈ (handleBoostersPerPlayer optC5Sess 7 (some 4)).2 ∧
    OptEv.evColorBalance 8 false ∈ (handleSetColorBalance optC5Sess 7 false).2 := by
  have h := c5_option_setters_amended [1] optC5Sess
  refine ⟨h.2.1.1, ?_, ?_, ?_⟩
  · exact (h.2.2.2.1 true).2.2 8 (by decide) (by decide)
  · exact (h.2.2.2.2.2.1 4 (by decide)).2.2 8 (by decide) (by decide)
  · exact (h.2.2.2.2.2.2 false (by decide)).2.2 8 (by decide) (by decide)

/-- Card rarity. -/
inductive Rarity
  | common
  | uncommon
  | rare
  | mythic
deriving DecidableEq, Repr

/-- Facts the catalog stores per card; `colorId` encodes `color_identity`
(0..4 = WUBRG, 5 = multi, 6 = colorless). -/
structure CardFacts where
  setCode : Nat
  rarity : Rarity
  colorId : Nat
  in_booster : Bool
deriving DecidableEq, Repr

/-- The read-only card catalog `Cards`, in key insertion order. -/
abbrev CardsDB := List (CardID × CardFacts)

/-- The session's `maxDuplicates` table. -/
structure MaxDup where
  common : Nat
  uncommon : Nat
  rare : Nat
  mythic : Nat
deriving DecidableEq, Repr

def MaxDup.get (m : MaxDup) : Rarity → Nat
  | .common => m.common
  | .uncommon => m.uncommon
  | .rare => m.rare
  | .mythic => m.mythic

/-- Connection fields read by `Session.collection()`. -/
structure CollConn where
  useCollection : Bool
  collection : List (CardID × Nat)
deriving DecidableEq, Repr

/-- Session fields read by `Session.collection()`. -/
structure CollSession where
  users : List UserID
  ignoreCollections : Bool
  useCustomCardList : Bool
  customCardList : List CardID
  maxDuplicates : MaxDup
deriving DecidableEq, Repr

def getCollConn (conns : List (UserID × CollConn)) (u : UserID) : CollConn :=
  (conns.lookup u).getD ⟨false, []⟩

/-- Whether `Connections[u]` contributes its collection: `useCollection` set
and a non-empty collection (`isEmpty` in utils). -/
def usesColl (conns : List (UserID × CollConn)) (u : UserID) : Bool :=
  (getCollConn conns u).useCollection && !(getCollConn conns u).collection.isEmpty

/-- JS `r[cardId] += 1` / `r[cardId] = 1` over a card-id array (the
custom-card-list branch of `Session.collection()`). -/
def bagInsert (l : List (CardID × Nat)) (c : CardID) : List (CardID × Nat) :=
  if (l.lookup c).isSome then setA l c (((l.lookup c).getD 0) + 1) else l ++ [(c, 1)]

def customListBag (cs : List CardID) : List (CardID × Nat) :=
  cs.foldl bagInsert []

/-- `c in Cards && Cards[c].in_booster`. -/
def inBoosterDB (cards : CardsDB) (c : CardID) : Bool :=
  match cards.lookup c with
  | some f => f.in_booster
  | none => false

/-- One step of the key-intersection loop of `Session.collection()`:
`intersection = Object.keys(connCollection).filter(c => intersection.includes(c))`,
skipped entirely for a non-contributing user. -/
def interStep (conns : List (UserID × CollConn)) (acc : List CardID) (u : UserID) :
    List CardID :=
  if usesColl conns u then
    ((getCollConn conns u).collection.map (fun p => p.1)).filter
      (fun c => acc.contains c)
  else acc

/-- The intersection's starting set: all `in_booster` catalog cards when the
first user contributes no collection, else that user's in-booster keys. -/
def collInter0 (cards : CardsDB) (conns : List (UserID × CollConn)) (u0 : UserID) :
    List CardID :=
  if !(usesColl conns u0) then
    (cards.filter (fun p => p.2.in_booster)).map (fun p => p.1)
  else
    ((getCollConn conns u0).collection.map (fun p => p.1)).filter
      (fun c => inBoosterDB cards c)

/-- The minimum-count pass of `Session.collection()`: the running minimum
starts at the first user's count when they contribute and at the constant 4
otherwise, and folds the counts of the remaining contributing users. -/
def collMin (conns : List (UserID × CollConn)) (u0 : UserID) (rest : List UserID)
    (c : CardID) : Nat :=
  rest.foldl
    (fun acc u =>
      if usesColl conns u then
        min acc (((getCollConn conns u).collection.lookup c).getD 0)
      else acc)
    (if usesColl conns u0 then ((getCollConn conns u0).collection.lookup c).getD 0
     else 4)

/-- Shallow embedding of `Session.collection()` (Session.js): custom list as
a bag; otherwise the all-cards fallback (no user uses a collection, or
`ignoreCollections`), or the iterated key intersection starting from the
first user followed by the minimum-count pass. -/
def sessionCollection (cards : CardsDB) (conns : List (UserID × CollConn))
    (s : CollSession) : List (CardID × Nat) :=
  if s.useCustomCardList then customListBag s.customCardList
  else if s.ignoreCollections || s.users.all (fun u => !(usesColl conns u)) then
    (cards.filter (fun p => p.2.in_booster)).map
      (fun p => (p.1, s.maxDuplicates.get p.2.rarity))
  else
    match s.users with
    | [] => []
    | u0 :: rest =>
      (rest.foldl (interStep conns) (collInter0 cards conns u0)).map
        (fun c => (c, collMin conns u0 rest c))

/-- The participants whose collections count, in seating order. -/
def usingParticipants (conns : List (UserID × CollConn)) (users : List UserID) :
    List UserID :=
  users.filter (fun u => usesColl conns u)

/-- Minimum owned count of card `c` across a non-empty participant list
(0 for an empty one, which the claims never hit). -/
def minOwned (conns : List (UserID × CollConn)) (us : List UserID) (c : CardID) : Nat :=
  match us with
  | [] => 0
  | u :: t =>
    t.foldl (fun a v => min a (((getCollConn conns v).collection.lookup c).getD 0))
      (((getCollConn conns u).collection.lookup c).getD 0)

/-- The map claim C4 describes, as a lookup function: with a using
participant and `ignoreCollections` unset, each `in_booster` card present in
every using participant's collection goes to the MINIMUM owned count across
those participants; otherwise every `in_booster` card goes to
`maxDuplicates[rarity]`. -/
def collectionClaimC4 (cards : CardsDB) (conns : List (UserID × CollConn))
    (s : CollSession) (c : CardID) : Option Nat :=
  if s.ignoreCollections || (usingParticipants conns s.users).isEmpty then
    match cards.lookup c with
    | some f => if f.in_booster then some (s.maxDuplicates.get f.rarity) else none
    | none => none
  else if inBoosterDB cards c &&
      (usingParticipants conns s.users).all
        (fun u => ((getCollConn conns u).collection.lookup c).isSome) then
    some (minOwned conns (usingParticipants conns s.users) c)
  else none

/-- The amended map: as the claim, except that when the FIRST session user
is not a using participant the minimum is additionally clamped to 4 (the
hard-coded starting value of the minimum pass). -/
def collectionAmendedC4 (cards : CardsDB) (conns : List (UserID × CollConn))
    (s : CollSession) (c : CardID) : Option Nat :=
  if s.ignoreCollections || (usingParticipants conns s.users).isEmpty then
    match cards.lookup c with
    | some f => if f.in_booster then some (s.maxDuplicates.get f.rarity) else none
    | none => none
  else if inBoosterDB cards c &&
      (usingParticipants conns s.users).all
        (fun u => ((getCollConn conns u).collection.lookup c).isSome) then
    some (if usesColl conns (s.users.headD 0) then
            minOwned conns (usingParticipants conns s.users) c
          else min 4 (minOwned conns (usingParticipants conns s.users) c))
  else none

theorem lookup_map_pair (l : List CardID) (g : CardID → Nat) (c : CardID) :
    (l.map (fun x => (x, g x))).lookup c = if c ∈ l then some (g c) else none := by
  induction l with
  | nil => simp [List.lookup]
  | cons a t ih =>
    by_cases h : c = a
    · subst h
      simp [List.lookup]
    · simp only [List.map_cons, List.lookup, beq_eq_false_iff_ne.mpr h]
      rw [ih]
      by_cases hm : c ∈ t
      · rw [if_pos hm, if_pos (List.mem_cons.mpr (Or.inr hm))]
      · rw [if_neg hm, if_neg (fun hh => (List.mem_cons.mp hh).elim h hm)]

theorem lookup_isSome_iff_mem_keys {β : Type} (l : List (UserID × β)) (c : UserID) :
    (l.lookup c).isSome = true ↔ c ∈ l.map Prod.fst := by
  induction l with
  | nil => simp [List.lookup]
  | cons hd t ih =>
    obtain ⟨k, v⟩ := hd
    by_cases h : c = k
    · subst h
      simp [List.lookup]
    · simp only [List.map_cons, List.lookup, beq_eq_false_iff_ne.mpr h]
      rw [ih]
      constructor
      · intro hm; exact List.mem_cons.mpr (Or.inr hm)
      · intro hm; exact (List.mem_cons.mp hm).elim (fun hh => absurd hh h) id

theorem lookup_eq_none_iff_not_mem {β : Type} (l : List (UserID × β)) (c : UserID) :
    l.lookup c = none ↔ c ∉ l.map Prod.fst := by
  rw [← lookup_isSome_iff_mem_keys]
  cases l.lookup c <;> simp

theorem mem_of_lookup_eq_some {β : Type} (l : List (UserID × β)) (c : UserID) (v : β)
    (h : l.lookup c = some v) : (c, v) ∈ l := by
  induction l with
  | nil => simp [List.lookup] at h
  | cons hd t ih =>
    obtain ⟨k, b⟩ := hd
    by_cases hk : c = k
    · subst hk
      simp only [List.lookup, beq_self_eq_true] at h
      injection h with h
      subst h
      exact List.mem_cons_self _ _
    · simp only [List.lookup, beq_eq_false_iff_ne.mpr hk] at h
      exact List.mem_cons.mpr (Or.inr (ih h))

theorem lookup_eq_of_mem_nodup {β : Type} (l : List (UserID × β)) (c : UserID) (v : β)
    (hnodup : (l.map Prod.fst).Nodup) (h : (c, v) ∈ l) : l.lookup c = some v := by
  induction l with
  | nil => simp at h
  | cons hd t ih =>
    obtain ⟨k, b⟩ := hd
    rcases List.mem_cons.mp h with h' | h'
    · injection h' with h1 h2
      subst h1; subst h2
      simp [List.lookup]
    · have hk : c ≠ k := by
        intro hh
        subst hh
        exact (List.nodup_cons.mp hnodup).1
          (List.mem_map.mpr ⟨(c, v), h', rfl⟩)
      simp only [List.lookup, beq_eq_false_iff_ne.mpr hk]
      exact ih (List.nodup_cons.mp hnodup).2 h'

theorem lookup_cons_ne {β : Type} (k c : UserID) (v : β) (l : List (UserID × β))
    (h : c ≠ k) : ((k, v) :: l).lookup c = l.lookup c := by
  simp [List.lookup, beq_eq_false_iff_ne.mpr h]

theorem lookup_cons_self {β : Type} (k : UserID) (v : β) (l : List (UserID × β)) :
    ((k, v) :: l).lookup k = some v := by
  simp [List.lookup]

theorem mem_keys_iff {β : Type} (l : List (UserID × β)) (c : UserID) :
    c ∈ l.map (fun p => p.1) ↔ (l.lookup c).isSome = true :=
  (lookup_isSome_iff_mem_keys l c).symm

theorem mem_filter_map_fst_iff (cards : CardsDB) (c : CardID)
    (hnodup : (cards.map Prod.fst).Nodup) :
    c ∈ (cards.filter (fun p => p.2.in_booster)).map (fun p => p.1) ↔
      inBoosterDB cards c = true := by
  constructor
  · intro h
    obtain ⟨p, hp, hpc⟩ := List.mem_map.mp h
    obtain ⟨hpm, hpb⟩ := List.mem_filter.mp hp
    have hl : cards.lookup c = some p.2 := by
      refine lookup_eq_of_mem_nodup cards c p.2 hnodup ?_
      have : (c, p.2) = p := by
        rw [← hpc]
      rw [this]
      exact hpm
    unfold inBoosterDB
    rw [hl]
    exact hpb
  · intro h
    unfold inBoosterDB at h
    cases hl : cards.lookup c with
    | none => rw [hl] at h; exact absurd h Bool.false_ne_true
    | some f =>
      rw [hl] at h
      have hm : (c, f) ∈ cards := mem_of_lookup_eq_some cards c f hl
      exact List.mem_map.mpr ⟨(c, f), List.mem_filter.mpr ⟨hm, h⟩, rfl⟩

theorem lookup_booster_map (cards : CardsDB) (m : MaxDup)
    (hnodup : (cards.map Prod.fst).Nodup) (c : CardID) :
    ((cards.filter (fun p => p.2.in_booster)).map
        (fun p => (p.1, m.get p.2.rarity))).lookup c
      = (match cards.lookup c with
         | some f => if f.in_booster then some (m.get f.rarity) else none
         | none => none) := by
  induction cards with
  | nil => rfl
  | cons hd t ih =>
    obtain ⟨k, f⟩ := hd
    have hn : (t.map Prod.fst).Nodup := (List.nodup_cons.mp hnodup).2
    have hk : k ∉ t.map Prod.fst := (List.nodup_cons.mp hnodup).1
    rw [List.filter_cons]
    dsimp only
    by_cases hck : c = k
    · subst hck
      rw [lookup_cons_self]
      cases hq : f.in_booster
      · rw [if_neg Bool.false_ne_true, ih hn,
          (lookup_eq_none_iff_not_mem t c).mpr hk]
        simp [hq]
      · rw [if_pos rfl, List.map_cons, lookup_cons_self]
        simp [hq]
    · rw [lookup_cons_ne k c f t hck]
      cases hq : f.in_booster
      · rw [if_neg Bool.false_ne_true, ih hn]
      · rw [if_pos rfl, List.map_cons, lookup_cons_ne k c _ _ hck, ih hn]

theorem mem_interFold (conns : List (UserID × CollConn)) (rest : List UserID)
    (acc0 : List CardID) (c : CardID) :
    c ∈ rest.foldl (interStep conns) acc0 ↔
      c ∈ acc0 ∧ ∀ u ∈ rest, usesColl conns u = true →
        ((getCollConn conns u).collection.lookup c).isSome = true := by
  induction rest generalizing acc0 with
  | nil => simp
  | cons u t ih =>
    rw [List.foldl_cons, ih, List.forall_mem_cons]
    cases hu : usesColl conns u
    · have hstep : interStep conns acc0 u = acc0 := by
        unfold interStep
        rw [hu]
        rfl
      rw [hstep]
      constructor
      · rintro ⟨h1, h2⟩
        exact ⟨h1, fun hh => absurd hh (by simp [hu]), h2⟩
      · rintro ⟨h1, _, h2⟩
        exact ⟨h1, h2⟩
    · have hstep : interStep conns acc0 u =
          ((getCollConn conns u).collection.map (fun p => p.1)).filter
            (fun x => acc0.contains x) := by
        unfold interStep
        rw [hu]
        rfl
      rw [hstep]
      constructor
      · rintro ⟨h1, h2⟩
        obtain ⟨hkm, hc⟩ := List.mem_filter.mp h1
        exact ⟨by simpa using hc, fun _ => (mem_keys_iff _ c).mp hkm, h2⟩
      · rintro ⟨h1, hu', h2⟩
        refine ⟨List.mem_filter.mpr ⟨(mem_keys_iff _ c).mpr (hu' rfl), ?_⟩, h2⟩
        simpa using h1

theorem mem_collInter0_using (cards : CardsDB) (conns : List (UserID × CollConn))
    (u0 : UserID) (hu0 : usesColl conns u0 = true) (c : CardID) :
    c ∈ collInter0 cards conns u0 ↔
      ((getCollConn conns u0).collection.lookup c).isSome = true ∧
        inBoosterDB cards c = true := by
  unfold collInter0
  rw [hu0]
  simp only [Bool.not_true]
  rw [if_neg Bool.false_ne_true]
  rw [List.mem_filter, mem_keys_iff]

theorem mem_collInter0_notusing (cards : CardsDB) (conns : List (UserID × CollConn))
    (u0 : UserID) (hu0 : usesColl conns u0 = false)
    (hnodup : (cards.map Prod.fst).Nodup) (c : CardID) :
    c ∈ collInter0 cards conns u0 ↔ inBoosterDB cards c = true := by
  unfold collInter0
  rw [hu0]
  simp only [Bool.not_false]
  rw [if_pos trivial]
  exact mem_filter_map_fst_iff cards c hnodup

theorem foldl_gated_filter {α : Type} (p : α → Bool) (f : Nat → α → Nat)
    (l : List α) (a : Nat) :
    l.foldl (fun acc u => if p u then f acc u else acc) a
      = (l.filter p).foldl f a := by
  induction l generalizing a with
  | nil => rfl
  | cons u t ih =>
    rw [List.foldl_cons, List.filter_cons]
    cases hu : p u
    · rw [if_neg Bool.false_ne_true, if_neg Bool.false_ne_true, ih]
    · rw [if_pos rfl, if_pos rfl, List.foldl_cons, ih]

theorem foldl_min_fn (l : List UserID) (f : UserID → Nat) (a b : Nat) :
    l.foldl (fun acc u => min acc (f u)) (min a b)
      = min a (l.foldl (fun acc u => min acc (f u)) b) := by
  induction l generalizing b with
  | nil => rfl
  | cons u t ih =>
    rw [List.foldl_cons, List.foldl_cons, Nat.min_assoc, ih]

theorem usingParticipants_cons (conns : List (UserID × CollConn)) (u0 : UserID)
    (rest : List UserID) :
    usingParticipants conns (u0 :: rest)
      = if usesColl conns u0 then u0 :: usingParticipants conns rest
        else usingParticipants conns rest := by
  unfold usingParticipants
  rw [List.filter_cons]

theorem all_not_uses_iff_empty (conns : List (UserID × CollConn))
    (users : List UserID) :
    users.all (fun u => !(usesColl conns u))
      = (usingParticipants conns users).isEmpty := by
  induction users with
  | nil => rfl
  | cons u t ih =>
    rw [List.all_cons, usingParticipants_cons]
    cases hu : usesColl conns u
    · rw [if_neg Bool.false_ne_true]
      simp [ih]
    · rw [if_pos rfl]
      simp

theorem collMin_eq_using (conns : List (UserID × CollConn)) (u0 : UserID)
    (rest : List UserID) (c : CardID) (hu0 : usesColl conns u0 = true) :
    collMin conns u0 rest c
      = minOwned conns (u0 :: usingParticipants conns rest) c := by
  unfold collMin minOwned usingParticipants
  rw [hu0, if_pos rfl]
  exact foldl_gated_filter (fun u => usesColl conns u)
    (fun acc u => min acc (((getCollConn conns u).collection.lookup c).getD 0)) rest _

theorem collMin_eq_notusing (conns : List (UserID × CollConn)) (u0 : UserID)
    (rest : List UserID) (c : CardID) (hu0 : usesColl conns u0 = false)
    (v : UserID) (t : List UserID)
    (hf : usingParticipants conns rest = v :: t) :
    collMin conns u0 rest c
      = min 4 (minOwned conns (usingParticipants conns rest) c) := by
  unfold collMin
  rw [hu0, if_neg Bool.false_ne_true]
  rw [foldl_gated_filter (fun u => usesColl conns u)
    (fun acc u => min acc (((getCollConn conns u).collection.lookup c).getD 0)) rest 4]
  unfold usingParticipants at hf
  rw [hf, List.foldl_cons]
  unfold usingParticipants
  rw [hf]
  simp only [minOwned]
  exact foldl_min_fn t _ 4 _

/-- C4 (corrected): with the custom card list off and a duplicate-free card
catalog, `Session.collection()` computes exactly the map the claim describes
EXCEPT that when the first session user contributes no collection the
per-card minimum across the contributing participants is additionally
clamped to 4, the hard-coded starting value of the minimum pass; all other
clauses (ignoreCollections / no-contributor fallback to
`maxDuplicates[rarity]` over `in_booster` cards, intersection over the
contributing participants' collections restricted to `in_booster` cards)
hold as claimed. -/
theorem c4_collection_amended (cards : CardsDB) (conns : List (UserID × CollConn))
    (s : CollSession) (hcustom : s.useCustomCardList = false)
    (hnodup : (cards.map Prod.fst).Nodup) (c : CardID) :
    (sessionCollection cards conns s).lookup c = collectionAmendedC4 cards conns s c := by
  unfold sessionCollection collectionAmendedC4
  rw [if_neg (by rw [hcustom]; exact Bool.false_ne_true)]
  rw [all_not_uses_iff_empty]
  cases hcond : (s.ignoreCollections || (usingParticipants conns s.users).isEmpty) with
  | true =>
    rw [if_pos rfl, if_pos rfl]
    exact lookup_booster_map cards s.maxDuplicates hnodup c
  | false =>
    rw [if_neg Bool.false_ne_true, if_neg Bool.false_ne_true]
    have hne : (usingParticipants conns s.users).isEmpty = false := by
      cases h2 : (usingParticipants conns s.users).isEmpty
      · rfl
      · rw [h2, Bool.or_true] at hcond
        exact Bool.noConfusion hcond
    cases husers : s.users with
    | nil =>
      rw [husers] at hne
      simp [usingParticipants] at hne
    | cons u0 rest =>
      rw [husers] at hne
      dsimp only
      rw [lookup_map_pair (rest.foldl (interStep conns) (collInter0 cards conns u0))
        (collMin conns u0 rest) c]
      rw [usingParticipants_cons, List.headD_cons]
      by_cases hu0 : usesColl conns u0 = true
      · simp only [if_pos hu0]
        have hiff : c ∈ rest.foldl (interStep conns) (collInter0 cards conns u0) ↔
            (inBoosterDB cards c &&
              (u0 :: usingParticipants conns rest).all
                (fun u => ((getCollConn conns u).collection.lookup c).isSome)) = true := by
          rw [mem_interFold, mem_collInter0_using cards conns u0 hu0]
          simp only [Bool.and_eq_true, List.all_cons, List.all_eq_true,
            usingParticipants, List.mem_filter]
          constructor
          · rintro ⟨⟨hl0, hb⟩, hrest⟩
            exact ⟨hb, hl0, fun u hu => hrest u hu.1 hu.2⟩
          · rintro ⟨hb, hl0, hrest⟩
            exact ⟨⟨hl0, hb⟩, fun u hu hu2 => hrest u ⟨hu, hu2⟩⟩
        by_cases hc : c ∈ rest.foldl (interStep conns) (collInter0 cards conns u0)
        · rw [if_pos hc, if_pos (hiff.mp hc)]
          rw [collMin_eq_using conns u0 rest c hu0]
        · rw [if_neg hc, if_neg (fun hh => hc (hiff.mpr hh))]
      · simp only [if_neg hu0]
        have hu0f : usesColl conns u0 = false := by
          cases h : usesColl conns u0
          · rfl
          · exact absurd h hu0
        have hUP : usingParticipants conns (u0 :: rest) = usingParticipants conns rest := by
          rw [usingParticipants_cons, if_neg hu0]
        rw [hUP] at hne
        cases hUPr : usingParticipants conns rest with
        | nil =>
          rw [hUPr] at hne
          exact absurd hne (by simp)
        | cons v t =>
          have hiff : c ∈ rest.foldl (interStep conns) (collInter0 cards conns u0) ↔
              (inBoosterDB cards c &&
                (usingParticipants conns rest).all
                  (fun u => ((getCollConn conns u).collection.lookup c).isSome)) = true := by
            rw [mem_interFold, mem_collInter0_notusing cards conns u0 hu0f hnodup]
            simp only [Bool.and_eq_true, List.all_eq_true, usingParticipants,
              List.mem_filter]
            constructor
            · rintro ⟨hb, hrest⟩
              exact ⟨hb, fun u hu => hrest u hu.1 hu.2⟩
            · rintro ⟨hb, hrest⟩
              exact ⟨hb, fun u hu hu2 => hrest u ⟨hu, hu2⟩⟩
          rw [hUPr] at hiff
          by_cases hc : c ∈ rest.foldl (interStep conns) (collInter0 cards conns u0)
          · rw [if_pos hc, if_pos (hiff.mp hc)]
            rw [collMin_eq_notusing conns u0 rest c hu0f v t hUPr, hUPr]
          · rw [if_neg hc, if_neg (fun hh => hc (hiff.mpr hh))]

/-- A one-card catalog and a two-user session where the first user
contributes no collection and the second owns 7 copies of the card. -/
def c4Cards : CardsDB := [(1, ⟨0, Rarity.rare, 0, true⟩)]

def c4Conns : List (UserID × CollConn) :=
  [(10, ⟨false, []⟩), (20, ⟨true, [(1, 7)]⟩)]

def c4Sess : CollSession :=
  { users := [10, 20], ignoreCollections := false, useCustomCardList := false,
    customCardList := [], maxDuplicates := ⟨8, 4, 2, 1⟩ }

/-- C4 counterexample: the claim maps card 1 to the minimum owned count 7
across the contributing participants, but `collection()` starts its minimum
pass at the constant 4 because the first user contributes no collection, so
the computed map gives 4. -/
theorem c4_collection_claim_counterexample :
    collectionClaimC4 c4Cards c4Conns c4Sess 1 = some 7 ∧
      (sessionCollection c4Cards c4Conns c4Sess).lookup 1 = some 4 := by
  constructor
  · decide
  · decide

/-- Witness: the amended C4 theorem applied at the concrete two-user
session; the amended map clamps the minimum to 4 there, matching the code. -/
theorem c4_collection_amended_witness :
    (sessionCollection c4Cards c4Conns c4Sess).lookup 1
        = collectionAmendedC4 c4Cards c4Conns c4Sess 1 ∧
      collectionAmendedC4 c4Cards c4Conns c4Sess 1 = some 4 :=
  ⟨c4_collection_amended c4Cards c4Conns c4Sess rfl (by decide) 1, by decide⟩

/-- Modelled from the spec: `negMod` (from utils.js, which is not among the
sources) is the non-negative modulo `((m % n) + n) % n`, with JS `%` as
`Int.tmod`. -/
def negMod (m n : Int) : Int := (m.tmod n + n).tmod n

/-- Session fields read and written by `Session.nextBooster`. -/
structure NBState where
  boosters : List (List CardID)
  round : Int
  boosterNumber : Nat
  pickedCardsThisRound : Nat
deriving Repr, DecidableEq

/-- Socket emissions of `Session.nextBooster`: per-seat
`nextBooster{booster, boosterNumber, pickNumber}` (tagged with the seat
position and the computed booster index), or `endDraft`. -/
inductive NBEv
  | nextBooster (pos : Nat) (boosterIndex : Int) (booster : List CardID)
      (boosterNumber : Nat) (pickNumber : Int)
  | endDraft
deriving Repr, DecidableEq

/-- The empty-pack cleanup at the head of `Session.nextBooster`: when the
current pack is drained (`this.boosters[0].length == 0`), drop the first
`totalVirtualPlayers` boosters, reset `round` and bump `boosterNumber`. -/
def nbCleanup (v : Nat) (s : NBState) : NBState :=
  if (s.boosters.headD []).length = 0 then
    { boosters := s.boosters.drop v, round := 0,
      boosterNumber := s.boosterNumber + 1,
      pickedCardsThisRound := s.pickedCardsThisRound }
  else s

/-- `boosterOffset = evenRound ? -this.round : this.round` with
`evenRound = (this.boosters.length / totalVirtualPlayers) % 2 == 0`; the JS
float division is integral exactly when `v` divides the booster count,
which holds in every reachable state and is hypothesised by the theorems
below. -/
def nbOffset (v : Nat) (s : NBState) : Int :=
  if (s.boosters.length / v) % 2 = 0 then -s.round else s.round

/-- Shallow embedding of `Session.nextBooster` (Session.js): cleanup, the
end-of-draft check, then every seat at position `p` is assigned
`boosterIndex = negMod(boosterOffset + p, totalVirtualPlayers)` and sent
`nextBooster{booster: boosters[boosterIndex], boosterNumber,
pickNumber: round+1}`; finally `pickedCardsThisRound` is reset and `round`
incremented. All `v` seats are modelled as connected humans (for bots and
disconnected players only the delivery of the index differs, not its
computation). -/
def sessionNextBooster (v : Nat) (s : NBState) : NBState × List NBEv :=
  if (nbCleanup v s).boosters.length = 0 then (nbCleanup v s, [NBEv.endDraft])
  else
    ({ boosters := (nbCleanup v s).boosters, round := (nbCleanup v s).round + 1,
       boosterNumber := (nbCleanup v s).boosterNumber, pickedCardsThisRound := 0 },
     (List.range v).map (fun p =>
       NBEv.nextBooster p (negMod (nbOffset v (nbCleanup v s) + p) v)
         ((nbCleanup v s).boosters.getD (negMod (nbOffset v (nbCleanup v s) + p) v).toNat [])
         (nbCleanup v s).boosterNumber ((nbCleanup v s).round + 1)))

/-- The booster-index rule claim C6 states: offset `-pickNumber` when the
current pack number is even, `+pickNumber` when it is odd (pack numbers
start at 1 as in `boosterNumber`; `pickNumber` is the 0-based pick counter
`this.round`). -/
def claimBoosterIndexC6 (boosterNumber : Nat) (pickNumber : Int) (p v : Nat) : Int :=
  negMod ((if boosterNumber % 2 = 0 then -pickNumber else pickNumber) + p) v

/-- The corrected rule: the direction is governed by the parity of the
REMAINING pack count `boosters.length / V = boostersPerPlayer + 1 -
boosterNumber`, so the offset is `-pickNumber` exactly when
`boostersPerPlayer + boosterNumber` is odd. For odd `boostersPerPlayer`
this coincides with the claim's even-pack rule; for even
`boostersPerPlayer` it is its exact inversion. -/
def amendedBoosterIndexC6 (bpp boosterNumber : Nat) (pickNumber : Int) (p v : Nat) : Int :=
  negMod ((if (bpp + boosterNumber) % 2 = 1 then -pickNumber else pickNumber) + p) v

/-- C6 (corrected): in a mid-pack `nextBooster` call on pack `boosterNumber`
of `bpp` boosters per player (so `boosters.length = (bpp + 1 -
boosterNumber) * v`), every seat `p` is assigned the booster at
`negMod(boosterOffset + p, v)` where the offset is `-round` exactly when
`bpp + boosterNumber` is odd - not when the pack number is even, as the
claim has it - and `round` is then incremented; the direction still flips
between consecutive pack numbers, so passes do alternate. -/
theorem c6_nextBooster_amended (v bpp : Nat) (s : NBState) (hv : 0 < v)
    (hb2 : s.boosterNumber ≤ bpp)
    (hlen : s.boosters.length = (bpp + 1 - s.boosterNumber) * v)
    (hne : (s.boosters.headD []).length ≠ 0) :
    ((sessionNextBooster v s).2
        = (List.range v).map (fun p =>
            NBEv.nextBooster p (amendedBoosterIndexC6 bpp s.boosterNumber s.round p v)
              (s.boosters.getD
                (amendedBoosterIndexC6 bpp s.boosterNumber s.round p v).toNat [])
              s.boosterNumber (s.round + 1))
      ∧ (sessionNextBooster v s).1.round = s.round + 1)
      ∧ ∀ (b : Nat) (pick : Int) (p : Nat),
          amendedBoosterIndexC6 bpp (b + 1) pick p v
            = negMod ((if (bpp + b) % 2 = 1 then pick else -pick) + p) v := by
  have hclean : nbCleanup v s = s := by
    unfold nbCleanup
    rw [if_neg hne]
  have hlen0 : (nbCleanup v s).boosters.length ≠ 0 := by
    rw [hclean, hlen]
    exact Nat.mul_ne_zero (by omega) (by omega)
  have hoff : nbOffset v s
      = if (bpp + s.boosterNumber) % 2 = 1 then -s.round else s.round := by
    unfold nbOffset
    rw [hlen, Nat.mul_div_cancel _ hv]
    by_cases h : (bpp + s.boosterNumber) % 2 = 1
    · rw [if_pos (by omega), if_pos h]
    · rw [if_neg (by omega), if_neg h]
  constructor
  · unfold sessionNextBooster
    rw [if_neg hlen0, hclean, hoff]
    constructor
    · dsimp only
      unfold amendedBoosterIndexC6
      rfl
    · rfl
  · intro b pick p
    unfold amendedBoosterIndexC6
    by_cases h : (bpp + b) % 2 = 1
    · rw [if_neg (by omega), if_pos h]
    · rw [if_pos (by omega), if_neg h]

/-- Mid-pack state: 2 boosters per player, 3 virtual players, pack number 1,
pick counter (`this.round`) 1. -/
def c6WitState : NBState :=
  { boosters := [[9], [9], [9], [9], [9], [9]], round := 1,
    boosterNumber := 1, pickedCardsThisRound := 0 }

/-- C6 counterexample: on pack number 1 (odd) at pick counter 1 the claim's
rule gives seat 0 the booster at `negMod(+1, 3) = 1`, but with 2 boosters
per player the code computes `evenRound` from `6 / 3 = 2` and assigns seat 0
the booster at `negMod(-1, 3) = 2`. -/
theorem c6_nextBooster_claim_counterexample :
    claimBoosterIndexC6 1 1 0 3 = 1 ∧
      (sessionNextBooster 3 c6WitState).2.headD NBEv.endDraft
        = NBEv.nextBooster 0 2 [9] 1 2 := by
  constructor
  · decide
  · decide

/-- Witness: the amended C6 theorem applied at the concrete mid-pack state
with 3 virtual players and 2 boosters per player. -/
theorem c6_nextBooster_amended_witness :
    (sessionNextBooster 3 c6WitState).2
        = (List.range 3).map (fun p =>
            NBEv.nextBooster p
              (amendedBoosterIndexC6 2 c6WitState.boosterNumber c6WitState.round p 3)
              (c6WitState.boosters.getD
                (amendedBoosterIndexC6 2 c6WitState.boosterNumber c6WitState.round p 3).toNat [])
              c6WitState.boosterNumber (c6WitState.round + 1))
      ∧ (sessionNextBooster 3 c6WitState).1.round = c6WitState.round + 1 :=
  (c6_nextBooster_amended 3 2 c6WitState (by decide) (by decide) (by decide)
    (by decide)).1

/-- A card dictionary `{cardID: count}` in key insertion order, as used for
the `localCollection` buckets in `Session.generateBoosters`. -/
abbrev Dict := List (CardID × Nat)

/-- `count_cards(coll)` (Session.js):
`Object.values(coll).reduce((acc, val) => acc + val, 0)`. -/
def count_cards (coll : Dict) : Nat := (coll.map Prod.snd).sum

/-- Modelled from the spec: `utils.getRandomKey` (utils.js is not among the
sources) draws a uniformly random key,
`Object.keys(dict)[Math.floor(Math.random() * length)]`, here with the
dyadic roll `r / 2^53` (out-of-range index only on an empty dictionary,
where JS yields `undefined`). -/
def getRandomKey (r : Nat) (d : Dict) : CardID :=
  (d.map Prod.fst).getD (jsRandIdx r d.length) 0

/-- Modelled from the spec: `removeCardFromDict` (src/cardUtils, not among
the sources) decrements the drawn card's count and deletes the key when it
reaches zero ("each draw decrements the remaining count; when a card's
count hits zero it is gone").  Absent keys are left alone (callers only
remove keys they just drew). -/
def removeCardFromDict (c : CardID) (d : Dict) : Dict :=
  match d.lookup c with
  | none => d
  | some n => if n ≤ 1 then eraseA d c else setA d c (n - 1)

/-- The duplicate-prevention retry loop of `pick_card`: redraw while the
drawn key is already in `booster`, at most `Object.keys(dict).length`
times. -/
def pickCardLoop (d : Dict) (b : List CardID) : CardID → Nat → List Nat → CardID × List Nat
  | c, 0, rs => (c, rs)
  | c, fuel + 1, rs =>
    if b.contains c then pickCardLoop d b (getRandomKey (rs.headD 0) d) fuel rs.tail
    else (c, rs)

/-- `pick_card(dict, booster)` (Session.js): draw a random key, optionally
retry while it is in `booster`, remove one copy from the dictionary, return
the card.  The roll stream stands for the successive `Math.random()`
results (an exhausted stream repeats roll 0). -/
def pick_card (rs : List Nat) (d : Dict) (booster : Option (List CardID)) :
    CardID × Dict × List Nat :=
  match booster with
  | none =>
    let c := getRandomKey (rs.headD 0) d
    (c, removeCardFromDict c d, rs.tail)
  | some b =>
    let cr := pickCardLoop d b (getRandomKey (rs.headD 0) d) d.length rs.tail
    (cr.1, removeCardFromDict cr.1 d, cr.2)

/-- The four rarity buckets of `localCollection`. -/
structure LocalColl where
  common : Dict
  uncommon : Dict
  rare : Dict
  mythic : Dict
deriving Repr, DecidableEq

def LocalColl.get (lc : LocalColl) : Rarity → Dict
  | .common => lc.common
  | .uncommon => lc.uncommon
  | .rare => lc.rare
  | .mythic => lc.mythic

def LocalColl.setR (lc : LocalColl) : Rarity → Dict → LocalColl
  | .common, d => { lc with common := d }
  | .uncommon, d => { lc with uncommon := d }
  | .rare, d => { lc with rare := d }
  | .mythic, d => { lc with mythic := d }

/-- The per-booster targets table selected by `this.maxRarity`
(mythic/rare/default: 1 rare, 3 uncommons, 10 commons; uncommon: 0/3/11;
common: 0/0/14). -/
structure Targets where
  rare : Nat
  uncommon : Nat
  common : Nat
deriving Repr, DecidableEq

def targetsFor : Rarity → Targets
  | .uncommon => ⟨0, 3, 11⟩
  | .common => ⟨0, 0, 14⟩
  | .rare => ⟨1, 3, 10⟩
  | .mythic => ⟨1, 3, 10⟩

/-- One step of building `commonsByColor` (keyed by `color_identity`; cards
absent from the catalog never occur here, because
`restrictedCollectionByRarity` drops them). -/
def cbcAdd (cards : CardsDB) (cbc : List (Nat × Dict)) (p : CardID × Nat) :
    List (Nat × Dict) :=
  match cards.lookup p.1 with
  | none => cbc
  | some f =>
    match cbc.lookup f.colorId with
    | none => cbc ++ [(f.colorId, [(p.1, p.2)])]
    | some d => setA cbc f.colorId (d ++ [(p.1, p.2)])

def buildCBC (cards : CardsDB) (commons : Dict) : List (Nat × Dict) :=
  commons.foldl (cbcAdd cards) []

/-- `removeCardFromDict(c, commonsByColor[color])`, a no-op on a missing
color bucket. -/
def cbcRemove (cbc : List (Nat × Dict)) (color : Nat) (c : CardID) :
    List (Nat × Dict) :=
  match cbc.lookup color with
  | none => cbc
  | some d => setA cbc color (removeCardFromDict c d)

/-- The generator's mutable state: the rarity buckets, `commonsByColor`,
and the remaining roll stream. -/
structure GenSt where
  lc : LocalColl
  cbc : List (Nat × Dict)
  rs : List Nat
deriving Repr, DecidableEq

/-- The foil rarity scan: the first rarity in `foilRarityFreq` insertion
order (mythic, rare, uncommon, common) whose cumulative frequency
(1/128, 8/128, 4/16, 1) the `rarityCheck` roll is below and whose pool is
non-empty. -/
def foilRarityPick (rarityCheck : Nat) (lc : LocalColl) : Option Rarity :=
  if rollLe rarityCheck 1 128 && !lc.mythic.isEmpty then some .mythic
  else if rollLe rarityCheck 8 128 && !lc.rare.isEmpty then some .rare
  else if rollLe rarityCheck 4 16 && !lc.uncommon.isEmpty then some .uncommon
  else if rollLe rarityCheck 1 1 && !lc.common.isEmpty then some .common
  else none

/-- The optional foil slot: with `foil` on, a roll against 15/63, then a
rarity roll scanned through `foilRarityFreq`; the picked card is prepended
to the booster and `addedFoils` is subtracted from the COMMON fill target
below, whatever the foil's rarity.  With `colorBalance` on, a common foil
is also removed from its `commonsByColor` bucket. -/
def foilStep (cards : CardsDB) (foil colorBalance : Bool) (st : GenSt) :
    List CardID × Nat × GenSt :=
  if foil then
    if rollLe (st.rs.headD 0) 15 63 then
      match foilRarityPick (st.rs.tail.headD 0) st.lc with
      | none => ([], 0, { st with rs := st.rs.tail.tail })
      | some r =>
        match pick_card st.rs.tail.tail (st.lc.get r) none with
        | (c, d1, rs1) =>
          ([c], 1,
           { lc := st.lc.setR r d1,
             cbc :=
               (if colorBalance then
                  match cards.lookup c with
                  | some f =>
                    if f.rarity == Rarity.common then cbcRemove st.cbc f.colorId c
                    else st.cbc
                  | none => st.cbc
                else st.cbc),
             rs := rs1 })
    else ([], 0, { st with rs := st.rs.tail })
  else ([], 0, st)

/-- One rare slot: fail (`return false`) when both pools are empty; if the
mythic pool is empty draw a rare; if `maxRarity` is mythic and the rare
pool is empty draw a mythic; otherwise, when `maxRarity` is mythic promote
to mythic on `Math.random() * 8 < 1`, else draw a rare. -/
def rareSlot (maxRarity : Rarity) (st : GenSt) : Option (CardID × GenSt) :=
  if st.lc.mythic.isEmpty && st.lc.rare.isEmpty then none
  else if st.lc.mythic.isEmpty then
    match pick_card st.rs st.lc.rare none with
    | (c, d1, rs1) => some (c, { st with lc := st.lc.setR .rare d1, rs := rs1 })
  else if maxRarity == Rarity.mythic && st.lc.rare.isEmpty then
    match pick_card st.rs st.lc.mythic none with
    | (c, d1, rs1) => some (c, { st with lc := st.lc.setR .mythic d1, rs := rs1 })
  else if maxRarity == Rarity.mythic then
    if rollMulLtOne (st.rs.headD 0) 8 then
      match pick_card st.rs.tail st.lc.mythic none with
      | (c, d1, rs1) => some (c, { st with lc := st.lc.setR .mythic d1, rs := rs1 })
    else
      match pick_card st.rs.tail st.lc.rare none with
      | (c, d1, rs1) => some (c, { st with lc := st.lc.setR .rare d1, rs := rs1 })
  else
    match pick_card st.rs st.lc.rare none with
    | (c, d1, rs1) => some (c, { st with lc := st.lc.setR .rare d1, rs := rs1 })

def rareSlots (maxRarity : Rarity) : Nat → List CardID → GenSt →
    Option (List CardID × GenSt)
  | 0, b, st => some (b, st)
  | n + 1, b, st =>
    match rareSlot maxRarity st with
    | none => none
    | some (c, st1) => rareSlots maxRarity n (b ++ [c]) st1

def uncommonSlots : Nat → List CardID → GenSt → List CardID × GenSt
  | 0, b, st => (b, st)
  | n + 1, b, st =>
    match pick_card st.rs st.lc.uncommon (some b) with
    | (c, d1, rs1) =>
      uncommonSlots n (b ++ [c]) { st with lc := st.lc.setR .uncommon d1, rs := rs1 }

/-- The color-balance pre-pass over "WUBRG" (colors 0-4): draw one common
of each color whose `commonsByColor` bucket exists and is non-empty,
removing the pick from the common bucket as well. -/
def cbColors : List Nat → List CardID → GenSt → List CardID × GenSt
  | [], picked, st => (picked, st)
  | col :: rest, picked, st =>
    match st.cbc.lookup col with
    | none => cbColors rest picked st
    | some d =>
      if d.isEmpty then cbColors rest picked st
      else
        match pick_card st.rs d (some picked) with
        | (c, d1, rs1) =>
          cbColors rest (picked ++ [c])
            { lc := st.lc.setR .common (removeCardFromDict c st.lc.common),
              cbc := setA st.cbc col d1, rs := rs1 }

/-- The common fill loop `for (i = pickedCommons.length; i < targets.common
- addedFoils; ++i)`; with `colorBalance` on each pick is also removed from
its `commonsByColor` bucket. -/
def commonFill (cards : CardsDB) (colorBalance : Bool) :
    Nat → List CardID → GenSt → List CardID × GenSt
  | 0, picked, st => (picked, st)
  | n + 1, picked, st =>
    match pick_card st.rs st.lc.common (some picked) with
    | (c, d1, rs1) =>
      commonFill cards colorBalance n (picked ++ [c])
        { lc := st.lc.setR .common d1,
          cbc :=
            (if colorBalance then
               match cards.lookup c with
               | some f => cbcRemove st.cbc f.colorId c
               | none => st.cbc
             else st.cbc),
          rs := rs1 }

/-- One booster of the non-custom path: foil slot, `targets.rare`
rare/mythic slots, `targets.uncommon` uncommons, the color-balance
pre-pass, the common fill up to `targets.common - addedFoils`, the final
shuffle of the common block appended after the rest, and - last - one
land-slot pick (`if (landSlot) booster.push(landSlot.pick())`) when a land
slot is configured.  Modelled from the spec for the pick itself: the
LandSlot module is not among the sources, and the spec says a configured
land slot appends one card drawn from its land sheet. -/
def generateOneBooster (cards : CardsDB) (foil colorBalance : Bool)
    (maxRarity : Rarity) (landSlot : Option (List CardID)) (st : GenSt) :
    Option (List CardID × GenSt) :=
  match foilStep cards foil colorBalance st with
  | (b0, addedFoils, st0) =>
    match rareSlots maxRarity (targetsFor maxRarity).rare b0 st0 with
    | none => none
    | some (b1, st1) =>
      match uncommonSlots (targetsFor maxRarity).uncommon b1 st1 with
      | (b2, st2) =>
        match (if colorBalance then cbColors [0, 1, 2, 3, 4] [] st2 else ([], st2)) with
        | (pc, st3) =>
          match commonFill cards colorBalance
              ((targetsFor maxRarity).common - addedFoils - pc.length) pc st3 with
          | (pickedCommons, st4) =>
            match shuffleArray pickedCommons st4.rs with
            | (shuffled, rs5) =>
              match landSlot with
              | none => some (b2 ++ shuffled, { st4 with rs := rs5 })
              | some lands =>
                some (b2 ++ shuffled
                    ++ [lands.getD (jsRandIdx (rs5.headD 0) lands.length) 0],
                  { st4 with rs := rs5.tail })

def generateBoostersGo (cards : CardsDB) (foil colorBalance : Bool)
    (maxRarity : Rarity) (landSlot : Option (List CardID)) :
    Nat → List (List CardID) → GenSt → Option (List (List CardID) × GenSt)
  | 0, acc, _st => some (acc, _st)
  | q + 1, acc, st =>
    match generateOneBooster cards foil colorBalance maxRarity landSlot st with
    | none => none
    | some (b, st1) =>
      generateBoostersGo cards foil colorBalance maxRarity landSlot q (acc ++ [b]) st1

/-- Shallow embedding of the non-custom path of
`Session.generateBoosters(boosterQuantity)` (Session.js): the three
per-bucket supply checks (each `return false` is `none` here, reported as
a shortage to the owner), then the booster loop.  `lc` is the
restricted-by-rarity effective collection the method computes via
`this.restrictedCollectionByRarity()`; `landSlots` is the `LandSlot` table
of land sheets per set code, consulted exactly for a one-element
`setRestriction` (`this.setRestriction.length === 1 &&
this.setRestriction[0] in LandSlot`); the roll stream stands for the
successive `Math.random()` results. -/
def generateBoosters (cards : CardsDB) (foil colorBalance : Bool)
    (maxRarity : Rarity) (landSlots : List (Nat × List CardID))
    (setRestriction : List Nat) (lc : LocalColl) (q : Nat) (rs : List Nat) :
    Option (List (List CardID) × GenSt) :=
  if count_cards lc.common < (targetsFor maxRarity).common * q then none
  else if count_cards lc.uncommon < (targetsFor maxRarity).uncommon * q then none
  else if count_cards lc.rare + count_cards lc.mythic < (targetsFor maxRarity).rare * q
    then none
  else
    generateBoostersGo cards foil colorBalance maxRarity
      (if setRestriction.length = 1 then landSlots.lookup (setRestriction.headD 0)
       else none)
      q []
      { lc := lc, cbc := if colorBalance then buildCBC cards lc.common else [], rs := rs }

/-- The `startDraft` behaviour around generation (Session.js lines
2211-2232): `drafting` is set to true up front and reset to false when
`generateBoosters` returns false. -/
def startDraftFlag (cards : CardsDB) (foil colorBalance : Bool) (maxRarity : Rarity)
    (landSlots : List (Nat × List CardID)) (setRestriction : List Nat)
    (lc : LocalColl) (q : Nat) (rs : List Nat) : Bool :=
  match generateBoosters cards foil colorBalance maxRarity landSlots setRestriction
      lc q rs with
  | none => false
  | some _ => true

theorem count_cards_cons (k : CardID) (m : Nat) (t : Dict) :
    count_cards ((k, m) :: t) = m + count_cards t := by
  unfold count_cards
  simp

theorem eraseA_cons_self {β : Type} (k : UserID) (v : β) (t : List (UserID × β)) :
    eraseA ((k, v) :: t) k = eraseA t k := by
  unfold eraseA
  rw [List.filter_cons]
  simp

theorem eraseA_cons_ne {β : Type} (k c : UserID) (v : β) (t : List (UserID × β))
    (h : k ≠ c) : eraseA ((k, v) :: t) c = (k, v) :: eraseA t c := by
  unfold eraseA
  rw [List.filter_cons]
  simp [h]

theorem eraseA_eq_self {β : Type} (l : List (UserID × β)) (c : UserID)
    (h : c ∉ l.map Prod.fst) : eraseA l c = l := by
  unfold eraseA
  refine List.filter_eq_self.mpr ?_
  intro p hp
  simp only [bne_iff_ne, ne_eq]
  intro hh
  exact h (List.mem_map.mpr ⟨p, hp, hh⟩)

theorem keys_eraseA_sublist {β : Type} (l : List (UserID × β)) (c : UserID) :
    ((eraseA l c).map Prod.fst).Sublist (l.map Prod.fst) :=
  List.Sublist.map Prod.fst (List.filter_sublist l)

theorem keys_setA {β : Type} (l : List (UserID × β)) (k : UserID) (v : β)
    (h : k ∈ l.map Prod.fst) : (setA l k v).map Prod.fst = l.map Prod.fst := by
  induction l with
  | nil => simp at h
  | cons p t ih =>
    obtain ⟨k', v'⟩ := p
    unfold setA
    by_cases hk : k' = k
    · subst hk
      rw [if_pos rfl]
      simp
    · rw [if_neg hk]
      simp only [List.map_cons, List.mem_cons] at h
      rcases h with h1 | h1
      · exact absurd h1.symm hk
      · simp only [List.map_cons, ih h1]

theorem count_cards_eraseA (d : Dict) (c : CardID) (n : Nat)
    (hnd : (d.map Prod.fst).Nodup) (h : d.lookup c = some n) :
    count_cards (eraseA d c) + n = count_cards d := by
  induction d with
  | nil => simp [List.lookup] at h
  | cons p t ih =>
    obtain ⟨k, m⟩ := p
    by_cases hk : c = k
    · subst hk
      rw [lookup_cons_self] at h
      injection h with h
      subst h
      rw [eraseA_cons_self, eraseA_eq_self t c (List.nodup_cons.mp hnd).1,
        count_cards_cons]
      omega
    · rw [lookup_cons_ne k c m t hk] at h
      rw [eraseA_cons_ne k c m t (fun hh => hk hh.symm), count_cards_cons,
        count_cards_cons]
      have := ih (List.nodup_cons.mp hnd).2 h
      omega

theorem count_cards_setA (d : Dict) (c : CardID) (n v : Nat)
    (hnd : (d.map Prod.fst).Nodup) (h : d.lookup c = some n) :
    count_cards (setA d c v) + n = count_cards d + v := by
  induction d with
  | nil => simp [List.lookup] at h
  | cons p t ih =>
    obtain ⟨k, m⟩ := p
    by_cases hk : k = c
    · subst hk
      rw [lookup_cons_self] at h
      injection h with h
      subst h
      unfold setA
      rw [if_pos rfl, count_cards_cons, count_cards_cons]
      omega
    · rw [lookup_cons_ne k c m t (fun hh => hk hh.symm)] at h
      unfold setA
      rw [if_neg hk, count_cards_cons, count_cards_cons]
      have := ih (List.nodup_cons.mp hnd).2 h
      omega

theorem removeCard_of_none (d : Dict) (c : CardID) (h : d.lookup c = none) :
    removeCardFromDict c d = d := by
  unfold removeCardFromDict
  rw [h]

theorem removeCard_of_le (d : Dict) (c : CardID) (n : Nat)
    (h : d.lookup c = some n) (hn : n ≤ 1) :
    removeCardFromDict c d = eraseA d c := by
  unfold removeCardFromDict
  rw [h]
  exact if_pos hn

theorem removeCard_of_gt (d : Dict) (c : CardID) (n : Nat)
    (h : d.lookup c = some n) (hn : ¬ n ≤ 1) :
    removeCardFromDict c d = setA d c (n - 1) := by
  unfold removeCardFromDict
  rw [h]
  exact if_neg hn

theorem count_removeCard_ge (d : Dict) (c : CardID)
    (hnd : (d.map Prod.fst).Nodup) :
    count_cards d ≤ count_cards (removeCardFromDict c d) + 1 := by
  cases h : d.lookup c with
  | none => rw [removeCard_of_none d c h]; omega
  | some n =>
    by_cases hn : n ≤ 1
    · rw [removeCard_of_le d c n h hn]
      have := count_cards_eraseA d c n hnd h
      omega
    · rw [removeCard_of_gt d c n h hn]
      have := count_cards_setA d c n (n - 1) hnd h
      omega

theorem count_removeCard_le (d : Dict) (c : CardID)
    (hnd : (d.map Prod.fst).Nodup) :
    count_cards (removeCardFromDict c d) ≤ count_cards d := by
  cases h : d.lookup c with
  | none => rw [removeCard_of_none d c h]
  | some n =>
    by_cases hn : n ≤ 1
    · rw [removeCard_of_le d c n h hn]
      have := count_cards_eraseA d c n hnd h
      omega
    · rw [removeCard_of_gt d c n h hn]
      have := count_cards_setA d c n (n - 1) hnd h
      omega

theorem keysND_removeCard (d : Dict) (c : CardID)
    (hnd : (d.map Prod.fst).Nodup) :
    ((removeCardFromDict c d).map Prod.fst).Nodup := by
  cases h : d.lookup c with
  | none => rw [removeCard_of_none d c h]; exact hnd
  | some n =>
    have hmem : c ∈ d.map Prod.fst := by
      rw [← lookup_isSome_iff_mem_keys, h]
      rfl
    by_cases hn : n ≤ 1
    · rw [removeCard_of_le d c n h hn]
      exact (keys_eraseA_sublist d c).nodup hnd
    · rw [removeCard_of_gt d c n h hn]
      rw [keys_setA d c (n - 1) hmem]
      exact hnd

theorem keys_removeCard_sub (d : Dict) (c k : CardID)
    (h : k ∈ (removeCardFromDict c d).map Prod.fst) : k ∈ d.map Prod.fst := by
  cases hl : d.lookup c with
  | none => rw [removeCard_of_none d c hl] at h; exact h
  | some n =>
    have hmem : c ∈ d.map Prod.fst := by
      rw [← lookup_isSome_iff_mem_keys, hl]
      rfl
    by_cases hn : n ≤ 1
    · rw [removeCard_of_le d c n hl hn] at h
      exact (keys_eraseA_sublist d c).subset h
    · rw [removeCard_of_gt d c n hl hn] at h
      rw [keys_setA d c (n - 1) hmem] at h
      exact h

theorem count_pos_ne_nil (d : Dict) (h : 0 < count_cards d) : d ≠ [] := by
  intro hd
  subst hd
  simp [count_cards] at h

theorem getRandomKey_mem (r : Nat) (d : Dict) (hd : d ≠ []) :
    getRandomKey r d ∈ d.map Prod.fst := by
  unfold getRandomKey
  have hpos : 0 < d.length := List.length_pos.mpr hd
  have hlt : jsRandIdx r d.length < (d.map Prod.fst).length := by
    rw [List.length_map]
    exact Nat.mod_lt _ hpos
  rw [List.getD_eq_getElem (d.map Prod.fst) 0 hlt]
  exact List.getElem_mem hlt

theorem pickCardLoop_mem (d : Dict) (b : List CardID) (c : CardID) (fuel : Nat)
    (rs : List Nat) (hd : d ≠ []) (hc : c ∈ d.map Prod.fst) :
    (pickCardLoop d b c fuel rs).1 ∈ d.map Prod.fst := by
  induction fuel generalizing c rs with
  | zero => exact hc
  | succ n ih =>
    unfold pickCardLoop
    by_cases hb : b.contains c
    · rw [if_pos hb]
      exact ih _ _ (getRandomKey_mem _ d hd)
    · rw [if_neg hb]
      exact hc

theorem pick_card_mem (rs : List Nat) (d : Dict) (booster : Option (List CardID))
    (hd : d ≠ []) : (pick_card rs d booster).1 ∈ d.map Prod.fst := by
  unfold pick_card
  cases booster with
  | none => exact getRandomKey_mem _ d hd
  | some b => exact pickCardLoop_mem d b _ d.length _ hd (getRandomKey_mem _ d hd)

theorem pick_card_dict (rs : List Nat) (d : Dict) (booster : Option (List CardID)) :
    (pick_card rs d booster).2.1 = removeCardFromDict (pick_card rs d booster).1 d := by
  unfold pick_card
  cases booster <;> rfl

theorem get_setR (lc : LocalColl) (r0 r : Rarity) (d : Dict) :
    (lc.setR r0 d).get r = if r = r0 then d else lc.get r := by
  cases r0 <;> cases r <;> simp [LocalColl.setR, LocalColl.get]

theorem count_cards_nil_of_isEmpty (d : Dict) (h : d.isEmpty = true) :
    count_cards d = 0 := by
  rw [List.isEmpty_iff.mp h]
  rfl

theorem isEmpty_false_of_count_pos (d : Dict) (h : 0 < count_cards d) :
    d.isEmpty = false := by
  cases hd : d.isEmpty
  · rfl
  · rw [count_cards_nil_of_isEmpty d hd] at h
    omega

theorem rareSlot_total (mr : Rarity) (st : GenSt)
    (hrm : 0 < count_cards st.lc.rare + count_cards st.lc.mythic) :
    ∃ c st1, rareSlot mr st = some (c, st1) ∧ st1.cbc = st.cbc ∧
      st1.lc.common = st.lc.common ∧ st1.lc.uncommon = st.lc.uncommon ∧
      ((st1.lc.rare = removeCardFromDict c st.lc.rare ∧ st1.lc.mythic = st.lc.mythic ∧
          ((count_cards st.lc.mythic = 0 ∨ mr = .mythic) →
            c ∈ st.lc.rare.map Prod.fst)) ∨
       (st1.lc.mythic = removeCardFromDict c st.lc.mythic ∧ st1.lc.rare = st.lc.rare ∧
          c ∈ st.lc.mythic.map Prod.fst)) := by
  have hand : (st.lc.mythic.isEmpty && st.lc.rare.isEmpty) = false := by
    cases hm : st.lc.mythic.isEmpty
    · rfl
    · cases hr : st.lc.rare.isEmpty
      · rfl
      · rw [count_cards_nil_of_isEmpty _ hm, count_cards_nil_of_isEmpty _ hr] at hrm
        omega
  unfold rareSlot
  rw [hand, if_neg Bool.false_ne_true]
  cases hm : st.lc.mythic.isEmpty with
  | true =>
    rw [if_pos rfl]
    have hr : st.lc.rare.isEmpty = false := by
      rw [hm, Bool.true_and] at hand
      exact hand
    have hrne : st.lc.rare ≠ [] := fun hh => by
      rw [hh] at hr
      exact Bool.noConfusion hr
    cases hp : pick_card st.rs st.lc.rare none with
    | mk c pr =>
      cases pr with
      | mk d1 rs1 =>
        have hd1 : d1 = removeCardFromDict c st.lc.rare := by
          have := pick_card_dict st.rs st.lc.rare none
          rw [hp] at this
          exact this
        have hcm : c ∈ st.lc.rare.map Prod.fst := by
          have := pick_card_mem st.rs st.lc.rare none hrne
          rw [hp] at this
          exact this
        refine ⟨c, _, rfl, rfl, rfl, rfl, Or.inl ⟨?_, rfl, fun _ => hcm⟩⟩
        rw [← hd1]
        rfl
  | false =>
    rw [if_neg Bool.false_ne_true]
    have hmne : st.lc.mythic ≠ [] := fun hh => by
      rw [hh] at hm
      exact Bool.noConfusion hm
    cases hmr : (mr == Rarity.mythic) with
    | true =>
      cases hre : st.lc.rare.isEmpty with
      | true =>
        rw [Bool.true_and, if_pos rfl]
        cases hp : pick_card st.rs st.lc.mythic none with
        | mk c pr =>
          cases pr with
          | mk d1 rs1 =>
            have hd1 : d1 = removeCardFromDict c st.lc.mythic := by
              have := pick_card_dict st.rs st.lc.mythic none
              rw [hp] at this
              exact this
            have hcm : c ∈ st.lc.mythic.map Prod.fst := by
              have := pick_card_mem st.rs st.lc.mythic none hmne
              rw [hp] at this
              exact this
            refine ⟨c, _, rfl, rfl, rfl, rfl, Or.inr ⟨?_, rfl, hcm⟩⟩
            rw [← hd1]
            rfl
      | false =>
        rw [Bool.true_and, if_neg Bool.false_ne_true, if_pos rfl]
        have hrne : st.lc.rare ≠ [] := fun hh => by
          rw [hh] at hre
          exact Bool.noConfusion hre
        cases hroll : rollMulLtOne (st.rs.headD 0) 8 with
        | true =>
          rw [if_pos rfl]
          cases hp : pick_card st.rs.tail st.lc.mythic none with
          | mk c pr =>
            cases pr with
            | mk d1 rs1 =>
              have hd1 : d1 = removeCardFromDict c st.lc.mythic := by
                have := pick_card_dict st.rs.tail st.lc.mythic none
                rw [hp] at this
                exact this
              have hcm : c ∈ st.lc.mythic.map Prod.fst := by
                have := pick_card_mem st.rs.tail st.lc.mythic none hmne
                rw [hp] at this
                exact this
              refine ⟨c, _, rfl, rfl, rfl, rfl, Or.inr ⟨?_, rfl, hcm⟩⟩
              rw [← hd1]
              rfl
        | false =>
          rw [if_neg Bool.false_ne_true]
          cases hp : pick_card st.rs.tail st.lc.rare none with
          | mk c pr =>
            cases pr with
            | mk d1 rs1 =>
              have hd1 : d1 = removeCardFromDict c st.lc.rare := by
                have := pick_card_dict st.rs.tail st.lc.rare none
                rw [hp] at this
                exact this
              have hcm : c ∈ st.lc.rare.map Prod.fst := by
                have := pick_card_mem st.rs.tail st.lc.rare none hrne
                rw [hp] at this
                exact this
              refine ⟨c, _, rfl, rfl, rfl, rfl, Or.inl ⟨?_, rfl, fun _ => hcm⟩⟩
              rw [← hd1]
              rfl
    | false =>
      rw [Bool.false_and, if_neg Bool.false_ne_true, if_neg Bool.false_ne_true]
      cases hp : pick_card st.rs st.lc.rare none with
      | mk c pr =>
        cases pr with
        | mk d1 rs1 =>
          have hd1 : d1 = removeCardFromDict c st.lc.rare := by
            have := pick_card_dict st.rs st.lc.rare none
            rw [hp] at this
            exact this
          refine ⟨c, _, rfl, rfl, rfl, rfl, Or.inl ⟨?_, rfl, ?_⟩⟩
          · rw [← hd1]
            rfl
          · intro hsafe
            rcases hsafe with h0 | h0
            · have hrpos : 0 < count_cards st.lc.rare := by omega
              have hrne : st.lc.rare ≠ [] := count_pos_ne_nil _ hrpos
              have := pick_card_mem st.rs st.lc.rare none hrne
              rw [hp] at this
              exact this
            · exfalso
              rw [h0] at hmr
              simp at hmr

theorem rareSlots_spec (mr : Rarity) (n : Nat) (b : List CardID) (st : GenSt)
    (hkr : (st.lc.rare.map Prod.fst).Nodup) (hkm : (st.lc.mythic.map Prod.fst).Nodup)
    (hrm : n ≤ count_cards st.lc.rare + count_cards st.lc.mythic) :
    ∃ seg st', rareSlots mr n b st = some (b ++ seg, st') ∧ seg.length = n ∧
      st'.cbc = st.cbc ∧ st'.lc.common = st.lc.common ∧
      st'.lc.uncommon = st.lc.uncommon ∧
      (st'.lc.rare.map Prod.fst).Nodup ∧ (st'.lc.mythic.map Prod.fst).Nodup ∧
      count_cards st.lc.rare + count_cards st.lc.mythic ≤
        count_cards st'.lc.rare + count_cards st'.lc.mythic + n ∧
      count_cards st'.lc.mythic ≤ count_cards st.lc.mythic ∧
      (∀ k ∈ st'.lc.rare.map Prod.fst, k ∈ st.lc.rare.map Prod.fst) ∧
      (∀ k ∈ st'.lc.mythic.map Prod.fst, k ∈ st.lc.mythic.map Prod.fst) ∧
      ((count_cards st.lc.mythic = 0 ∨ mr = .mythic) →
        ∀ x ∈ seg, x ∈ st.lc.rare.map Prod.fst ∨ x ∈ st.lc.mythic.map Prod.fst) := by
  induction n generalizing b st with
  | zero =>
    exact ⟨[], st, by rw [List.append_nil]; rfl, rfl, rfl, rfl, rfl, hkr, hkm,
      by omega, le_refl _, fun k hk => hk, fun k hk => hk,
      fun _ x hx => absurd hx (List.not_mem_nil x)⟩
  | succ m ih =>
    obtain ⟨c, st1, heq, hcbc, hcom, hunc, hdisj⟩ := rareSlot_total mr st (by omega)
    have hstep : rareSlots mr (m + 1) b st = rareSlots mr m (b ++ [c]) st1 := by
      simp only [rareSlots]
      rw [heq]
    have hfacts : (st1.lc.rare.map Prod.fst).Nodup ∧
        (st1.lc.mythic.map Prod.fst).Nodup ∧
        count_cards st.lc.rare + count_cards st.lc.mythic ≤
          count_cards st1.lc.rare + count_cards st1.lc.mythic + 1 ∧
        count_cards st1.lc.mythic ≤ count_cards st.lc.mythic ∧
        (∀ k ∈ st1.lc.rare.map Prod.fst, k ∈ st.lc.rare.map Prod.fst) ∧
        (∀ k ∈ st1.lc.mythic.map Prod.fst, k ∈ st.lc.mythic.map Prod.fst) ∧
        ((count_cards st.lc.mythic = 0 ∨ mr = .mythic) →
          c ∈ st.lc.rare.map Prod.fst ∨ c ∈ st.lc.mythic.map Prod.fst) := by
      rcases hdisj with ⟨hr1, hm1, hmem⟩ | ⟨hm1, hr1, hmem⟩
      · rw [hr1, hm1]
        exact ⟨keysND_removeCard _ c hkr, hkm,
          by have := count_removeCard_ge st.lc.rare c hkr; omega,
          le_refl _,
          fun k hk => keys_removeCard_sub _ c k hk,
          fun k hk => hk,
          fun hs => Or.inl (hmem hs)⟩
      · rw [hm1, hr1]
        exact ⟨hkr, keysND_removeCard _ c hkm,
          by have := count_removeCard_ge st.lc.mythic c hkm; omega,
          count_removeCard_le _ c hkm,
          fun k hk => hk,
          fun k hk => keys_removeCard_sub _ c k hk,
          fun _ => Or.inr hmem⟩
    obtain ⟨hkr1, hkm1, hcnt1, hmy1, hsubr1, hsubm1, hcmem⟩ := hfacts
    obtain ⟨seg, st', heq2, hlen, hcbc2, hcom2, hunc2, hkr2, hkm2, hcnt2, hmy2,
      hsubr2, hsubm2, hpure2⟩ := ih (b ++ [c]) st1 hkr1 hkm1 (by omega)
    refine ⟨c :: seg, st', ?_, by rw [List.length_cons, hlen], ?_, ?_, ?_,
      hkr2, hkm2, by omega, by omega, ?_, ?_, ?_⟩
    · rw [hstep, heq2, List.append_assoc]
      rfl
    · rw [hcbc2, hcbc]
    · rw [hcom2, hcom]
    · rw [hunc2, hunc]
    · exact fun k hk => hsubr1 k (hsubr2 k hk)
    · exact fun k hk => hsubm1 k (hsubm2 k hk)
    · intro hs x hx
      rcases List.mem_cons.mp hx with rfl | hx2
      · exact hcmem hs
      · have hs1 : count_cards st1.lc.mythic = 0 ∨ mr = .mythic := by
          rcases hs with h0 | h0
          · exact Or.inl (by omega)
          · exact Or.inr h0
        rcases hpure2 hs1 x hx2 with h | h
        · exact Or.inl (hsubr1 x h)
        · exact Or.inr (hsubm1 x h)

theorem uncommonSlots_pres (n : Nat) (b : List CardID) (st : GenSt) :
    (uncommonSlots n b st).2.lc.common = st.lc.common ∧
    (uncommonSlots n b st).2.lc.rare = st.lc.rare ∧
    (uncommonSlots n b st).2.lc.mythic = st.lc.mythic ∧
    (uncommonSlots n b st).2.cbc = st.cbc := by
  induction n generalizing b st with
  | zero => exact ⟨rfl, rfl, rfl, rfl⟩
  | succ m ih =>
    have hstep : uncommonSlots (m + 1) b st
        = uncommonSlots m (b ++ [(pick_card st.rs st.lc.uncommon (some b)).1])
            { st with
              lc := st.lc.setR .uncommon (pick_card st.rs st.lc.uncommon (some b)).2.1,
              rs := (pick_card st.rs st.lc.uncommon (some b)).2.2 } := rfl
    rw [hstep]
    obtain ⟨h1, h2, h3, h4⟩ := ih (b ++ [(pick_card st.rs st.lc.uncommon (some b)).1])
      { st with
        lc := st.lc.setR .uncommon (pick_card st.rs st.lc.uncommon (some b)).2.1,
        rs := (pick_card st.rs st.lc.uncommon (some b)).2.2 }
    exact ⟨h1, h2, h3, h4⟩

theorem cbColors_pres (cols : List Nat) (picked : List CardID) (st : GenSt) :
    (cbColors cols picked st).2.lc.uncommon = st.lc.uncommon ∧
    (cbColors cols picked st).2.lc.rare = st.lc.rare ∧
    (cbColors cols picked st).2.lc.mythic = st.lc.mythic := by
  induction cols generalizing picked st with
  | nil => exact ⟨rfl, rfl, rfl⟩
  | cons col rest ih =>
    simp only [cbColors]
    cases hl : st.cbc.lookup col with
    | none => exact ih picked st
    | some d =>
      dsimp only
      cases hd : d.isEmpty with
      | true =>
        rw [if_pos rfl]
        exact ih picked st
      | false =>
        rw [if_neg Bool.false_ne_true]
        obtain ⟨h1, h2, h3⟩ := ih (picked ++ [(pick_card st.rs d (some picked)).1])
          { lc := st.lc.setR .common
              (removeCardFromDict (pick_card st.rs d (some picked)).1 st.lc.common),
            cbc := setA st.cbc col (pick_card st.rs d (some picked)).2.1,
            rs := (pick_card st.rs d (some picked)).2.2 }
        exact ⟨h1, h2, h3⟩

theorem commonFill_pres (cards : CardsDB) (cb : Bool) (n : Nat)
    (picked : List CardID) (st : GenSt) :
    (commonFill cards cb n picked st).2.lc.uncommon = st.lc.uncommon ∧
    (commonFill cards cb n picked st).2.lc.rare = st.lc.rare ∧
    (commonFill cards cb n picked st).2.lc.mythic = st.lc.mythic := by
  induction n generalizing picked st with
  | zero => exact ⟨rfl, rfl, rfl⟩
  | succ m ih =>
    have hstep : commonFill cards cb (m + 1) picked st
        = commonFill cards cb m (picked ++ [(pick_card st.rs st.lc.common (some picked)).1])
            { lc := st.lc.setR .common (pick_card st.rs st.lc.common (some picked)).2.1,
              cbc :=
                (if cb then
                   match cards.lookup (pick_card st.rs st.lc.common (some picked)).1 with
                   | some f => cbcRemove st.cbc f.colorId
                       (pick_card st.rs st.lc.common (some picked)).1
                   | none => st.cbc
                 else st.cbc),
              rs := (pick_card st.rs st.lc.common (some picked)).2.2 } := rfl
    rw [hstep]
    obtain ⟨h1, h2, h3⟩ := ih (picked ++ [(pick_card st.rs st.lc.common (some picked)).1])
      { lc := st.lc.setR .common (pick_card st.rs st.lc.common (some picked)).2.1,
        cbc :=
          (if cb then
             match cards.lookup (pick_card st.rs st.lc.common (some picked)).1 with
             | some f => cbcRemove st.cbc f.colorId
                 (pick_card st.rs st.lc.common (some picked)).1
             | none => st.cbc
           else st.cbc),
        rs := (pick_card st.rs st.lc.common (some picked)).2.2 }
    exact ⟨h1, h2, h3⟩

theorem generateOneBooster_total (cards : CardsDB) (cb : Bool) (mr : Rarity)
    (landSlot : Option (List CardID)) (st : GenSt)
    (hkr : (st.lc.rare.map Prod.fst).Nodup) (hkm : (st.lc.mythic.map Prod.fst).Nodup)
    (hrm : (targetsFor mr).rare ≤ count_cards st.lc.rare + count_cards st.lc.mythic) :
    ∃ b st', generateOneBooster cards false cb mr landSlot st = some (b, st') ∧
      (st'.lc.rare.map Prod.fst).Nodup ∧ (st'.lc.mythic.map Prod.fst).Nodup ∧
      count_cards st.lc.rare + count_cards st.lc.mythic ≤
        count_cards st'.lc.rare + count_cards st'.lc.mythic + (targetsFor mr).rare := by
  obtain ⟨seg, st1, hre, hlen, hcbc1, hcom1, hunc1, hkr1, hkm1, hcnt1, hmy1, hsr,
    hsm, hpure⟩ := rareSlots_spec mr (targetsFor mr).rare [] st hkr hkm hrm
  have hfoil : foilStep cards false cb st = ([], 0, st) := rfl
  unfold generateOneBooster
  rw [hfoil]
  dsimp only
  rw [hre]
  dsimp only
  cases hu : uncommonSlots (targetsFor mr).uncommon ([] ++ seg) st1 with
  | mk b2 st2 =>
    have hu2 := uncommonSlots_pres (targetsFor mr).uncommon ([] ++ seg) st1
    rw [hu] at hu2
    dsimp only
    cases hpc : (if cb then cbColors [0, 1, 2, 3, 4] [] st2 else ([], st2)) with
    | mk pc st3 =>
      have hpc2 : st3.lc.uncommon = st2.lc.uncommon ∧ st3.lc.rare = st2.lc.rare ∧
          st3.lc.mythic = st2.lc.mythic := by
        cases hcb : cb
        · rw [hcb] at hpc
          rw [if_neg Bool.false_ne_true] at hpc
          injection hpc with hpc1 hpcs
          rw [← hpcs]
          exact ⟨rfl, rfl, rfl⟩
        · rw [hcb] at hpc
          rw [if_pos rfl] at hpc
          have := cbColors_pres [0, 1, 2, 3, 4] [] st2
          rw [hpc] at this
          exact this
      dsimp only
      cases hfl : commonFill cards cb
          ((targetsFor mr).common - 0 - pc.length) pc st3 with
      | mk pcommons st4 =>
        have hfl2 := commonFill_pres cards cb
          ((targetsFor mr).common - 0 - pc.length) pc st3
        rw [hfl] at hfl2
        dsimp only
        cases hsh : shuffleArray pcommons st4.rs with
        | mk shuffled rs5 =>
          dsimp only
          have hfacts : (st4.lc.rare.map Prod.fst).Nodup ∧
              (st4.lc.mythic.map Prod.fst).Nodup ∧
              count_cards st.lc.rare + count_cards st.lc.mythic ≤
                count_cards st4.lc.rare + count_cards st4.lc.mythic
                  + (targetsFor mr).rare := by
            refine ⟨?_, ?_, ?_⟩
            · rw [hfl2.2.1, hpc2.2.1, hu2.2.1]
              exact hkr1
            · rw [hfl2.2.2, hpc2.2.2, hu2.2.2.1]
              exact hkm1
            · rw [hfl2.2.1, hfl2.2.2, hpc2.2.1, hpc2.2.2, hu2.2.1, hu2.2.2.1]
              exact hcnt1
          cases landSlot with
          | none =>
            exact ⟨b2 ++ shuffled, { st4 with rs := rs5 }, rfl, hfacts.1,
              hfacts.2.1, hfacts.2.2⟩
          | some lands =>
            exact ⟨b2 ++ shuffled
                ++ [lands.getD (jsRandIdx (rs5.headD 0) lands.length) 0],
              { st4 with rs := rs5.tail }, rfl, hfacts.1, hfacts.2.1, hfacts.2.2⟩

theorem generateBoostersGo_total (cards : CardsDB) (cb : Bool) (mr : Rarity)
    (landSlot : Option (List CardID)) (q : Nat) (acc : List (List CardID)) (st : GenSt)
    (hkr : (st.lc.rare.map Prod.fst).Nodup) (hkm : (st.lc.mythic.map Prod.fst).Nodup)
    (hrm : (targetsFor mr).rare * q ≤ count_cards st.lc.rare + count_cards st.lc.mythic) :
    ∃ res, generateBoostersGo cards false cb mr landSlot q acc st = some res := by
  induction q generalizing acc st with
  | zero => exact ⟨(acc, st), rfl⟩
  | succ m ih =>
    have hms : (targetsFor mr).rare * (m + 1)
        = (targetsFor mr).rare * m + (targetsFor mr).rare := Nat.mul_succ _ _
    obtain ⟨b, st1, heq, hkr1, hkm1, hcnt⟩ :=
      generateOneBooster_total cards cb mr landSlot st hkr hkm (by omega)
    have hstep : generateBoostersGo cards false cb mr landSlot (m + 1) acc st
        = generateBoostersGo cards false cb mr landSlot m (acc ++ [b]) st1 := by
      simp only [generateBoostersGo]
      rw [heq]
    rw [hstep]
    exact ih (acc ++ [b]) st1 hkr1 hkm1 (by omega)

/-- C3 (corrected): with foil DISABLED, `generateBoosters(quantity)` fails
(returns false, reporting a shortage to the owner) iff some bucket of the
restricted collection is short for the targets times quantity (commons,
uncommons, or rares-plus-mythics); and whenever generation fails,
`startDraft` leaves the session out of `drafting` (for every foil setting).
With foil enabled the claim's iff is false: the foil slot can consume the
last rare before the rare slot runs (see the counterexample). -/
theorem c3_generateBoosters_amended (cards : CardsDB) (cb : Bool) (mr : Rarity)
    (landSlots : List (Nat × List CardID)) (setRestriction : List Nat)
    (lc : LocalColl) (q : Nat) (rs : List Nat)
    (hkr : (lc.rare.map Prod.fst).Nodup) (hkm : (lc.mythic.map Prod.fst).Nodup) :
    (generateBoosters cards false cb mr landSlots setRestriction lc q rs = none ↔
      (count_cards lc.common < (targetsFor mr).common * q ∨
       count_cards lc.uncommon < (targetsFor mr).uncommon * q ∨
       count_cards lc.rare + count_cards lc.mythic < (targetsFor mr).rare * q))
    ∧ ∀ (foil : Bool),
        generateBoosters cards foil cb mr landSlots setRestriction lc q rs = none →
          startDraftFlag cards foil cb mr landSlots setRestriction lc q rs = false := by
  constructor
  · unfold generateBoosters
    by_cases h1 : count_cards lc.common < (targetsFor mr).common * q
    · rw [if_pos h1]
      exact ⟨fun _ => Or.inl h1, fun _ => rfl⟩
    · rw [if_neg h1]
      by_cases h2 : count_cards lc.uncommon < (targetsFor mr).uncommon * q
      · rw [if_pos h2]
        exact ⟨fun _ => Or.inr (Or.inl h2), fun _ => rfl⟩
      · rw [if_neg h2]
        by_cases h3 : count_cards lc.rare + count_cards lc.mythic
            < (targetsFor mr).rare * q
        · rw [if_pos h3]
          exact ⟨fun _ => Or.inr (Or.inr h3), fun _ => rfl⟩
        · rw [if_neg h3]
          obtain ⟨res, hres⟩ := generateBoostersGo_total cards cb mr
            (if setRestriction.length = 1 then landSlots.lookup (setRestriction.headD 0)
             else none) q []
            { lc := lc, cbc := if cb then buildCBC cards lc.common else [], rs := rs }
            hkr hkm
            (show (targetsFor mr).rare * q ≤
              count_cards lc.rare + count_cards lc.mythic by omega)
          rw [hres]
          exact ⟨fun h => Option.noConfusion h,
            fun h => h.elim (fun ha => absurd ha h1)
              (fun h' => h'.elim (fun hb => absurd hb h2) (fun hc => absurd hc h3))⟩
  · intro foil hnone
    unfold startDraftFlag
    rw [hnone]

/-- A collection meeting every bucket target for one default-rarity booster
exactly: ten commons, three uncommons, one rare, no mythic. -/
def c3Lc : LocalColl :=
  { common := [(101, 1), (102, 1), (103, 1), (104, 1), (105, 1), (106, 1), (107, 1),
               (108, 1), (109, 1), (110, 1)],
    uncommon := [(201, 1), (202, 1), (203, 1)],
    rare := [(301, 1)],
    mythic := [] }

/-- C3 counterexample: with foil enabled, every bucket meets its target
times quantity, yet generation fails - the foil slot consumes the only rare
(rolls 0, 0 select the foil and, the mythic pool being empty, the rare
frequency band), and the rare slot then finds both pools empty. -/
theorem c3_generateBoosters_claim_counterexample :
    ¬ (count_cards c3Lc.common < (targetsFor Rarity.rare).common * 1) ∧
    ¬ (count_cards c3Lc.uncommon < (targetsFor Rarity.rare).uncommon * 1) ∧
    ¬ (count_cards c3Lc.rare + count_cards c3Lc.mythic
        < (targetsFor Rarity.rare).rare * 1) ∧
    generateBoosters [] true false Rarity.rare [] [] c3Lc 1 [0, 0, 0] = none := by
  refine ⟨by decide, by decide, by decide, by decide⟩

/-- Witness: the amended C3 theorem applied at the concrete one-booster
session with foil off. -/
theorem c3_generateBoosters_amended_witness :
    (generateBoosters [] false false Rarity.rare [] [] c3Lc 1 [0, 0, 0] = none ↔
      (count_cards c3Lc.common < (targetsFor Rarity.rare).common * 1 ∨
       count_cards c3Lc.uncommon < (targetsFor Rarity.rare).uncommon * 1 ∨
       count_cards c3Lc.rare + count_cards c3Lc.mythic
         < (targetsFor Rarity.rare).rare * 1))
    ∧ ∀ (foil : Bool),
        generateBoosters [] foil false Rarity.rare [] [] c3Lc 1 [0, 0, 0] = none →
          startDraftFlag [] foil false Rarity.rare [] [] c3Lc 1 [0, 0, 0] = false :=
  c3_generateBoosters_amended [] false Rarity.rare [] [] c3Lc 1 [0, 0, 0]
    (by decide) (by decide)

/-- Every key of `d` is catalogued with rarity `r`. -/
def dictKeyed (cards : CardsDB) (r : Rarity) (d : Dict) : Prop :=
  ∀ k ∈ d.map Prod.fst, (cards.lookup k).map CardFacts.rarity = some r

/-- Number of cards of catalog rarity `r` in a booster. -/
def rarityCount (cards : CardsDB) (b : List CardID) (r : Rarity) : Nat :=
  b.countP (fun c =>
    match cards.lookup c with
    | some f => f.rarity == r
    | none => false)

theorem rarityCount_append (cards : CardsDB) (l1 l2 : List CardID) (r : Rarity) :
    rarityCount cards (l1 ++ l2) r = rarityCount cards l1 r + rarityCount cards l2 r :=
  List.countP_append _ _ _

theorem rarityCount_le_length (cards : CardsDB) (l : List CardID) (r : Rarity) :
    rarityCount cards l r ≤ l.length :=
  List.countP_le_length _

theorem rarityCount_of_pure (cards : CardsDB) (seg : List CardID) (r : Rarity)
    (hseg : ∀ x ∈ seg, (cards.lookup x).map CardFacts.rarity = some r) :
    rarityCount cards seg r = seg.length ∧
    ∀ r', r' ≠ r → rarityCount cards seg r' = 0 := by
  constructor
  · refine List.countP_eq_length.mpr ?_
    intro a ha
    have h := hseg a ha
    cases hl : cards.lookup a with
    | none => rw [hl] at h; exact Option.noConfusion h
    | some f =>
      rw [hl] at h
      injection h with h
      simp [hl, h]
  · intro r' hne
    refine List.countP_eq_zero.mpr ?_
    intro a ha
    have h := hseg a ha
    cases hl : cards.lookup a with
    | none => rw [hl] at h; exact Option.noConfusion h
    | some f =>
      rw [hl] at h
      injection h with h
      have hne2 : ¬ r = r' := fun hh => hne hh.symm
      simp [hl, h, hne2]

theorem rarityCount_of_rm (cards : CardsDB) (seg : List CardID)
    (hseg : ∀ x ∈ seg, (cards.lookup x).map CardFacts.rarity = some Rarity.rare ∨
      (cards.lookup x).map CardFacts.rarity = some Rarity.mythic) :
    rarityCount cards seg .rare + rarityCount cards seg .mythic = seg.length ∧
    rarityCount cards seg .common = 0 ∧ rarityCount cards seg .uncommon = 0 := by
  refine ⟨?_, ?_, ?_⟩
  · induction seg with
    | nil => rfl
    | cons a t ih =>
      have ht := ih (fun x hx => hseg x (List.mem_cons.mpr (Or.inr hx)))
      have ha := hseg a (List.mem_cons_self a t)
      unfold rarityCount at *
      rw [List.countP_cons, List.countP_cons, List.length_cons]
      cases hl : cards.lookup a with
      | none =>
        rw [hl] at ha
        rcases ha with h | h
        · exact absurd h (fun hh => Option.noConfusion hh)
        · exact absurd h (fun hh => Option.noConfusion hh)
      | some f =>
        rw [hl] at ha
        rcases ha with h | h
        · injection h with h
          simp [hl, h]
          omega
        · injection h with h
          simp [hl, h]
          omega
  · refine List.countP_eq_zero.mpr ?_
    intro a ha
    have h := hseg a ha
    cases hl : cards.lookup a with
    | none =>
      rcases h with h | h
      · rw [hl] at h; exact Option.noConfusion h
      · rw [hl] at h; exact Option.noConfusion h
    | some f =>
      rcases h with h | h
      · rw [hl] at h
        injection h with h
        simp [hl, h]
      · rw [hl] at h
        injection h with h
        simp [hl, h]
  · refine List.countP_eq_zero.mpr ?_
    intro a ha
    have h := hseg a ha
    cases hl : cards.lookup a with
    | none =>
      rcases h with h | h
      · rw [hl] at h; exact Option.noConfusion h
      · rw [hl] at h; exact Option.noConfusion h
    | some f =>
      rcases h with h | h
      · rw [hl] at h
        injection h with h
        simp [hl, h]
      · rw [hl] at h
        injection h with h
        simp [hl, h]

theorem listSwap_mem {α : Type} (l : List α) (i j : Nat) (x : α)
    (h : x ∈ listSwap l i j) : x ∈ l := by
  unfold listSwap at h
  cases hi : l.get? i with
  | none => rw [hi] at h; exact h
  | some a =>
    cases hj : l.get? j with
    | none => rw [hi, hj] at h; exact h
    | some b =>
      rw [hi, hj] at h
      rcases List.mem_or_eq_of_mem_set h with h2 | h2
      · rcases List.mem_or_eq_of_mem_set h2 with h3 | h3
        · exact h3
        · rw [h3]
          exact List.get?_mem hj
      · rw [h2]
        exact List.get?_mem hi

theorem shuffleArrayGo_mem {α : Type} (l : List α) (n : Nat) (rng : List Nat)
    (x : α) (h : x ∈ (shuffleArrayGo l n rng).1) : x ∈ l := by
  induction n generalizing l rng with
  | zero => exact h
  | succ m ih =>
    cases rng with
    | nil => exact h
    | cons q rest =>
      have hstep : shuffleArrayGo l (m + 1) (q :: rest)
          = shuffleArrayGo (listSwap l (m + 1) (jsRandIdx q (m + 2))) m rest := rfl
      rw [hstep] at h
      exact listSwap_mem l (m + 1) (jsRandIdx q (m + 2)) x (ih _ rest h)

theorem shuffleArray_mem {α : Type} (l : List α) (rng : List Nat) (x : α)
    (h : x ∈ (shuffleArray l rng).1) : x ∈ l :=
  shuffleArrayGo_mem l (l.length - 1) rng x h

theorem mem_setA {β : Type} (l : List (UserID × β)) (k : UserID) (v : β)
    (p : UserID × β) (h : p ∈ setA l k v) : p ∈ l ∨ p = (k, v) := by
  induction l with
  | nil =>
    unfold setA at h
    rcases List.mem_cons.mp h with h1 | h1
    · exact Or.inr h1
    · exact absurd h1 (List.not_mem_nil p)
  | cons q t ih =>
    obtain ⟨k2, v2⟩ := q
    unfold setA at h
    by_cases hk : k2 = k
    · rw [if_pos hk] at h
      rcases List.mem_cons.mp h with h1 | h1
      · exact Or.inr h1
      · exact Or.inl (List.mem_cons.mpr (Or.inr h1))
    · rw [if_neg hk] at h
      rcases List.mem_cons.mp h with h1 | h1
      · exact Or.inl (List.mem_cons.mpr (Or.inl h1))
      · rcases ih h1 with h2 | h2
        · exact Or.inl (List.mem_cons.mpr (Or.inr h2))
        · exact Or.inr h2

/-- Every key of every `commonsByColor` bucket is catalogued common. -/
def cbcCommons (cards : CardsDB) (cbc : List (Nat × Dict)) : Prop :=
  ∀ p ∈ cbc, ∀ k ∈ p.2.map Prod.fst,
    (cards.lookup k).map CardFacts.rarity = some Rarity.common

theorem cbcCommons_nil (cards : CardsDB) : cbcCommons cards [] :=
  fun p hp => absurd hp (List.not_mem_nil p)

theorem cbcCommons_setA_remove (cards : CardsDB) (cbc : List (Nat × Dict))
    (col : Nat) (d : Dict) (c : CardID) (h : cbcCommons cards cbc)
    (hd : ∀ k ∈ d.map Prod.fst, (cards.lookup k).map CardFacts.rarity
      = some Rarity.common) :
    cbcCommons cards (setA cbc col (removeCardFromDict c d)) := by
  intro p hp k hk
  rcases mem_setA cbc col (removeCardFromDict c d) p hp with h1 | h1
  · exact h p h1 k hk
  · rw [h1] at hk
    exact hd k (keys_removeCard_sub d c k hk)

theorem cbcCommons_remove (cards : CardsDB) (cbc : List (Nat × Dict)) (col : Nat)
    (c : CardID) (h : cbcCommons cards cbc) :
    cbcCommons cards (cbcRemove cbc col c) := by
  unfold cbcRemove
  cases hl : cbc.lookup col with
  | none => exact h
  | some d =>
    exact cbcCommons_setA_remove cards cbc col d c h
      (fun k hk => h (col, d) (mem_of_lookup_eq_some cbc col d hl) k hk)

theorem cbcCommons_fillCbc (cards : CardsDB) (cbc : List (Nat × Dict)) (cb : Bool)
    (c : CardID) (h : cbcCommons cards cbc) :
    cbcCommons cards
      (if cb then
         match cards.lookup c with
         | some f => cbcRemove cbc f.colorId c
         | none => cbc
       else cbc) := by
  cases cb with
  | false => exact h
  | true =>
    rw [if_pos rfl]
    cases hl : cards.lookup c with
    | none => exact h
    | some f => exact cbcCommons_remove cards cbc f.colorId c h

theorem cbcCommons_foilCbc (cards : CardsDB) (cbc : List (Nat × Dict)) (cb : Bool)
    (c : CardID) (h : cbcCommons cards cbc) :
    cbcCommons cards
      (if cb then
         match cards.lookup c with
         | some f =>
           if f.rarity == Rarity.common then cbcRemove cbc f.colorId c else cbc
         | none => cbc
       else cbc) := by
  cases cb with
  | false => exact h
  | true =>
    rw [if_pos rfl]
    cases hl : cards.lookup c with
    | none => exact h
    | some f =>
      dsimp only
      cases hb : (f.rarity == Rarity.common) with
      | false => rw [if_neg Bool.false_ne_true]; exact h
      | true => rw [if_pos rfl]; exact cbcCommons_remove cards cbc f.colorId c h

theorem buildCBC_commons (cards : CardsDB) (commons : Dict)
    (hd : ∀ p ∈ commons, (cards.lookup p.1).map CardFacts.rarity
      = some Rarity.common) :
    cbcCommons cards (buildCBC cards commons) := by
  unfold buildCBC
  suffices h : ∀ (l : List (CardID × Nat)) (acc : List (Nat × Dict)),
      (∀ p ∈ l, (cards.lookup p.1).map CardFacts.rarity = some Rarity.common) →
      cbcCommons cards acc → cbcCommons cards (l.foldl (cbcAdd cards) acc) from
    h commons [] hd (cbcCommons_nil cards)
  intro l
  induction l with
  | nil => exact fun acc _ hacc => hacc
  | cons p t ih =>
    intro acc hl hacc
    rw [List.foldl_cons]
    refine ih _ (fun p2 hp2 => hl p2 (List.mem_cons.mpr (Or.inr hp2))) ?_
    have hp1 := hl p (List.mem_cons_self p t)
    unfold cbcAdd
    cases hlp : cards.lookup p.1 with
    | none => exact hacc
    | some f =>
      show cbcCommons cards (match acc.lookup f.colorId with
        | none => acc ++ [(f.colorId, [(p.1, p.2)])]
        | some d => setA acc f.colorId (d ++ [(p.1, p.2)]))
      cases hlc : acc.lookup f.colorId with
      | none =>
        intro q hq k hk
        have hq0 : q ∈ acc ++ [(f.colorId, [(p.1, p.2)])] := hq
        rcases List.mem_append.mp hq0 with h1 | h1
        · exact hacc q h1 k hk
        · have hq2 : q = (f.colorId, [(p.1, p.2)]) := by
            rcases List.mem_cons.mp h1 with h2 | h2
            · exact h2
            · exact absurd h2 (List.not_mem_nil q)
          rw [hq2] at hk
          have hk2 : k = p.1 := by
            rcases List.mem_cons.mp hk with h2 | h2
            · exact h2
            · exact absurd h2 (List.not_mem_nil k)
          rw [hk2]
          exact hp1
      | some d =>
        intro q hq k hk
        have hq0 : q ∈ setA acc f.colorId (d ++ [(p.1, p.2)]) := hq
        rcases mem_setA acc f.colorId (d ++ [(p.1, p.2)]) q hq0 with h1 | h1
        · exact hacc q h1 k hk
        · rw [h1] at hk
          have hk2 : k ∈ (d ++ [(p.1, p.2)]).map Prod.fst := hk
          rw [List.map_append] at hk2
          rcases List.mem_append.mp hk2 with h2 | h2
          · exact hacc (f.colorId, d)
              (mem_of_lookup_eq_some acc f.colorId d hlc) k h2
          · have hk3 : k = p.1 := by
              rcases List.mem_cons.mp h2 with h3 | h3
              · exact h3
              · exact absurd h3 (List.not_mem_nil k)
            rw [hk3]
            exact hp1

/-- The optional land-slot card appended at the very end of a booster. -/
def landExtraOk (landSlot : Option (List CardID)) (extra : List CardID) : Prop :=
  match landSlot with
  | none => extra = []
  | some lands => ∃ x, extra = [x] ∧ (lands ≠ [] → x ∈ lands)

theorem getD_jsRandIdx_mem (l : List CardID) (r : Nat) (h : l ≠ []) :
    l.getD (jsRandIdx r l.length) 0 ∈ l := by
  have hpos : 0 < l.length := List.length_pos.mpr h
  have hlt : jsRandIdx r l.length < l.length := Nat.mod_lt _ hpos
  rw [List.getD_eq_getElem l 0 hlt]
  exact List.getElem_mem hlt

theorem uncommonSlots_spec (n : Nat) (b : List CardID) (st : GenSt)
    (hk : (st.lc.uncommon.map Prod.fst).Nodup)
    (hn : n ≤ count_cards st.lc.uncommon) :
    ∃ seg st', uncommonSlots n b st = (b ++ seg, st') ∧ seg.length = n ∧
      (∀ x ∈ seg, x ∈ st.lc.uncommon.map Prod.fst) ∧
      (st'.lc.uncommon.map Prod.fst).Nodup ∧
      (∀ k ∈ st'.lc.uncommon.map Prod.fst, k ∈ st.lc.uncommon.map Prod.fst) ∧
      count_cards st.lc.uncommon ≤ count_cards st'.lc.uncommon + n := by
  induction n generalizing b st with
  | zero =>
    refine ⟨[], st, ?_, rfl, fun x hx => absurd hx (List.not_mem_nil x), hk,
      fun k hk2 => hk2, by omega⟩
    rw [List.append_nil]
    rfl
  | succ m ih =>
    have hne : st.lc.uncommon ≠ [] := count_pos_ne_nil _ (by omega)
    have hstep : uncommonSlots (m + 1) b st
        = uncommonSlots m (b ++ [(pick_card st.rs st.lc.uncommon (some b)).1])
            { st with
              lc := st.lc.setR .uncommon (pick_card st.rs st.lc.uncommon (some b)).2.1,
              rs := (pick_card st.rs st.lc.uncommon (some b)).2.2 } := rfl
    have hcm : (pick_card st.rs st.lc.uncommon (some b)).1 ∈ st.lc.uncommon.map Prod.fst :=
      pick_card_mem _ _ _ hne
    have hd1 : (pick_card st.rs st.lc.uncommon (some b)).2.1
        = removeCardFromDict (pick_card st.rs st.lc.uncommon (some b)).1 st.lc.uncommon :=
      pick_card_dict _ _ _
    have hk1 : (((pick_card st.rs st.lc.uncommon (some b)).2.1).map Prod.fst).Nodup := by
      rw [hd1]
      exact keysND_removeCard _ _ hk
    have hcnt1 : count_cards st.lc.uncommon
        ≤ count_cards (pick_card st.rs st.lc.uncommon (some b)).2.1 + 1 := by
      rw [hd1]
      exact count_removeCard_ge _ _ hk
    obtain ⟨seg, st', heq, hlen, hmem, hknd, hsub, hcnt⟩ :=
      ih (b ++ [(pick_card st.rs st.lc.uncommon (some b)).1])
        { st with
          lc := st.lc.setR .uncommon (pick_card st.rs st.lc.uncommon (some b)).2.1,
          rs := (pick_card st.rs st.lc.uncommon (some b)).2.2 }
        hk1
        (show m ≤ count_cards (pick_card st.rs st.lc.uncommon (some b)).2.1 by omega)
    refine ⟨(pick_card st.rs st.lc.uncommon (some b)).1 :: seg, st', ?_,
      by rw [List.length_cons, hlen], ?_, hknd, ?_, ?_⟩
    · rw [hstep, heq, List.append_assoc]
      rfl
    · intro x hx
      rcases List.mem_cons.mp hx with rfl | hx2
      · exact hcm
      · have := hmem x hx2
        rw [hd1] at this
        exact keys_removeCard_sub _ _ _ this
    · intro k hk2
      have := hsub k hk2
      rw [hd1] at this
      exact keys_removeCard_sub _ _ _ this
    · have hcnt2 : count_cards (pick_card st.rs st.lc.uncommon (some b)).2.1
          ≤ count_cards st'.lc.uncommon + m := hcnt
      omega

theorem commonFill_spec (cards : CardsDB) (cb : Bool) (n : Nat)
    (picked : List CardID) (st : GenSt)
    (hk : (st.lc.common.map Prod.fst).Nodup)
    (hn : n ≤ count_cards st.lc.common)
    (hcbc : cbcCommons cards st.cbc) :
    ∃ seg st', commonFill cards cb n picked st = (picked ++ seg, st') ∧
      seg.length = n ∧
      (∀ x ∈ seg, x ∈ st.lc.common.map Prod.fst) ∧
      (st'.lc.common.map Prod.fst).Nodup ∧
      (∀ k ∈ st'.lc.common.map Prod.fst, k ∈ st.lc.common.map Prod.fst) ∧
      count_cards st.lc.common ≤ count_cards st'.lc.common + n ∧
      cbcCommons cards st'.cbc := by
  induction n generalizing picked st with
  | zero =>
    refine ⟨[], st, ?_, rfl, fun x hx => absurd hx (List.not_mem_nil x), hk,
      fun k hk2 => hk2, by omega, hcbc⟩
    rw [List.append_nil]
    rfl
  | succ m ih =>
    have hne : st.lc.common ≠ [] := count_pos_ne_nil _ (by omega)
    have hstep : commonFill cards cb (m + 1) picked st
        = commonFill cards cb m
            (picked ++ [(pick_card st.rs st.lc.common (some picked)).1])
            { lc := st.lc.setR .common (pick_card st.rs st.lc.common (some picked)).2.1,
              cbc :=
                (if cb then
                   match cards.lookup (pick_card st.rs st.lc.common (some picked)).1 with
                   | some f => cbcRemove st.cbc f.colorId
                       (pick_card st.rs st.lc.common (some picked)).1
                   | none => st.cbc
                 else st.cbc),
              rs := (pick_card st.rs st.lc.common (some picked)).2.2 } := rfl
    have hcm : (pick_card st.rs st.lc.common (some picked)).1 ∈ st.lc.common.map Prod.fst :=
      pick_card_mem _ _ _ hne
    have hd1 : (pick_card st.rs st.lc.common (some picked)).2.1
        = removeCardFromDict (pick_card st.rs st.lc.common (some picked)).1 st.lc.common :=
      pick_card_dict _ _ _
    have hk1 : (((pick_card st.rs st.lc.common (some picked)).2.1).map Prod.fst).Nodup := by
      rw [hd1]
      exact keysND_removeCard _ _ hk
    have hcnt1 : count_cards st.lc.common
        ≤ count_cards (pick_card st.rs st.lc.common (some picked)).2.1 + 1 := by
      rw [hd1]
      exact count_removeCard_ge _ _ hk
    have hcbc1 : cbcCommons cards
        (if cb then
           match cards.lookup (pick_card st.rs st.lc.common (some picked)).1 with
           | some f => cbcRemove st.cbc f.colorId
               (pick_card st.rs st.lc.common (some picked)).1
           | none => st.cbc
         else st.cbc) :=
      cbcCommons_fillCbc cards st.cbc cb _ hcbc
    obtain ⟨seg, st', heq, hlen, hmem, hknd, hsub, hcnt, hcbcf⟩ :=
      ih (picked ++ [(pick_card st.rs st.lc.common (some picked)).1])
        { lc := st.lc.setR .common (pick_card st.rs st.lc.common (some picked)).2.1,
          cbc :=
            (if cb then
               match cards.lookup (pick_card st.rs st.lc.common (some picked)).1 with
               | some f => cbcRemove st.cbc f.colorId
                   (pick_card st.rs st.lc.common (some picked)).1
               | none => st.cbc
             else st.cbc),
          rs := (pick_card st.rs st.lc.common (some picked)).2.2 }
        hk1
        (show m ≤ count_cards (pick_card st.rs st.lc.common (some picked)).2.1 by omega)
        hcbc1
    refine ⟨(pick_card st.rs st.lc.common (some picked)).1 :: seg, st', ?_,
      by rw [List.length_cons, hlen], ?_, hknd, ?_, ?_, hcbcf⟩
    · rw [hstep, heq, List.append_assoc]
      rfl
    · intro x hx
      rcases List.mem_cons.mp hx with rfl | hx2
      · exact hcm
      · have := hmem x hx2
        rw [hd1] at this
        exact keys_removeCard_sub _ _ _ this
    · intro k hk2
      have := hsub k hk2
      rw [hd1] at this
      exact keys_removeCard_sub _ _ _ this
    · have hcnt2 : count_cards (pick_card st.rs st.lc.common (some picked)).2.1
          ≤ count_cards st'.lc.common + m := hcnt
      omega

theorem cbColors_spec (cards : CardsDB) (cols : List Nat) (picked : List CardID)
    (st : GenSt)
    (hk : (st.lc.common.map Prod.fst).Nodup)
    (hcbc : cbcCommons cards st.cbc) :
    ∃ seg st', cbColors cols picked st = (picked ++ seg, st') ∧
      seg.length ≤ cols.length ∧
      (∀ x ∈ seg, (cards.lookup x).map CardFacts.rarity = some Rarity.common) ∧
      (st'.lc.common.map Prod.fst).Nodup ∧
      (∀ k ∈ st'.lc.common.map Prod.fst, k ∈ st.lc.common.map Prod.fst) ∧
      count_cards st.lc.common ≤ count_cards st'.lc.common + seg.length ∧
      count_cards st'.lc.common ≤ count_cards st.lc.common ∧
      cbcCommons cards st'.cbc ∧
      st'.lc.uncommon = st.lc.uncommon ∧ st'.lc.rare = st.lc.rare ∧
      st'.lc.mythic = st.lc.mythic := by
  induction cols generalizing picked st with
  | nil =>
    refine ⟨[], st, ?_, by omega, fun x hx => absurd hx (List.not_mem_nil x), hk,
      fun k hk2 => hk2, by omega, le_refl _, hcbc, rfl, rfl, rfl⟩
    rw [List.append_nil]
    rfl
  | cons col rest ih =>
    simp only [cbColors]
    cases hl : st.cbc.lookup col with
    | none =>
      dsimp only
      obtain ⟨seg, st', h1, h2, h3, h4, h5, h6, h7, h8, h9, h10, h11⟩ :=
        ih picked st hk hcbc
      exact ⟨seg, st', h1, by rw [List.length_cons]; omega, h3, h4, h5, h6, h7, h8,
        h9, h10, h11⟩
    | some d =>
      dsimp only
      cases hd : d.isEmpty with
      | true =>
        rw [if_pos rfl]
        obtain ⟨seg, st', h1, h2, h3, h4, h5, h6, h7, h8, h9, h10, h11⟩ :=
          ih picked st hk hcbc
        exact ⟨seg, st', h1, by rw [List.length_cons]; omega, h3, h4, h5, h6, h7, h8,
          h9, h10, h11⟩
      | false =>
        rw [if_neg Bool.false_ne_true]
        have hdne : d ≠ [] := by
          intro hnil
          rw [hnil] at hd
          exact Bool.noConfusion hd
        have hcm : (pick_card st.rs d (some picked)).1 ∈ d.map Prod.fst :=
          pick_card_mem _ _ _ hdne
        have hcpure : (cards.lookup (pick_card st.rs d (some picked)).1).map
            CardFacts.rarity = some Rarity.common :=
          hcbc (col, d) (mem_of_lookup_eq_some st.cbc col d hl) _ hcm
        have hk1 : ((removeCardFromDict (pick_card st.rs d (some picked)).1
            st.lc.common).map Prod.fst).Nodup := keysND_removeCard _ _ hk
        have hcbc1 : cbcCommons cards
            (setA st.cbc col (pick_card st.rs d (some picked)).2.1) := by
          rw [pick_card_dict st.rs d (some picked)]
          exact cbcCommons_setA_remove cards st.cbc col d _ hcbc
            (fun k hk3 => hcbc (col, d) (mem_of_lookup_eq_some st.cbc col d hl) k hk3)
        obtain ⟨seg, st', h1, h2, h3, h4, h5, h6, h7, h8, h9, h10, h11⟩ :=
          ih (picked ++ [(pick_card st.rs d (some picked)).1])
            { lc := st.lc.setR .common
                (removeCardFromDict (pick_card st.rs d (some picked)).1 st.lc.common),
              cbc := setA st.cbc col (pick_card st.rs d (some picked)).2.1,
              rs := (pick_card st.rs d (some picked)).2.2 }
            hk1 hcbc1
        have hassoc : ((picked ++ [(pick_card st.rs d (some picked)).1]) ++ seg, st')
            = (picked ++ ((pick_card st.rs d (some picked)).1 :: seg), st') := by
          rw [List.append_assoc, List.singleton_append]
        have h5b : ∀ k ∈ st'.lc.common.map Prod.fst,
            k ∈ (removeCardFromDict (pick_card st.rs d (some picked)).1
              st.lc.common).map Prod.fst := h5
        have h6b : count_cards (removeCardFromDict (pick_card st.rs d (some picked)).1
            st.lc.common) ≤ count_cards st'.lc.common + seg.length := h6
        have h7b : count_cards st'.lc.common
            ≤ count_cards (removeCardFromDict (pick_card st.rs d (some picked)).1
              st.lc.common) := h7
        have hge : count_cards st.lc.common
            ≤ count_cards (removeCardFromDict (pick_card st.rs d (some picked)).1
              st.lc.common) + 1 := count_removeCard_ge _ _ hk
        have hle : count_cards (removeCardFromDict (pick_card st.rs d (some picked)).1
            st.lc.common) ≤ count_cards st.lc.common := count_removeCard_le _ _ hk
        refine ⟨(pick_card st.rs d (some picked)).1 :: seg, st', h1.trans hassoc,
          by rw [List.length_cons, List.length_cons]; omega, ?_, h4, ?_, ?_, ?_, h8,
          h9, h10, h11⟩
        · intro x hx
          rcases List.mem_cons.mp hx with rfl | hx2
          · exact hcpure
          · exact h3 x hx2
        · intro k hk3
          exact keys_removeCard_sub _ _ _ (h5b k hk3)
        · rw [List.length_cons]
          omega
        · omega

theorem foilRarityPick_nonempty (rc : Nat) (lc : LocalColl) (r : Rarity)
    (h : foilRarityPick rc lc = some r) : lc.get r ≠ [] := by
  unfold foilRarityPick at h
  by_cases h1 : (rollLe rc 1 128 && !lc.mythic.isEmpty) = true
  · rw [if_pos h1] at h
    injection h with h
    subst h
    have hne : lc.mythic.isEmpty = false := by
      cases hh : lc.mythic.isEmpty
      · rfl
      · rw [hh] at h1
        simp at h1
    intro hnil
    have hnil2 : lc.mythic = [] := hnil
    rw [hnil2] at hne
    exact Bool.noConfusion hne
  · rw [if_neg h1] at h
    by_cases h2 : (rollLe rc 8 128 && !lc.rare.isEmpty) = true
    · rw [if_pos h2] at h
      injection h with h
      subst h
      have hne : lc.rare.isEmpty = false := by
        cases hh : lc.rare.isEmpty
        · rfl
        · rw [hh] at h2
          simp at h2
      intro hnil
      have hnil2 : lc.rare = [] := hnil
      rw [hnil2] at hne
      exact Bool.noConfusion hne
    · rw [if_neg h2] at h
      by_cases h3 : (rollLe rc 4 16 && !lc.uncommon.isEmpty) = true
      · rw [if_pos h3] at h
        injection h with h
        subst h
        have hne : lc.uncommon.isEmpty = false := by
          cases hh : lc.uncommon.isEmpty
          · rfl
          · rw [hh] at h3
            simp at h3
        intro hnil
        have hnil2 : lc.uncommon = [] := hnil
        rw [hnil2] at hne
        exact Bool.noConfusion hne
      · rw [if_neg h3] at h
        by_cases h4 : (rollLe rc 1 1 && !lc.common.isEmpty) = true
        · rw [if_pos h4] at h
          injection h with h
          subst h
          have hne : lc.common.isEmpty = false := by
            cases hh : lc.common.isEmpty
            · rfl
            · rw [hh] at h4
              simp at h4
          intro hnil
          have hnil2 : lc.common = [] := hnil
          rw [hnil2] at hne
          exact Bool.noConfusion hne
        · rw [if_neg h4] at h
          exact Option.noConfusion h

theorem foilStep_spec (cards : CardsDB) (foil cb : Bool) (st : GenSt)
    (hks : ∀ r, ((st.lc.get r).map Prod.fst).Nodup)
    (hcbc : cbcCommons cards st.cbc) :
    ∃ seg f st0, foilStep cards foil cb st = (seg, f, st0) ∧ f ≤ 1 ∧
      seg.length = f ∧ cbcCommons cards st0.cbc ∧
      (∀ r, ((st0.lc.get r).map Prod.fst).Nodup) ∧
      (∀ r, ∀ k ∈ (st0.lc.get r).map Prod.fst, k ∈ (st.lc.get r).map Prod.fst) ∧
      (∀ r, count_cards (st.lc.get r) ≤ count_cards (st0.lc.get r) + f) ∧
      (∀ r, count_cards (st0.lc.get r) ≤ count_cards (st.lc.get r)) ∧
      count_cards st.lc.rare + count_cards st.lc.mythic
        ≤ count_cards st0.lc.rare + count_cards st0.lc.mythic + f ∧
      (∀ x ∈ seg, ∃ r0, x ∈ (st.lc.get r0).map Prod.fst) := by
  cases foil with
  | false =>
    exact ⟨[], 0, st, rfl, by omega, rfl, hcbc, hks, fun r k hk => hk,
      fun r => by omega, fun r => le_refl _, by omega,
      fun x hx => absurd hx (List.not_mem_nil x)⟩
  | true =>
    unfold foilStep
    rw [if_pos rfl]
    cases hro : rollLe (st.rs.headD 0) 15 63 with
    | false =>
      rw [if_neg Bool.false_ne_true]
      exact ⟨[], 0, { st with rs := st.rs.tail }, rfl, by omega, rfl, hcbc, hks,
        fun r k hk => hk,
        fun r => (show count_cards (st.lc.get r) ≤ count_cards (st.lc.get r) + 0 by omega),
        fun r => le_refl _,
        (show count_cards st.lc.rare + count_cards st.lc.mythic
          ≤ count_cards st.lc.rare + count_cards st.lc.mythic + 0 by omega),
        fun x hx => absurd hx (List.not_mem_nil x)⟩
    | true =>
      rw [if_pos rfl]
      cases hfr : foilRarityPick (st.rs.tail.headD 0) st.lc with
      | none =>
        dsimp only
        exact ⟨[], 0, { st with rs := st.rs.tail.tail }, rfl, by omega, rfl, hcbc, hks,
          fun r k hk => hk,
          fun r => (show count_cards (st.lc.get r) ≤ count_cards (st.lc.get r) + 0 by omega),
          fun r => le_refl _,
          (show count_cards st.lc.rare + count_cards st.lc.mythic
            ≤ count_cards st.lc.rare + count_cards st.lc.mythic + 0 by omega),
          fun x hx => absurd hx (List.not_mem_nil x)⟩
      | some r0 =>
        dsimp only
        have hne := foilRarityPick_nonempty _ _ _ hfr
        cases hp : pick_card st.rs.tail.tail (st.lc.get r0) none with
        | mk c pr =>
          cases pr with
          | mk d1 rs1 =>
            have hd1 : d1 = removeCardFromDict c (st.lc.get r0) := by
              have := pick_card_dict st.rs.tail.tail (st.lc.get r0) none
              rw [hp] at this
              exact this
            have hcm : c ∈ (st.lc.get r0).map Prod.fst := by
              have := pick_card_mem st.rs.tail.tail (st.lc.get r0) none hne
              rw [hp] at this
              exact this
            refine ⟨[c], 1, _, rfl, le_refl _, rfl, ?_, ?_, ?_, ?_, ?_, ?_, ?_⟩
            · exact cbcCommons_foilCbc cards st.cbc cb c hcbc
            · intro r
              show (((st.lc.setR r0 d1).get r).map Prod.fst).Nodup
              rw [get_setR]
              by_cases hr : r = r0
              · rw [if_pos hr, hd1]
                exact keysND_removeCard _ _ (hks r0)
              · rw [if_neg hr]
                exact hks r
            · intro r k hk
              rw [show ((st.lc.setR r0 d1).get r)
                  = (if r = r0 then d1 else st.lc.get r) from get_setR st.lc r0 r d1] at hk
              by_cases hr : r = r0
              · rw [if_pos hr] at hk
                subst hr
                rw [hd1] at hk
                exact keys_removeCard_sub _ _ _ hk
              · rw [if_neg hr] at hk
                exact hk
            · intro r
              show count_cards (st.lc.get r) ≤ count_cards ((st.lc.setR r0 d1).get r) + 1
              rw [get_setR]
              by_cases hr : r = r0
              · rw [if_pos hr, hd1, hr]
                exact count_removeCard_ge _ _ (hks r0)
              · rw [if_neg hr]
                omega
            · intro r
              show count_cards ((st.lc.setR r0 d1).get r) ≤ count_cards (st.lc.get r)
              rw [get_setR]
              by_cases hr : r = r0
              · rw [if_pos hr, hd1, hr]
                exact count_removeCard_le _ _ (hks r0)
              · rw [if_neg hr]
            · show count_cards ((st.lc.setR r0 d1).get Rarity.rare)
                  + count_cards ((st.lc.setR r0 d1).get Rarity.mythic) + 1
                ≥ count_cards st.lc.rare + count_cards st.lc.mythic
              rw [get_setR, get_setR]
              cases r0 with
              | rare =>
                rw [if_pos rfl, if_neg (by intro hh; exact Rarity.noConfusion hh), hd1]
                have h9 := count_removeCard_ge (st.lc.get Rarity.rare) c
                  (hks Rarity.rare)
                have h9b : count_cards st.lc.rare
                    ≤ count_cards (removeCardFromDict c st.lc.rare) + 1 := h9
                have h9c : count_cards (removeCardFromDict c (st.lc.get Rarity.rare))
                    = count_cards (removeCardFromDict c st.lc.rare) := rfl
                have hbr : count_cards (st.lc.get Rarity.rare)
                    = count_cards st.lc.rare := rfl
                have hbm : count_cards (st.lc.get Rarity.mythic)
                    = count_cards st.lc.mythic := rfl
                rw [h9c]
                omega
              | mythic =>
                rw [if_neg (by intro hh; exact Rarity.noConfusion hh), if_pos rfl, hd1]
                have h9 := count_removeCard_ge (st.lc.get Rarity.mythic) c
                  (hks Rarity.mythic)
                have h9b : count_cards st.lc.mythic
                    ≤ count_cards (removeCardFromDict c st.lc.mythic) + 1 := h9
                have h9c : count_cards (removeCardFromDict c (st.lc.get Rarity.mythic))
                    = count_cards (removeCardFromDict c st.lc.mythic) := rfl
                have hbr : count_cards (st.lc.get Rarity.rare)
                    = count_cards st.lc.rare := rfl
                have hbm : count_cards (st.lc.get Rarity.mythic)
                    = count_cards st.lc.mythic := rfl
                rw [h9c]
                omega
              | common =>
                rw [if_neg (by intro hh; exact Rarity.noConfusion hh),
                  if_neg (by intro hh; exact Rarity.noConfusion hh)]
                have hbr : count_cards (st.lc.get Rarity.rare)
                    = count_cards st.lc.rare := rfl
                have hbm : count_cards (st.lc.get Rarity.mythic)
                    = count_cards st.lc.mythic := rfl
                omega
              | uncommon =>
                rw [if_neg (by intro hh; exact Rarity.noConfusion hh),
                  if_neg (by intro hh; exact Rarity.noConfusion hh)]
                have hbr : count_cards (st.lc.get Rarity.rare)
                    = count_cards st.lc.rare := rfl
                have hbm : count_cards (st.lc.get Rarity.mythic)
                    = count_cards st.lc.mythic := rfl
                omega
            · intro x hx
              have : x = c := by
                rcases List.mem_cons.mp hx with h | h
                · exact h
                · exact absurd h (List.not_mem_nil x)
              rw [this]
              exact ⟨r0, hcm⟩

/-- The per-rarity booster counts claim C2 asserts: every rarity equals the
target table exactly (rare and mythic combined for the rare slot). -/
def claimC2Counts (cards : CardsDB) (mr : Rarity) (b : List CardID) : Prop :=
  rarityCount cards b .common = (targetsFor mr).common ∧
  rarityCount cards b .uncommon = (targetsFor mr).uncommon ∧
  rarityCount cards b .rare + rarityCount cards b .mythic = (targetsFor mr).rare

instance (cards : CardsDB) (mr : Rarity) (b : List CardID) :
    Decidable (claimC2Counts cards mr b) := by
  unfold claimC2Counts
  infer_instance

/-- The corrected per-booster counts: `f ≤ 1` foil was added; whatever the
foil's rarity, it displaces a COMMON fill slot, so its own rarity gains up
to one card while the commons drop to at least `targets.common - f`; the
booster size is always `targets.rare + targets.uncommon + targets.common`. -/
def amendedC2Counts (cards : CardsDB) (mr : Rarity) (b : List CardID) : Prop :=
  ∃ f, f ≤ 1 ∧
    (targetsFor mr).uncommon ≤ rarityCount cards b .uncommon ∧
    rarityCount cards b .uncommon ≤ (targetsFor mr).uncommon + f ∧
    (targetsFor mr).rare ≤ rarityCount cards b .rare + rarityCount cards b .mythic ∧
    rarityCount cards b .rare + rarityCount cards b .mythic ≤ (targetsFor mr).rare + f ∧
    (targetsFor mr).common - f ≤ rarityCount cards b .common ∧
    rarityCount cards b .common ≤ (targetsFor mr).common ∧
    b.length = (targetsFor mr).rare + (targetsFor mr).uncommon + (targetsFor mr).common

theorem rarityCount_two_le_length (cards : CardsDB) (l : List CardID)
    (r1 r2 : Rarity) (h : r1 ≠ r2) :
    rarityCount cards l r1 + rarityCount cards l r2 ≤ l.length := by
  induction l with
  | nil => simp [rarityCount]
  | cons a t ih =>
    unfold rarityCount at *
    rw [List.countP_cons, List.countP_cons, List.length_cons]
    cases hl : cards.lookup a with
    | none => simp [hl]; omega
    | some f =>
      by_cases h1 : f.rarity = r1
      · have h2 : f.rarity ≠ r2 := fun hh => h (h1 ▸ hh ▸ rfl)
        simp [hl, h1, h2, h]
        omega
      · simp only [hl]
        by_cases h2 : f.rarity = r2
        · have h3 : r2 ≠ r1 := fun hh => h hh.symm
          simp [h1, h2, h3]
          omega
        · simp [h1, h2]
          omega

theorem targets_common_ten (mr : Rarity) : 10 ≤ (targetsFor mr).common := by
  cases mr <;> decide

theorem generateOneBooster_spec (cards : CardsDB) (foil cb : Bool) (mr : Rarity)
    (landSlot : Option (List CardID)) (st : GenSt)
    (hks : ∀ r, ((st.lc.get r).map Prod.fst).Nodup)
    (hdk : ∀ r, dictKeyed cards r (st.lc.get r))
    (hcbc : cbcCommons cards st.cbc)
    (hcc : (targetsFor mr).common ≤ count_cards st.lc.common)
    (hcu : (targetsFor mr).uncommon + 1 ≤ count_cards st.lc.uncommon)
    (hcr : (targetsFor mr).rare + 1 ≤ count_cards st.lc.rare + count_cards st.lc.mythic)
    (hsafe : count_cards st.lc.mythic = 0 ∨ mr = .mythic) :
    ∃ core extra st', generateOneBooster cards foil cb mr landSlot st
        = some (core ++ extra, st') ∧
      amendedC2Counts cards mr core ∧
      landExtraOk landSlot extra ∧
      (∀ r, ((st'.lc.get r).map Prod.fst).Nodup) ∧
      (∀ r, ∀ k ∈ (st'.lc.get r).map Prod.fst, k ∈ (st.lc.get r).map Prod.fst) ∧
      count_cards st.lc.common ≤ count_cards st'.lc.common + (targetsFor mr).common ∧
      count_cards st.lc.uncommon
        ≤ count_cards st'.lc.uncommon + ((targetsFor mr).uncommon + 1) ∧
      count_cards st.lc.rare + count_cards st.lc.mythic
        ≤ count_cards st'.lc.rare + count_cards st'.lc.mythic
          + ((targetsFor mr).rare + 1) ∧
      count_cards st'.lc.mythic ≤ count_cards st.lc.mythic ∧
      cbcCommons cards st'.cbc := by
  have htc := targets_common_ten mr
  obtain ⟨segf, f, st0, hfeq, hf1, hflen, hfcbc, hks0, hsub0, hge0, hle0, hgerm,
    hmemf⟩ := foilStep_spec cards foil cb st hks hcbc
  have hge0c : count_cards st.lc.common ≤ count_cards st0.lc.common + f :=
    hge0 Rarity.common
  have hge0u : count_cards st.lc.uncommon ≤ count_cards st0.lc.uncommon + f :=
    hge0 Rarity.uncommon
  have hge0r : count_cards st.lc.rare ≤ count_cards st0.lc.rare + f :=
    hge0 Rarity.rare
  have hge0m : count_cards st.lc.mythic ≤ count_cards st0.lc.mythic + f :=
    hge0 Rarity.mythic
  have hle0c : count_cards st0.lc.common ≤ count_cards st.lc.common :=
    hle0 Rarity.common
  have hle0u : count_cards st0.lc.uncommon ≤ count_cards st.lc.uncommon :=
    hle0 Rarity.uncommon
  have hle0r : count_cards st0.lc.rare ≤ count_cards st.lc.rare :=
    hle0 Rarity.rare
  have hle0m : count_cards st0.lc.mythic ≤ count_cards st.lc.mythic :=
    hle0 Rarity.mythic
  have hsafe0 : count_cards st0.lc.mythic = 0 ∨ mr = .mythic := by
    rcases hsafe with h | h
    · exact Or.inl (by omega)
    · exact Or.inr h
  obtain ⟨segr, st1, hreq, hrlen, hrcbc, hrcom, hrunc, hrkr, hrkm, hrcnt, hrmy,
    hrsubr, hrsubm, hrpure⟩ :=
    rareSlots_spec mr (targetsFor mr).rare segf st0 (hks0 Rarity.rare)
      (hks0 Rarity.mythic)
      (show (targetsFor mr).rare
        ≤ count_cards st0.lc.rare + count_cards st0.lc.mythic by omega)
  obtain ⟨segu, st2, hueq, hulen, humem, huk, husub, hucnt⟩ :=
    uncommonSlots_spec (targetsFor mr).uncommon (segf ++ segr) st1
      (show ((st1.lc.uncommon.map Prod.fst)).Nodup by
        rw [hrunc]; exact hks0 Rarity.uncommon)
      (show (targetsFor mr).uncommon ≤ count_cards st1.lc.uncommon by
        rw [hrunc]; omega)
  have hu_pres := uncommonSlots_pres (targetsFor mr).uncommon (segf ++ segr) st1
  rw [hueq] at hu_pres
  obtain ⟨hu_com, hu_rare, hu_myth, hu_cbc⟩ := hu_pres
  have hcbc2 : cbcCommons cards st2.cbc := by
    rw [hu_cbc, hrcbc]
    exact hfcbc
  have hk2c : (st2.lc.common.map Prod.fst).Nodup := by
    rw [hu_com, hrcom]
    exact hks0 Rarity.common
  obtain ⟨pc, st3, hpceq, hpclen, hpcpure, hpck, hpcsub, hpcge, hpccbc, hpcunc,
    hpcrare, hpcmyth⟩ :
      ∃ pc st3, (if cb then cbColors [0, 1, 2, 3, 4] [] st2 else ([], st2))
          = (pc, st3) ∧
        pc.length ≤ 5 ∧
        (∀ x ∈ pc, (cards.lookup x).map CardFacts.rarity = some Rarity.common) ∧
        ((st3.lc.common.map Prod.fst).Nodup) ∧
        (∀ k ∈ st3.lc.common.map Prod.fst, k ∈ st2.lc.common.map Prod.fst) ∧
        count_cards st2.lc.common ≤ count_cards st3.lc.common + pc.length ∧
        cbcCommons cards st3.cbc ∧
        st3.lc.uncommon = st2.lc.uncommon ∧ st3.lc.rare = st2.lc.rare ∧
        st3.lc.mythic = st2.lc.mythic := by
    cases hcb : cb with
    | false =>
      refine ⟨[], st2, ?_, by decide, fun x hx => absurd hx (List.not_mem_nil x),
        hk2c, fun k hk3 => hk3, by rw [List.length_nil]; omega, hcbc2, rfl, rfl, rfl⟩
      rw [if_neg Bool.false_ne_true]
    | true =>
      obtain ⟨seg3, st3, h3eq, h3len, h3pure, h3k, h3sub, h3ge, h3le, h3cbc,
        h3unc, h3rare, h3myth⟩ := cbColors_spec cards [0, 1, 2, 3, 4] [] st2 hk2c hcbc2
      rw [List.nil_append] at h3eq
      exact ⟨seg3, st3, by rw [if_pos rfl]; exact h3eq, h3len, h3pure, h3k, h3sub,
        h3ge, h3cbc, h3unc, h3rare, h3myth⟩
  obtain ⟨segc, st4, hceq, hclen, hcmem, hck, hcsub, hccnt, hcbc4⟩ :=
    commonFill_spec cards cb ((targetsFor mr).common - f - pc.length) pc st3
      hpck
      (by
        have h5 := hpcge
        rw [hu_com, hrcom] at h5
        omega)
      hpccbc
  unfold generateOneBooster
  rw [hfeq]
  dsimp only
  rw [hreq]
  dsimp only
  rw [hueq]
  dsimp only
  rw [hpceq]
  dsimp only
  rw [hceq]
  dsimp only
  cases hsh : shuffleArray (pc ++ segc) st4.rs with
  | mk shuffled rs5 =>
    dsimp only
    have hshlen : shuffled.length
        = pc.length + ((targetsFor mr).common - f - pc.length) := by
      have h7 := shuffleArray_length (pc ++ segc) st4.rs
      rw [hsh] at h7
      have h8 : shuffled.length = (pc ++ segc).length := h7
      rw [List.length_append, hclen] at h8
      exact h8
    have hshmem : ∀ x ∈ shuffled, x ∈ pc ∨ x ∈ segc := by
      intro x hx
      have h7 := shuffleArray_mem (pc ++ segc) st4.rs x (by rw [hsh]; exact hx)
      exact List.mem_append.mp h7
    -- rarity purity of the segments with respect to the ORIGINAL state
    have hpure_u : ∀ x ∈ segu, (cards.lookup x).map CardFacts.rarity
        = some Rarity.uncommon := by
      intro x hx
      have h1 := humem x hx
      rw [hrunc] at h1
      exact hdk Rarity.uncommon x (hsub0 Rarity.uncommon x h1)
    have hpure_c : ∀ x ∈ shuffled, (cards.lookup x).map CardFacts.rarity
        = some Rarity.common := by
      intro x hx
      rcases hshmem x hx with h1 | h1
      · exact hpcpure x h1
      · have h2 := hcmem x h1
        have h3 := hpcsub x h2
        rw [hu_com, hrcom] at h3
        exact hdk Rarity.common x (hsub0 Rarity.common x h3)
    have hpure_r : ∀ x ∈ segr, (cards.lookup x).map CardFacts.rarity
          = some Rarity.rare ∨
        (cards.lookup x).map CardFacts.rarity = some Rarity.mythic := by
      intro x hx
      rcases hrpure hsafe0 x hx with h1 | h1
      · exact Or.inl (hdk Rarity.rare x (hsub0 Rarity.rare x h1))
      · exact Or.inr (hdk Rarity.mythic x (hsub0 Rarity.mythic x h1))
    obtain ⟨hcu_eq, hcu_zero⟩ := rarityCount_of_pure cards segu Rarity.uncommon hpure_u
    obtain ⟨hcc_eq, hcc_zero⟩ := rarityCount_of_pure cards shuffled Rarity.common hpure_c
    obtain ⟨hcr_eq, hcr_zc, hcr_zu⟩ := rarityCount_of_rm cards segr hpure_r
    have hflen2 : segf.length = f := hflen
    have hfu := rarityCount_le_length cards segf Rarity.uncommon
    have hfc := rarityCount_le_length cards segf Rarity.common
    have hfrm := rarityCount_two_le_length cards segf Rarity.rare Rarity.mythic
      (by intro hh; exact Rarity.noConfusion hh)
    have hpres := commonFill_pres cards cb ((targetsFor mr).common - f - pc.length)
      pc st3
    rw [hceq] at hpres
    have hO : amendedC2Counts cards mr (segf ++ segr ++ segu ++ shuffled) := by
      refine ⟨f, hf1, ?_, ?_, ?_, ?_, ?_, ?_, ?_⟩
      · rw [rarityCount_append, rarityCount_append, rarityCount_append,
          hcu_eq, hulen, hcr_zu, hcc_zero Rarity.uncommon (by intro hh; exact Rarity.noConfusion hh)]
        omega
      · rw [rarityCount_append, rarityCount_append, rarityCount_append,
          hcu_eq, hulen, hcr_zu, hcc_zero Rarity.uncommon (by intro hh; exact Rarity.noConfusion hh)]
        rw [hflen2] at hfu
        omega
      · rw [rarityCount_append, rarityCount_append, rarityCount_append,
          rarityCount_append, rarityCount_append, rarityCount_append]
        have hu_zr := (hcu_zero Rarity.rare (by intro hh; exact Rarity.noConfusion hh))
        have hu_zm := (hcu_zero Rarity.mythic (by intro hh; exact Rarity.noConfusion hh))
        have hc_zr := (hcc_zero Rarity.rare (by intro hh; exact Rarity.noConfusion hh))
        have hc_zm := (hcc_zero Rarity.mythic (by intro hh; exact Rarity.noConfusion hh))
        rw [hu_zr, hu_zm, hc_zr, hc_zm]
        omega
      · rw [rarityCount_append, rarityCount_append, rarityCount_append,
          rarityCount_append, rarityCount_append, rarityCount_append]
        have hu_zr := (hcu_zero Rarity.rare (by intro hh; exact Rarity.noConfusion hh))
        have hu_zm := (hcu_zero Rarity.mythic (by intro hh; exact Rarity.noConfusion hh))
        have hc_zr := (hcc_zero Rarity.rare (by intro hh; exact Rarity.noConfusion hh))
        have hc_zm := (hcc_zero Rarity.mythic (by intro hh; exact Rarity.noConfusion hh))
        rw [hu_zr, hu_zm, hc_zr, hc_zm]
        rw [hflen2] at hfrm
        omega
      · rw [rarityCount_append, rarityCount_append, rarityCount_append,
          hcc_eq, hshlen, hcr_zc,
          hcu_zero Rarity.common (by intro hh; exact Rarity.noConfusion hh)]
        omega
      · rw [rarityCount_append, rarityCount_append, rarityCount_append,
          hcc_eq, hshlen, hcr_zc,
          hcu_zero Rarity.common (by intro hh; exact Rarity.noConfusion hh)]
        rw [hflen2] at hfc
        omega
      · rw [List.length_append, List.length_append, List.length_append,
          hflen2, hrlen, hulen, hshlen]
        omega
    have hnd : ∀ r, ((st4.lc.get r).map Prod.fst).Nodup := by
      intro r
      cases r with
      | common =>
        show ((st4.lc.common.map Prod.fst)).Nodup
        exact hck
      | uncommon =>
        show ((st4.lc.uncommon.map Prod.fst)).Nodup
        rw [hpres.1, hpcunc]
        exact huk
      | rare =>
        show ((st4.lc.rare.map Prod.fst)).Nodup
        rw [hpres.2.1, hpcrare, hu_rare]
        exact hrkr
      | mythic =>
        show ((st4.lc.mythic.map Prod.fst)).Nodup
        rw [hpres.2.2, hpcmyth, hu_myth]
        exact hrkm
    have hkeys : ∀ r, ∀ k ∈ (st4.lc.get r).map Prod.fst,
        k ∈ (st.lc.get r).map Prod.fst := by
      intro r k hk
      cases r with
      | common =>
        have hk2 : k ∈ st4.lc.common.map Prod.fst := hk
        have h3 := hcsub k hk2
        have h4 := hpcsub k h3
        rw [hu_com, hrcom] at h4
        exact hsub0 Rarity.common k h4
      | uncommon =>
        have hk2 : k ∈ st4.lc.uncommon.map Prod.fst := hk
        rw [hpres.1, hpcunc] at hk2
        have h3 := husub k hk2
        rw [hrunc] at h3
        exact hsub0 Rarity.uncommon k h3
      | rare =>
        have hk2 : k ∈ st4.lc.rare.map Prod.fst := hk
        rw [hpres.2.1, hpcrare, hu_rare] at hk2
        have h3 := hrsubr k hk2
        exact hsub0 Rarity.rare k h3
      | mythic =>
        have hk2 : k ∈ st4.lc.mythic.map Prod.fst := hk
        rw [hpres.2.2, hpcmyth, hu_myth] at hk2
        have h3 := hrsubm k hk2
        exact hsub0 Rarity.mythic k h3
    have hcntc : count_cards st.lc.common
        ≤ count_cards st4.lc.common + (targetsFor mr).common := by
      have h4 : count_cards st3.lc.common
          ≤ count_cards st4.lc.common + ((targetsFor mr).common - f - pc.length) :=
        hccnt
      have h5 := hpcge
      rw [hu_com, hrcom] at h5
      omega
    have hcntu : count_cards st.lc.uncommon
        ≤ count_cards st4.lc.uncommon + ((targetsFor mr).uncommon + 1) := by
      have h4 : count_cards st1.lc.uncommon
          ≤ count_cards st2.lc.uncommon + (targetsFor mr).uncommon := hucnt
      rw [hrunc] at h4
      rw [hpres.1, hpcunc]
      omega
    have hcntr : count_cards st.lc.rare + count_cards st.lc.mythic
        ≤ count_cards st4.lc.rare + count_cards st4.lc.mythic
          + ((targetsFor mr).rare + 1) := by
      rw [hpres.2.1, hpres.2.2, hpcrare, hpcmyth, hu_rare, hu_myth]
      omega
    have hcntm : count_cards st4.lc.mythic ≤ count_cards st.lc.mythic := by
      rw [hpres.2.2, hpcmyth, hu_myth]
      omega
    cases landSlot with
    | none =>
      exact ⟨segf ++ segr ++ segu ++ shuffled, [], { st4 with rs := rs5 },
        by rw [List.append_nil], hO, rfl, hnd, hkeys, hcntc, hcntu, hcntr, hcntm,
        hcbc4⟩
    | some lands =>
      exact ⟨segf ++ segr ++ segu ++ shuffled,
        [lands.getD (jsRandIdx (rs5.headD 0) lands.length) 0],
        { st4 with rs := rs5.tail }, rfl, hO,
        ⟨lands.getD (jsRandIdx (rs5.headD 0) lands.length) 0, rfl,
          fun hne => getD_jsRandIdx_mem lands (rs5.headD 0) hne⟩,
        hnd, hkeys, hcntc, hcntu, hcntr, hcntm, hcbc4⟩

theorem generateBoostersGo_spec (cards : CardsDB) (foil cb : Bool) (mr : Rarity)
    (landSlot : Option (List CardID)) (q : Nat) (acc : List (List CardID))
    (st : GenSt)
    (hks : ∀ r, ((st.lc.get r).map Prod.fst).Nodup)
    (hdk : ∀ r, dictKeyed cards r (st.lc.get r))
    (hcbc : cbcCommons cards st.cbc)
    (hcc : (targetsFor mr).common * q ≤ count_cards st.lc.common)
    (hcu : ((targetsFor mr).uncommon + 1) * q ≤ count_cards st.lc.uncommon)
    (hcr : ((targetsFor mr).rare + 1) * q
      ≤ count_cards st.lc.rare + count_cards st.lc.mythic)
    (hsafe : count_cards st.lc.mythic = 0 ∨ mr = .mythic) :
    ∃ bs st', generateBoostersGo cards foil cb mr landSlot q acc st
        = some (bs, st') ∧
      bs.length = acc.length + q ∧
      ∀ b ∈ bs, b ∈ acc ∨
        ∃ core extra, b = core ++ extra ∧ amendedC2Counts cards mr core ∧
          landExtraOk landSlot extra := by
  induction q generalizing acc st with
  | zero => exact ⟨acc, st, rfl, by omega, fun b hb => Or.inl hb⟩
  | succ m ih =>
    have e1 : (targetsFor mr).common * (m + 1)
        = (targetsFor mr).common * m + (targetsFor mr).common := Nat.mul_succ _ _
    have e2 : ((targetsFor mr).uncommon + 1) * (m + 1)
        = ((targetsFor mr).uncommon + 1) * m + ((targetsFor mr).uncommon + 1) :=
      Nat.mul_succ _ _
    have e3 : ((targetsFor mr).rare + 1) * (m + 1)
        = ((targetsFor mr).rare + 1) * m + ((targetsFor mr).rare + 1) :=
      Nat.mul_succ _ _
    obtain ⟨core, extra, st1, heq, hamended, hland, hks1, hsub1, hc1, hu1, hr1, hm1,
      hcbc1⟩ := generateOneBooster_spec cards foil cb mr landSlot st hks hdk hcbc
        (by omega) (by omega) (by omega) hsafe
    have hdk1 : ∀ r, dictKeyed cards r (st1.lc.get r) :=
      fun r k hk => hdk r k (hsub1 r k hk)
    have hsafe1 : count_cards st1.lc.mythic = 0 ∨ mr = .mythic := by
      rcases hsafe with h | h
      · exact Or.inl (by omega)
      · exact Or.inr h
    have hstep : generateBoostersGo cards foil cb mr landSlot (m + 1) acc st
        = generateBoostersGo cards foil cb mr landSlot m (acc ++ [core ++ extra])
            st1 := by
      simp only [generateBoostersGo]
      rw [heq]
    rw [hstep]
    obtain ⟨bs, st2, heq2, hlen2, hmem2⟩ :=
      ih (acc ++ [core ++ extra]) st1 hks1 hdk1 hcbc1 (by omega) (by omega)
        (by omega) hsafe1
    refine ⟨bs, st2, heq2, ?_, ?_⟩
    · rw [hlen2, List.length_append, List.length_singleton]
      omega
    · intro b2 hb2
      rcases hmem2 b2 hb2 with h | h
      · rcases List.mem_append.mp h with h2 | h2
        · exact Or.inl h2
        · have hb0 : b2 = core ++ extra := by
            rcases List.mem_cons.mp h2 with h3 | h3
            · exact h3
            · exact absurd h3 (List.not_mem_nil b2)
          exact Or.inr ⟨core, extra, hb0, hamended, hland⟩
      · exact Or.inr h

/-- C2 (corrected): for any color-balance setting, with a duplicate-free and
rarity-coherent restricted collection, sufficient supply (one spare
uncommon and one spare rare-or-mythic per booster for a possible foil),
and a rare pool that is never shadowed by an unused mythic pool (no
mythics, or maxRarity mythic), every generated booster is a core of
exactly `targets.rare + targets.uncommon + targets.common` cards - with
exactly `targets.uncommon` uncommons, `targets.rare` rare-or-mythics and
`targets.common` commons, EXCEPT that an added foil contributes one extra
card of ITS OWN rarity while the COMMON fill shrinks by one: the foil
displaces a common slot, not a slot of matching rarity as the claim says -
followed, exactly when a single set restriction names a registered land
slot, by one extra land-slot pick appended at the end. -/
theorem c2_booster_counts_amended (cards : CardsDB) (foil cb : Bool) (mr : Rarity)
    (landSlots : List (Nat × List CardID)) (setRestriction : List Nat)
    (lc : LocalColl) (q : Nat) (rs : List Nat)
    (hks : ∀ r, ((lc.get r).map Prod.fst).Nodup)
    (hdk : ∀ r, dictKeyed cards r (lc.get r))
    (hcc : (targetsFor mr).common * q ≤ count_cards lc.common)
    (hcu : ((targetsFor mr).uncommon + 1) * q ≤ count_cards lc.uncommon)
    (hcr : ((targetsFor mr).rare + 1) * q
      ≤ count_cards lc.rare + count_cards lc.mythic)
    (hsafe : count_cards lc.mythic = 0 ∨ mr = .mythic) :
    ∃ bs st', generateBoosters cards foil cb mr landSlots setRestriction lc q rs
        = some (bs, st') ∧
      bs.length = q ∧
      ∀ b ∈ bs, ∃ core extra, b = core ++ extra ∧
        amendedC2Counts cards mr core ∧
        landExtraOk
          (if setRestriction.length = 1 then
            landSlots.lookup (setRestriction.headD 0)
           else none) extra := by
  have hmu : (targetsFor mr).uncommon * q ≤ ((targetsFor mr).uncommon + 1) * q :=
    Nat.mul_le_mul_right q (Nat.le_succ _)
  have hmr2 : (targetsFor mr).rare * q ≤ ((targetsFor mr).rare + 1) * q :=
    Nat.mul_le_mul_right q (Nat.le_succ _)
  unfold generateBoosters
  rw [if_neg (by omega), if_neg (by omega), if_neg (by omega)]
  have hcbc0 : cbcCommons cards (if cb then buildCBC cards lc.common else []) := by
    cases cb with
    | false => exact cbcCommons_nil cards
    | true =>
      rw [if_pos rfl]
      exact buildCBC_commons cards lc.common
        (fun p hp => hdk Rarity.common p.1 (List.mem_map.mpr ⟨p, hp, rfl⟩))
  obtain ⟨bs, st', heq, hlen, hmem⟩ :=
    generateBoostersGo_spec cards foil cb mr
      (if setRestriction.length = 1 then landSlots.lookup (setRestriction.headD 0)
       else none) q []
      { lc := lc, cbc := if cb then buildCBC cards lc.common else [], rs := rs }
      hks hdk hcbc0
      (show (targetsFor mr).common * q ≤ count_cards lc.common by omega)
      (show ((targetsFor mr).uncommon + 1) * q ≤ count_cards lc.uncommon by omega)
      (show ((targetsFor mr).rare + 1) * q
        ≤ count_cards lc.rare + count_cards lc.mythic by omega)
      hsafe
  refine ⟨bs, st', heq, by rw [hlen, List.length_nil]; omega, ?_⟩
  intro b hb
  rcases hmem b hb with h | h
  · exact absurd h (List.not_mem_nil b)
  · exact h

/-- A small catalog: eleven commons, four uncommons and one rare. -/
def c2Cards : CardsDB :=
  [(101, ⟨0, Rarity.common, 0, true⟩), (102, ⟨0, Rarity.common, 0, true⟩),
   (103, ⟨0, Rarity.common, 0, true⟩), (104, ⟨0, Rarity.common, 0, true⟩),
   (105, ⟨0, Rarity.common, 0, true⟩), (106, ⟨0, Rarity.common, 0, true⟩),
   (107, ⟨0, Rarity.common, 0, true⟩), (108, ⟨0, Rarity.common, 0, true⟩),
   (109, ⟨0, Rarity.common, 0, true⟩), (110, ⟨0, Rarity.common, 0, true⟩),
   (111, ⟨0, Rarity.common, 0, true⟩),
   (201, ⟨0, Rarity.uncommon, 0, true⟩), (202, ⟨0, Rarity.uncommon, 0, true⟩),
   (203, ⟨0, Rarity.uncommon, 0, true⟩), (204, ⟨0, Rarity.uncommon, 0, true⟩),
   (301, ⟨0, Rarity.rare, 0, true⟩)]

/-- Buckets for a one-booster `maxRarity = uncommon` session meeting every
bucket target (targets 0/3/11). -/
def c2Lc : LocalColl :=
  { common := [(101, 1), (102, 1), (103, 1), (104, 1), (105, 1), (106, 1), (107, 1),
               (108, 1), (109, 1), (110, 1), (111, 1)],
    uncommon := [(201, 1), (202, 1), (203, 1), (204, 1)],
    rare := [],
    mythic := [] }

/-- As `c2Lc` but with one rare, meeting the amended theorem's spare
rare-or-mythic supply hypothesis. -/
def c2WitLc : LocalColl :=
  { common := c2Lc.common, uncommon := c2Lc.uncommon, rare := [(301, 1)],
    mythic := [] }

def c2Rolls : List Nat := List.replicate 30 0

/-- C2 counterexample: with foil on, rolls 0 give an UNCOMMON foil; the
produced booster has FOUR uncommons and ten commons against the claimed
exact targets 3 uncommons / 11 commons - the foil displaced a common slot,
not an uncommon one. -/
theorem c2_booster_counts_claim_counterexample :
    (generateBoosters c2Cards true false Rarity.uncommon [] [] c2Lc 1 c2Rolls).map
        (fun p => p.1.map (fun b => rarityCount c2Cards b Rarity.uncommon))
      = some [4]
    ∧ (targetsFor Rarity.uncommon).uncommon = 3
    ∧ ∀ bs st',
        generateBoosters c2Cards true false Rarity.uncommon [] [] c2Lc 1 c2Rolls
          = some (bs, st') →
        ∀ b ∈ bs, ¬ claimC2Counts c2Cards Rarity.uncommon b := by
  refine ⟨by decide, rfl, ?_⟩
  intro bs st' heq b hb hclaim
  have hmap : (some (bs, st')).map
      (fun p => p.1.map (fun b => rarityCount c2Cards b Rarity.uncommon))
        = some [4] := by
    rw [← heq]
    decide
  have h2 : bs.map (fun b => rarityCount c2Cards b Rarity.uncommon) = [4] :=
    Option.some.inj hmap
  cases bs with
  | nil => exact List.noConfusion h2
  | cons b0 t =>
    rw [List.map_cons] at h2
    injection h2 with h3 h4
    cases t with
    | nil =>
      have hb0 : b = b0 := by
        rcases List.mem_cons.mp hb with h | h
        · exact h
        · exact absurd h (List.not_mem_nil b)
      rw [hb0] at hclaim
      have := hclaim.2.1
      rw [h3] at this
      exact absurd this (by decide)
    | cons t0 tt => exact List.noConfusion h4

/-- Witness: the amended C2 theorem applied at a concrete one-booster
foil-enabled, color-balanced session whose single set restriction has a
registered land slot. -/
theorem c2_booster_counts_amended_witness :
    ∃ bs st', generateBoosters c2Cards true true Rarity.uncommon [(5, [401])] [5]
        c2WitLc 1 c2Rolls = some (bs, st') ∧
      bs.length = 1 ∧
      ∀ b ∈ bs, ∃ core extra, b = core ++ extra ∧
        amendedC2Counts c2Cards Rarity.uncommon core ∧
        landExtraOk
          (if ([5] : List Nat).length = 1 then
            ([(5, [401])] : List (Nat × List CardID)).lookup
              (([5] : List Nat).headD 0)
           else none) extra :=
  c2_booster_counts_amended c2Cards true true Rarity.uncommon [(5, [401])] [5]
    c2WitLc 1 c2Rolls
    (by intro r; cases r <;> decide)
    (by unfold dictKeyed; intro r; cases r <;> decide)
    (by decide) (by decide) (by decide) (Or.inl (by decide))
